import Mathlib

/-!
# Raytracer.cpp: zero-crossing search and image synthesis

A shallow embedding of `searchRay` and `raytraceImage` from `Raytracer.cpp`.

Modelling conventions.

* `double` and `float` values are elements of a linearly ordered field `α`
  (exact arithmetic; rounding and the float/double casts are the identity).
  The constant `1e-2` is `1/100`.
* The value `-inf` stored in the output buffers is the constructor
  `ExtNum.negInf`; every other stored value is `ExtNum.fin x`.
* `VoxelGrid` and `Pose` are declared outside `Raytracer.cpp`; they are taken
  as records of the members the file uses.
* `std::sqrt` (inside Eigen's `normalize`) is a parameter `sqrt : α → α`.
* The two `while (true)` loops take a fuel argument: `none` means the fuel ran
  out before the loop was left.
* `assert(depth != 0)` aborts the call: `Outcome.abort`.
* `marchVisited` and `bisectBrackets` are the two loops of `searchRay` again,
  recording the lengths visited and the brackets held instead of the result.
-/

namespace Raytracer

/-! ## Vectors and matrices (Eigen::Vector3d, Eigen::Matrix3d, cv::Vec3f) -/

/-- A three-component vector. -/
structure Vec3 (α : Type) where
  x : α
  y : α
  z : α
deriving DecidableEq

namespace Vec3

variable {α : Type}

/-- Componentwise sum, `a + b`. -/
def add [Add α] (a b : Vec3 α) : Vec3 α := ⟨a.x + b.x, a.y + b.y, a.z + b.z⟩

/-- Componentwise difference, `a - b`. -/
def sub [Sub α] (a b : Vec3 α) : Vec3 α := ⟨a.x - b.x, a.y - b.y, a.z - b.z⟩

/-- Vector times scalar, `a * s`. -/
def scale [Mul α] (a : Vec3 α) (s : α) : Vec3 α := ⟨a.x * s, a.y * s, a.z * s⟩

/-- Vector divided by scalar, `a /= s`. -/
def divScalar [Div α] (a : Vec3 α) (s : α) : Vec3 α := ⟨a.x / s, a.y / s, a.z / s⟩

/-- Eigen `squaredNorm()`. -/
def squaredNorm [Add α] [Mul α] (a : Vec3 α) : α := a.x * a.x + a.y * a.y + a.z * a.z

/-- Eigen `normalize()`: `z = squaredNorm(); if (z > 0) v /= sqrt(z)`. -/
def normalize [LinearOrderedField α] (sqrt : α → α) (a : Vec3 α) : Vec3 α :=
  let z := a.squaredNorm
  if z > 0 then a.divScalar (sqrt z) else a

instance [Add α] : Add (Vec3 α) := ⟨Vec3.add⟩
instance [Sub α] : Sub (Vec3 α) := ⟨Vec3.sub⟩
instance [Mul α] : HMul (Vec3 α) α (Vec3 α) := ⟨Vec3.scale⟩

end Vec3

/-- A 3x3 matrix, entry `mij` in row `i`, column `j`. -/
structure Mat3 (α : Type) where
  m00 : α
  m01 : α
  m02 : α
  m10 : α
  m11 : α
  m12 : α
  m20 : α
  m21 : α
  m22 : α
deriving DecidableEq

namespace Mat3

variable {α : Type}

/-- The identity matrix. -/
def one [Zero α] [One α] : Mat3 α := ⟨1, 0, 0, 0, 1, 0, 0, 0, 1⟩

/-- Eigen `transpose()`. -/
def transpose (m : Mat3 α) : Mat3 α :=
  ⟨m.m00, m.m10, m.m20, m.m01, m.m11, m.m21, m.m02, m.m12, m.m22⟩

/-- Matrix times vector. -/
def mulVec [Add α] [Mul α] (m : Mat3 α) (v : Vec3 α) : Vec3 α :=
  ⟨m.m00 * v.x + m.m01 * v.y + m.m02 * v.z,
   m.m10 * v.x + m.m11 * v.y + m.m12 * v.z,
   m.m20 * v.x + m.m21 * v.y + m.m22 * v.z⟩

/-- Matrix times matrix. -/
def mul [Add α] [Mul α] (a b : Mat3 α) : Mat3 α :=
  ⟨a.m00 * b.m00 + a.m01 * b.m10 + a.m02 * b.m20,
   a.m00 * b.m01 + a.m01 * b.m11 + a.m02 * b.m21,
   a.m00 * b.m02 + a.m01 * b.m12 + a.m02 * b.m22,
   a.m10 * b.m00 + a.m11 * b.m10 + a.m12 * b.m20,
   a.m10 * b.m01 + a.m11 * b.m11 + a.m12 * b.m21,
   a.m10 * b.m02 + a.m11 * b.m12 + a.m12 * b.m22,
   a.m20 * b.m00 + a.m21 * b.m10 + a.m22 * b.m20,
   a.m20 * b.m01 + a.m21 * b.m11 + a.m22 * b.m21,
   a.m20 * b.m02 + a.m21 * b.m12 + a.m22 * b.m22⟩

/-- The matrix is orthonormal: its transpose is its two-sided inverse. -/
def IsOrthonormal [Add α] [Mul α] [Zero α] [One α] (m : Mat3 α) : Prop :=
  m.transpose.mul m = Mat3.one ∧ m.mul m.transpose = Mat3.one

end Mat3

/-! ## External collaborators -/

/-- The members of `VoxelGrid` used by `Raytracer.cpp`.
`projectRayToVoxelPoint origin ray` is `some length` when the C++ member
returns `true` and leaves `length` in its out-parameter, `none` when it
returns `false`. -/
structure VoxelGrid (α : Type) where
  voxelSize : α
  withinGrid : Vec3 α → Bool
  getValueAtPoint : Vec3 α → α
  projectRayToVoxelPoint : Vec3 α → Vec3 α → Option α

/-- The members of `Pose` used by `Raytracer.cpp`. -/
structure Pose (α : Type) where
  translation : Vec3 α
  orientation : Mat3 α
  transformVector : Vec3 α → Vec3 α

/-! ## searchRay -/

section Search

variable {α : Type} [LinearOrderedField α]

/-- How the first loop of `searchRay` is left: `outside length` is the
`return false` of line 23 (with the value `length` then holds), and
`crossing previousLength length` is the `break` of line 28. -/
inductive MarchExit (α : Type) where
  | outside (length : α)
  | crossing (previousLength length : α)
deriving DecidableEq

/-- The first `while (true)` loop of `searchRay` (lines 17-29), started with
the current `length` and `pointValue`. -/
def march (g : VoxelGrid α) (origin ray : Vec3 α) (stepSize : α) :
    Nat → α → α → Option (MarchExit α)
  | 0, _, _ => none
  | fuel + 1, length, pointValue =>
    let previousLength := length
    let length := length + stepSize
    let point := origin + ray * length
    if !g.withinGrid point then some (MarchExit.outside length)
    else
      let previousPointValue := pointValue
      let pointValue := g.getValueAtPoint point
      if previousPointValue > 0 ∧ pointValue < 0 then
        some (MarchExit.crossing previousLength length)
      else march g origin ray stepSize fuel length pointValue

/-- The second `while (true)` loop of `searchRay` (lines 31-53), started with
the bracket `previousLength`, `length`; the result is the bracket when the
loop is left. -/
def bisect (g : VoxelGrid α) (origin ray : Vec3 α) (epsilon : α) :
    Nat → α → α → Option (α × α)
  | 0, _, _ => none
  | fuel + 1, previousLength, length =>
    let middleLength := (previousLength + length) / 2
    let middleValue := g.getValueAtPoint (origin + ray * middleLength)
    if middleValue > epsilon then
      let previousLength := middleLength
      if |length - previousLength| < 1 / 100 then some (previousLength, length)
      else bisect g origin ray epsilon fuel previousLength length
    else if middleValue < -epsilon then
      let length := middleLength
      if |length - previousLength| < 1 / 100 then some (previousLength, length)
      else bisect g origin ray epsilon fuel previousLength length
    else some (previousLength, length)

/-- `searchRay` (lines 7-56): the returned pair is the `bool` result and the
value left in the reference parameter `length`. Each loop may run `fuel`
iterations. -/
def searchRay (fuel : Nat) (g : VoxelGrid α) (origin ray : Vec3 α) (length : α)
    (stepSizeVoxel epsilon : α) : Option (Bool × α) :=
  let point := origin + ray * length
  let pointValue := g.getValueAtPoint point
  let stepSize := g.voxelSize * stepSizeVoxel
  match march g origin ray stepSize fuel length pointValue with
  | none => none
  | some (MarchExit.outside length) => some (false, length)
  | some (MarchExit.crossing previousLength length) =>
    match bisect g origin ray epsilon fuel previousLength length with
    | none => none
    | some (_, length) => some (true, length)

/-- The field value at parametric length `l` along the ray. -/
def sample (g : VoxelGrid α) (origin ray : Vec3 α) (l : α) : α :=
  g.getValueAtPoint (origin + ray * l)

/-- The point at parametric length `l` along the ray is inside the grid. -/
def inside (g : VoxelGrid α) (origin ray : Vec3 α) (l : α) : Bool :=
  g.withinGrid (origin + ray * l)

/-- The values that `length` takes in the first loop of `searchRay`, one for
each iteration run (line 20), in order; the loop is started as in `march`. -/
def marchVisited (g : VoxelGrid α) (origin ray : Vec3 α) (stepSize : α) :
    Nat → α → α → List α
  | 0, _, _ => []
  | fuel + 1, length, pointValue =>
    let length := length + stepSize
    let point := origin + ray * length
    if !g.withinGrid point then [length]
    else
      let previousPointValue := pointValue
      let pointValue := g.getValueAtPoint point
      if previousPointValue > 0 ∧ pointValue < 0 then [length]
      else length :: marchVisited g origin ray stepSize fuel length pointValue

/-- The brackets `(previousLength, length)` of the second loop of `searchRay`:
the bracket at the start of each iteration run (line 31), in order, followed,
when the loop is left, by the bracket at that moment. With no fuel left the
list ends with the bracket at the start of the iteration that is not run. -/
def bisectBrackets (g : VoxelGrid α) (origin ray : Vec3 α) (epsilon : α) :
    Nat → α → α → List (α × α)
  | 0, previousLength, length => [(previousLength, length)]
  | fuel + 1, previousLength, length =>
    let middleLength := (previousLength + length) / 2
    let middleValue := g.getValueAtPoint (origin + ray * middleLength)
    if middleValue > epsilon then
      if |length - middleLength| < 1 / 100 then
        [(previousLength, length), (middleLength, length)]
      else (previousLength, length) ::
        bisectBrackets g origin ray epsilon fuel middleLength length
    else if middleValue < -epsilon then
      if |middleLength - previousLength| < 1 / 100 then
        [(previousLength, length), (previousLength, middleLength)]
      else (previousLength, length) ::
        bisectBrackets g origin ray epsilon fuel previousLength middleLength
    else [(previousLength, length), (previousLength, length)]

end Search

/-! ## raytraceImage -/

/-- A value stored in an output buffer: `-inf` or a finite number. -/
inductive ExtNum (α : Type) where
  | negInf
  | fin (x : α)
deriving DecidableEq

/-- How a call ends: `timeout` when a loop of `searchRay` used up its fuel,
`abort` when `assert(depth != 0)` fails, `done b` when it returns. -/
inductive Outcome (β : Type) where
  | timeout
  | abort
  | done (b : β)
deriving DecidableEq

/-- Sequencing of calls that may not return. -/
def Outcome.bind {β γ : Type} : Outcome β → (β → Outcome γ) → Outcome γ
  | Outcome.timeout, _ => Outcome.timeout
  | Outcome.abort, _ => Outcome.abort
  | Outcome.done b, f => f b

/-- An output buffer (`cv::Mat`), indexed by row `v` and column `u`. -/
def Image (β : Type) : Type := Nat → Nat → β

/-- The `cv::Mat::setTo` of lines 64-65: every element becomes `c`. -/
def Image.setTo {β : Type} (_img : Image β) (c : β) : Image β := fun _ _ => c

/-- The assignment `img.at(v, u) = c`. -/
def Image.write {β : Type} (img : Image β) (v u : Nat) (c : β) : Image β :=
  fun v1 u1 => if v1 = v ∧ u1 = u then c else img v1 u1

/-- The "no intersection" depth, `-inf`. -/
def sentinelDepth {α : Type} : ExtNum α := ExtNum.negInf

/-- The "no intersection" normal, `cv::Vec3f(-inf, -inf, -inf)`. -/
def sentinelNormal {α : Type} : Vec3 (ExtNum α) :=
  ⟨ExtNum.negInf, ExtNum.negInf, ExtNum.negInf⟩

/-- A finite `cv::Vec3f`. -/
def finNormal {α : Type} (n : Vec3 α) : Vec3 (ExtNum α) :=
  ⟨ExtNum.fin n.x, ExtNum.fin n.y, ExtNum.fin n.z⟩

/-- Runs `body 0`, `body 1`, ..., `body (n - 1)` in this order: the loop
`for (int i = 0; i < n; ++i)`. -/
def forLoop {σ : Type} (body : Nat → σ → Outcome σ) : Nat → σ → Outcome σ
  | 0, s => Outcome.done s
  | n + 1, s => (forLoop body n s).bind (body n)

section Render

variable {α : Type} [LinearOrderedField α]

/-- The central-difference gradient of lines 101-114 at `point`. -/
def centralDifference (g : VoxelGrid α) (point : Vec3 α) : Vec3 α :=
  let voxelSize := g.voxelSize
  let valueXForward := g.getValueAtPoint (point + Vec3.mk voxelSize 0 0)
  let valueXBackward := g.getValueAtPoint (point + Vec3.mk (-voxelSize) 0 0)
  let valueYForward := g.getValueAtPoint (point + Vec3.mk 0 voxelSize 0)
  let valueYBackward := g.getValueAtPoint (point + Vec3.mk 0 (-voxelSize) 0)
  let valueZForward := g.getValueAtPoint (point + Vec3.mk 0 0 voxelSize)
  let valueZBackward := g.getValueAtPoint (point + Vec3.mk 0 0 (-voxelSize))
  Vec3.mk ((valueXForward - valueXBackward) / 2)
    ((valueYForward - valueYBackward) / 2)
    ((valueZForward - valueZBackward) / 2)

/-- The normal of lines 97-120 for a hit at `length` along the ray. -/
def hitNormal (sqrt : α → α) (g : VoxelGrid α) (cameraPose : Pose α)
    (origin ray : Vec3 α) (length : α) : Vec3 α :=
  let point := origin + ray * length
  let normalVec := centralDifference g point
  let normalVec := cameraPose.orientation.transpose.mulVec normalVec
  normalVec.normalize sqrt

/-- Lines 83-130 of the loop body: from the camera-space ray of the pixel to
the values stored in `depthImage.at(v, u)` and `normalImage.at(v, u)`. -/
def tracePixel (sqrt : α → α) (fuel : Nat) (g : VoxelGrid α) (cameraPose : Pose α)
    (stepSizeVoxel epsilon : α) (origin ray : Vec3 α) :
    Outcome (ExtNum α × Vec3 (ExtNum α)) :=
  let ray := cameraPose.transformVector ray
  match g.projectRayToVoxelPoint origin ray with
  | none => Outcome.done (sentinelDepth, sentinelNormal)
  | some length =>
    match searchRay fuel g origin ray length stepSizeVoxel epsilon with
    | none => Outcome.timeout
    | some (false, _) => Outcome.done (sentinelDepth, sentinelNormal)
    | some (true, length) =>
      if length = 0 then Outcome.abort
      else
        Outcome.done
          (ExtNum.fin length, finNormal (hitNormal sqrt g cameraPose origin ray length))

/-- The body of the inner `for` loop (lines 78-130) for the pixel in column
`u` of row `v`. -/
def pixelBody (sqrt : α → α) (fuel : Nat) (g : VoxelGrid α) (cameraPose : Pose α)
    (stepSizeVoxel epsilon fx fy cx cy : α) (origin : Vec3 α) (u v : Nat) :
    Outcome (ExtNum α × Vec3 (ExtNum α)) :=
  let rayX := ((u : α) - cx) / fx
  let rayY := ((v : α) - cy) / fy
  let ray := Vec3.mk rayX rayY 1
  tracePixel sqrt fuel g cameraPose stepSizeVoxel epsilon origin ray

/-- `raytraceImage` (lines 59-133): the contents of `depthImage` and
`normalImage` when the call returns. -/
def raytraceImage (sqrt : α → α) (fuel : Nat) (g : VoxelGrid α) (cameraPose : Pose α)
    (cameraIntrisic : Mat3 α) (resolutionWidth resolutionHeight : Nat)
    (stepSizeVoxel epsilon : α)
    (depthImage : Image (ExtNum α)) (normalImage : Image (Vec3 (ExtNum α))) :
    Outcome (Image (ExtNum α) × Image (Vec3 (ExtNum α))) :=
  let depthImage := depthImage.setTo sentinelDepth
  let normalImage := normalImage.setTo sentinelNormal
  let fx := cameraIntrisic.m00 * (resolutionWidth : α)
  let fy := cameraIntrisic.m11 * (resolutionHeight : α)
  let cx := cameraIntrisic.m02 * (resolutionWidth : α) - 1 / 2
  let cy := cameraIntrisic.m12 * (resolutionHeight : α) - 1 / 2
  let origin := cameraPose.translation
  forLoop
    (fun v images =>
      forLoop
        (fun u images =>
          (pixelBody sqrt fuel g cameraPose stepSizeVoxel epsilon fx fy cx cy origin u v).bind
            (fun px => Outcome.done (images.1.write v u px.1, images.2.write v u px.2)))
        resolutionWidth images)
    resolutionHeight (depthImage, normalImage)

end Render

/-! ## The sphere scenario -/

section SphereScenario

variable {α : Type} [LinearOrderedField α]

/-- A principal axis: a coordinate direction or its opposite. -/
def IsPrincipalAxis (a : Vec3 α) : Prop :=
  a = ⟨1, 0, 0⟩ ∨ a = ⟨-1, 0, 0⟩ ∨ a = ⟨0, 1, 0⟩ ∨ a = ⟨0, -1, 0⟩ ∨
    a = ⟨0, 0, 1⟩ ∨ a = ⟨0, 0, -1⟩

/-- The field of the grid is that of a sphere of radius `R` centred at the
origin: `value(p) = R - |p|`, with `|p| = sqrt (squaredNorm p)`. -/
def IsSphereField (sqrt : α → α) (R : α) (g : VoxelGrid α) : Prop :=
  ∀ p : Vec3 α, g.getValueAtPoint p = R - sqrt p.squaredNorm

end SphereScenario

/-! ## Concrete scenes -/

section Scenes

/-- A grid of voxel size 1 whose field falls linearly along the z axis,
`value(p) = 1/2 - p.z`, inside the box `|x| ≤ 1/2`, `|z| ≤ 3`; every ray
enters it at length 0. -/
def rampGrid : VoxelGrid ℚ where
  voxelSize := 1
  withinGrid := fun p => decide (-1 / 2 ≤ p.x ∧ p.x ≤ 1 / 2 ∧ -3 ≤ p.z ∧ p.z ≤ 3)
  getValueAtPoint := fun p => 1 / 2 - p.z
  projectRayToVoxelPoint := fun _ _ => some 0

/-- A camera at `t` whose axes are the world axes. -/
def identityPose (t : Vec3 ℚ) : Pose ℚ where
  translation := t
  orientation := Mat3.one
  transformVector := fun v => Mat3.one.mulVec v

/-- A grid of voxel size 1/50 whose field falls linearly along the z axis,
`value(p) = 1 - 100 * p.z`, inside `|z| ≤ 3`; every ray enters it at length 0. -/
def steepGrid (α : Type) [LinearOrderedField α] : VoxelGrid α where
  voxelSize := 1 / 50
  withinGrid := fun p => decide (-3 ≤ p.z ∧ p.z ≤ 3)
  getValueAtPoint := fun p => 1 - 100 * p.z
  projectRayToVoxelPoint := fun _ _ => some 0

/-- Intrinsics of a 1x1 image whose only pixel looks along the optical axis. -/
def centredIntrinsic : Mat3 ℚ := ⟨1, 0, 1 / 2, 0, 1, 1 / 2, 0, 0, 1⟩

/-- Intrinsics of a 2x1 image: pixel 0 looks along the optical axis, pixel 1
along `(1, 0, 1)`. -/
def twoPixelIntrinsic : Mat3 ℚ := ⟨1 / 2, 0, 1 / 4, 0, 1, 1 / 2, 0, 0, 1⟩

/-- Some previous content of a depth buffer. -/
def staleDepth : Image (ExtNum ℚ) := fun _ _ => ExtNum.fin 7

/-- Some previous content of a normal buffer. -/
def staleNormal : Image (Vec3 (ExtNum ℚ)) := fun _ _ => ⟨ExtNum.fin 7, ExtNum.fin 7, ExtNum.fin 7⟩

/-- A sphere of radius 1 centred at the origin, `value(p) = 1 - |p|`, in a
grid of voxel size 3/10 that spans `|z| ≤ 3/2`; a ray travelling towards
positive z enters the grid through the plane `z = -3/2`. -/
def sphereGrid : VoxelGrid ℚ where
  voxelSize := 3 / 10
  withinGrid := fun p => decide (-3 / 2 ≤ p.z ∧ p.z ≤ 3 / 2)
  getValueAtPoint := fun p => 1 - Rat.sqrt p.squaredNorm
  projectRayToVoxelPoint := fun origin ray =>
    if 0 < ray.z then some ((-3 / 2 - origin.z) / ray.z) else none

/-- A grid of voxel size 1 whose field is
`value(p) = 1 - 2 z + (4/3) z (z - 1/2) (z - 1) + x^2`: along the z axis it
takes the values 1, 0, -1, 1 at z = 0, 1/2, 1, 2. -/
def saddleGrid : VoxelGrid ℚ where
  voxelSize := 1
  withinGrid := fun p => decide (-3 ≤ p.z ∧ p.z ≤ 3)
  getValueAtPoint := fun p =>
    1 - 2 * p.z + 4 / 3 * p.z * (p.z - 1 / 2) * (p.z - 1) + p.x * p.x
  projectRayToVoxelPoint := fun _ _ => some 0

end Scenes

/-! ## Vector arithmetic -/

section VecLemmas

variable {α : Type}

theorem Vec3.add_def [Add α] (a b : Vec3 α) :
    a + b = ⟨a.x + b.x, a.y + b.y, a.z + b.z⟩ := rfl

theorem Vec3.sub_def [Sub α] (a b : Vec3 α) :
    a - b = ⟨a.x - b.x, a.y - b.y, a.z - b.z⟩ := rfl

theorem Vec3.scale_def [Mul α] (a : Vec3 α) (s : α) :
    a * s = ⟨a.x * s, a.y * s, a.z * s⟩ := rfl

end VecLemmas

/-! ## Properties of the coarse march -/

section MarchLemmas

variable {α : Type} [LinearOrderedField α]

theorem len_shift (L s : α) (k : Nat) :
    L + s + (k : α) * s = L + ((k + 1 : Nat) : α) * s := by
  push_cast; ring

theorem march_succ (g : VoxelGrid α) (origin ray : Vec3 α) (s : α) (fuel : Nat) (L pv : α) :
    march g origin ray s (fuel + 1) L pv =
      if inside g origin ray (L + s) = false then some (MarchExit.outside (L + s))
      else if pv > 0 ∧ sample g origin ray (L + s) < 0 then
        some (MarchExit.crossing L (L + s))
      else march g origin ray s fuel (L + s) (sample g origin ray (L + s)) := by
  simp only [march, inside, sample]
  cases g.withinGrid (origin + ray * (L + s)) <;> simp

/-- More fuel does not change a result of the march. -/
theorem march_mono (g : VoxelGrid α) (origin ray : Vec3 α) (s : α) (fuel : Nat) :
    ∀ (L pv : α) (r : MarchExit α), march g origin ray s fuel L pv = some r →
      ∀ more : Nat, march g origin ray s (fuel + more) L pv = some r := by
  induction fuel with
  | zero => intro L pv r h; simp [march] at h
  | succ n ih =>
    intro L pv r h more
    rw [show n + 1 + more = (n + more) + 1 by omega, march_succ]
    rw [march_succ] at h
    split_ifs at h ⊢ with h1 h2
    · exact h
    · exact h
    · exact ih _ _ _ h more

/-- The march leaves the grid: a point `L + n*s` outside the grid, and no
positive-to-negative pair before it, make the loop return through line 23. -/
theorem march_leaves (g : VoxelGrid α) (origin ray : Vec3 α) (s : α) (n : Nat) :
    ∀ (L pv : α), 1 ≤ n →
      inside g origin ray (L + (n : α) * s) = false →
      (2 ≤ n → ¬ (pv > 0 ∧ sample g origin ray (L + s) < 0)) →
      (∀ k : Nat, 1 ≤ k → k + 2 ≤ n →
        ¬ (sample g origin ray (L + (k : α) * s) > 0 ∧
            sample g origin ray (L + ((k + 1 : Nat) : α) * s) < 0)) →
      ∃ m : Nat, 1 ≤ m ∧ m ≤ n ∧
        march g origin ray s n L pv = some (MarchExit.outside (L + (m : α) * s)) := by
  induction n with
  | zero => intro L pv h; omega
  | succ n ih =>
    intro L pv _ hout h0 hk
    rw [march_succ]
    by_cases h1 : inside g origin ray (L + s) = false
    · exact ⟨1, le_refl 1, by omega, by simp [h1]⟩
    · have hn : 1 ≤ n := by
        rcases Nat.eq_zero_or_pos n with h | h
        · subst h; simp at hout; exact absurd hout h1
        · exact h
      rw [if_neg h1, if_neg (h0 (by omega))]
      have hout2 : inside g origin ray (L + s + (n : α) * s) = false := by
        rw [len_shift]; exact hout
      have h02 : 2 ≤ n → ¬ (sample g origin ray (L + s) > 0 ∧
          sample g origin ray (L + s + s) < 0) := by
        intro h2
        have := hk 1 (le_refl 1) (by omega)
        have e : L + ((1 + 1 : Nat) : α) * s = L + s + s := by push_cast; ring
        rw [e] at this
        simpa using this
      have hk2 : ∀ k : Nat, 1 ≤ k → k + 2 ≤ n →
          ¬ (sample g origin ray (L + s + (k : α) * s) > 0 ∧
              sample g origin ray (L + s + ((k + 1 : Nat) : α) * s) < 0) := by
        intro k hk1 hk2
        rw [len_shift, len_shift]
        exact hk (k + 1) (by omega) (by omega)
      obtain ⟨m, hm1, hm2, hm⟩ := ih (L + s) (sample g origin ray (L + s)) hn hout2 h02 hk2
      exact ⟨m + 1, by omega, by omega, by rw [hm, len_shift]⟩

/-- What a `break` of the march means: the bracket is a pair of consecutive
march lengths, the first positive-to-negative pair, reached inside the grid. -/
theorem march_crossing_sound (g : VoxelGrid α) (origin ray : Vec3 α) (s : α) (fuel : Nat) :
    ∀ (L pv p l : α), pv = sample g origin ray L →
      march g origin ray s fuel L pv = some (MarchExit.crossing p l) →
      ∃ k : Nat, p = L + (k : α) * s ∧ l = L + ((k + 1 : Nat) : α) * s ∧
        sample g origin ray p > 0 ∧ sample g origin ray l < 0 ∧
        (∀ j : Nat, j ≤ k → inside g origin ray (L + ((j + 1 : Nat) : α) * s) = true) ∧
        (∀ j : Nat, j < k →
          ¬ (sample g origin ray (L + (j : α) * s) > 0 ∧
              sample g origin ray (L + ((j + 1 : Nat) : α) * s) < 0)) := by
  induction fuel with
  | zero => intro L pv p l _ h; simp [march] at h
  | succ n ih =>
    intro L pv p l hpv h
    rw [march_succ] at h
    have e1 : L + ((0 + 1 : Nat) : α) * s = L + s := by push_cast; ring
    split_ifs at h with h1 h2
    · simp at h
    · simp only [Option.some.injEq, MarchExit.crossing.injEq] at h
      obtain ⟨hp, hl⟩ := h
      subst hp hl
      refine ⟨0, by simp, by simp, ?_, h2.2, ?_, ?_⟩
      · rw [← hpv]; exact h2.1
      · intro j hj
        have : j = 0 := by omega
        subst this
        rw [e1]; simpa using h1
      · intro j hj; omega
    · obtain ⟨k, hp, hl, hsp, hsl, hin, hno⟩ := ih (L + s) _ p l rfl h
      refine ⟨k + 1, by rw [hp, len_shift], by rw [hl, len_shift], hsp, hsl, ?_, ?_⟩
      · intro j hj
        rcases Nat.eq_zero_or_pos j with h0 | h0
        · subst h0; rw [e1]; simpa using h1
        · obtain ⟨i, rfl⟩ : ∃ i, j = i + 1 := ⟨j - 1, by omega⟩
          rw [← len_shift]; exact hin i (by omega)
      · intro j hj
        rcases Nat.eq_zero_or_pos j with h0 | h0
        · subst h0
          rw [e1]
          simpa [← hpv] using h2
        · obtain ⟨i, rfl⟩ : ∃ i, j = i + 1 := ⟨j - 1, by omega⟩
          rw [← len_shift, ← len_shift]; exact hno i (by omega)

end MarchLemmas

/-! ## Properties of the bisection -/

section BisectLemmas

variable {α : Type} [LinearOrderedField α]

theorem bisect_succ (g : VoxelGrid α) (origin ray : Vec3 α) (eps : α) (fuel : Nat) (p l : α) :
    bisect g origin ray eps (fuel + 1) p l =
      if sample g origin ray ((p + l) / 2) > eps then
        if |l - (p + l) / 2| < 1 / 100 then some ((p + l) / 2, l)
        else bisect g origin ray eps fuel ((p + l) / 2) l
      else if sample g origin ray ((p + l) / 2) < -eps then
        if |(p + l) / 2 - p| < 1 / 100 then some (p, (p + l) / 2)
        else bisect g origin ray eps fuel p ((p + l) / 2)
      else some (p, l) := by
  simp only [bisect, sample]

/-- More fuel does not change a result of the bisection. -/
theorem bisect_mono (g : VoxelGrid α) (origin ray : Vec3 α) (eps : α) (fuel : Nat) :
    ∀ (p l : α) (r : α × α), bisect g origin ray eps fuel p l = some r →
      ∀ more : Nat, bisect g origin ray eps (fuel + more) p l = some r := by
  induction fuel with
  | zero => intro p l r h; simp [bisect] at h
  | succ n ih =>
    intro p l r h more
    rw [show n + 1 + more = (n + more) + 1 by omega, bisect_succ]
    rw [bisect_succ] at h
    split_ifs at h ⊢ with h1 h2 h3 h4
    · exact h
    · exact ih _ _ _ h more
    · exact h
    · exact ih _ _ _ h more
    · exact h

/-- The bracket when the bisection is left lies inside the bracket it was
started with, and is not empty. -/
theorem bisect_bracket (g : VoxelGrid α) (origin ray : Vec3 α) (eps : α) (fuel : Nat) :
    ∀ (p l p1 l1 : α), p < l → bisect g origin ray eps fuel p l = some (p1, l1) →
      p ≤ p1 ∧ p1 < l1 ∧ l1 ≤ l := by
  induction fuel with
  | zero => intro p l p1 l1 _ h; simp [bisect] at h
  | succ n ih =>
    intro p l p1 l1 hpl h
    rw [bisect_succ] at h
    have hm1 : p < (p + l) / 2 := by linarith
    have hm2 : (p + l) / 2 < l := by linarith
    split_ifs at h with h1 h2 h3 h4
    · simp only [Option.some.injEq, Prod.mk.injEq] at h
      obtain ⟨rfl, rfl⟩ := h
      exact ⟨le_of_lt hm1, hm2, le_refl _⟩
    · obtain ⟨a, b, c⟩ := ih _ _ _ _ hm2 h
      exact ⟨by linarith, b, c⟩
    · simp only [Option.some.injEq, Prod.mk.injEq] at h
      obtain ⟨rfl, rfl⟩ := h
      exact ⟨le_refl _, hm1, le_of_lt hm2⟩
    · obtain ⟨a, b, c⟩ := ih _ _ _ _ hm1 h
      exact ⟨a, b, by linarith⟩
    · simp only [Option.some.injEq, Prod.mk.injEq] at h
      obtain ⟨rfl, rfl⟩ := h
      exact ⟨le_refl _, hpl, le_refl _⟩

/-- With a tolerance that is not negative, the field stays positive at the
lower end of the bracket and negative at its upper end. -/
theorem bisect_signs (g : VoxelGrid α) (origin ray : Vec3 α) (eps : α) (heps : 0 ≤ eps)
    (fuel : Nat) :
    ∀ (p l p1 l1 : α), sample g origin ray p > 0 → sample g origin ray l < 0 →
      bisect g origin ray eps fuel p l = some (p1, l1) →
      sample g origin ray p1 > 0 ∧ sample g origin ray l1 < 0 := by
  induction fuel with
  | zero => intro p l p1 l1 _ _ h; simp [bisect] at h
  | succ n ih =>
    intro p l p1 l1 hp hl h
    rw [bisect_succ] at h
    split_ifs at h with h1 h2 h3 h4
    · simp only [Option.some.injEq, Prod.mk.injEq] at h
      obtain ⟨rfl, rfl⟩ := h
      exact ⟨lt_of_le_of_lt heps h1, hl⟩
    · exact ih _ _ _ _ (lt_of_le_of_lt heps h1) hl h
    · simp only [Option.some.injEq, Prod.mk.injEq] at h
      obtain ⟨rfl, rfl⟩ := h
      exact ⟨hp, by linarith⟩
    · exact ih _ _ _ _ hp (by linarith) h
    · simp only [Option.some.injEq, Prod.mk.injEq] at h
      obtain ⟨rfl, rfl⟩ := h
      exact ⟨hp, hl⟩

end BisectLemmas

/-! ## The lengths visited by the march and the brackets of the bisection -/

section TraceLemmas

variable {α : Type} [LinearOrderedField α]

theorem marchVisited_succ (g : VoxelGrid α) (origin ray : Vec3 α) (s : α) (fuel : Nat) (L pv : α) :
    marchVisited g origin ray s (fuel + 1) L pv =
      if inside g origin ray (L + s) = false then [L + s]
      else if pv > 0 ∧ sample g origin ray (L + s) < 0 then [L + s]
      else (L + s) :: marchVisited g origin ray s fuel (L + s) (sample g origin ray (L + s)) := by
  simp only [marchVisited, inside, sample]
  cases g.withinGrid (origin + ray * (L + s)) <;> simp

/-- The visited lengths are `L + s`, `L + 2*s`, ... -/
theorem marchVisited_getElem (g : VoxelGrid α) (origin ray : Vec3 α) (s : α) (fuel : Nat) :
    ∀ (L pv : α) (k : Nat), k < (marchVisited g origin ray s fuel L pv).length →
      (marchVisited g origin ray s fuel L pv)[k]? = some (L + ((k + 1 : Nat) : α) * s) := by
  induction fuel with
  | zero => intro L pv k hk; simp [marchVisited] at hk
  | succ n ih =>
    intro L pv k hk
    have e1 : L + ((0 + 1 : Nat) : α) * s = L + s := by push_cast; ring
    rw [marchVisited_succ] at hk ⊢
    split_ifs at hk ⊢ with h1 h2
    · simp only [List.length_singleton, Nat.lt_one_iff] at hk
      subst hk
      simp [e1]
    · simp only [List.length_singleton, Nat.lt_one_iff] at hk
      subst hk
      simp [e1]
    · cases k with
      | zero => simp [e1]
      | succ k =>
        simp only [List.length_cons, Nat.add_lt_add_iff_right] at hk
        rw [List.getElem?_cons_succ, ih _ _ k hk, len_shift]

/-- The loop runs at most `fuel` iterations. -/
theorem marchVisited_length_le (g : VoxelGrid α) (origin ray : Vec3 α) (s : α) (fuel : Nat) :
    ∀ (L pv : α), (marchVisited g origin ray s fuel L pv).length ≤ fuel := by
  induction fuel with
  | zero => intro L pv; simp [marchVisited]
  | succ n ih =>
    intro L pv
    rw [marchVisited_succ]
    split_ifs with h1 h2
    · simp
    · simp
    · simp only [List.length_cons, Nat.add_le_add_iff_right]
      exact ih _ _

/-- When the first loop is left, the value it leaves in `length` is the last
one visited. -/
theorem march_last_visited (g : VoxelGrid α) (origin ray : Vec3 α) (s : α) (fuel : Nat) :
    ∀ (L pv : α) (e : MarchExit α), march g origin ray s fuel L pv = some e →
      (marchVisited g origin ray s fuel L pv).getLast? =
        some (match e with
          | MarchExit.outside l => l
          | MarchExit.crossing _ l => l) := by
  induction fuel with
  | zero => intro L pv e h; simp [march] at h
  | succ n ih =>
    intro L pv e h
    rw [march_succ] at h
    rw [marchVisited_succ]
    split_ifs at h ⊢ with h1 h2
    · simp only [Option.some.injEq] at h
      subst h
      simp
    · simp only [Option.some.injEq] at h
      subst h
      simp
    · have := ih _ _ e h
      cases hv : marchVisited g origin ray s n (L + s) (sample g origin ray (L + s)) with
      | nil => rw [hv] at this; simp at this
      | cons a t =>
        rw [hv] at this
        rw [List.getLast?_cons_cons]
        exact this

theorem bisectBrackets_succ (g : VoxelGrid α) (origin ray : Vec3 α) (eps : α) (fuel : Nat)
    (p l : α) :
    bisectBrackets g origin ray eps (fuel + 1) p l =
      if sample g origin ray ((p + l) / 2) > eps then
        if |l - (p + l) / 2| < 1 / 100 then [(p, l), ((p + l) / 2, l)]
        else (p, l) :: bisectBrackets g origin ray eps fuel ((p + l) / 2) l
      else if sample g origin ray ((p + l) / 2) < -eps then
        if |(p + l) / 2 - p| < 1 / 100 then [(p, l), (p, (p + l) / 2)]
        else (p, l) :: bisectBrackets g origin ray eps fuel p ((p + l) / 2)
      else [(p, l), (p, l)] := by
  simp only [bisectBrackets, sample]

/-- The list of brackets starts with the bracket the loop is entered with. -/
theorem bisectBrackets_head (g : VoxelGrid α) (origin ray : Vec3 α) (eps : α) (fuel : Nat)
    (p l : α) :
    (bisectBrackets g origin ray eps fuel p l)[0]? = some (p, l) := by
  cases fuel with
  | zero => simp [bisectBrackets]
  | succ n =>
    rw [bisectBrackets_succ]
    split_ifs <;> simp

/-- When the second loop is left, the bracket it returns is the last of the
list. -/
theorem bisect_last_bracket (g : VoxelGrid α) (origin ray : Vec3 α) (eps : α) (fuel : Nat) :
    ∀ (p l : α) (r : α × α), bisect g origin ray eps fuel p l = some r →
      (bisectBrackets g origin ray eps fuel p l).getLast? = some r := by
  induction fuel with
  | zero => intro p l r h; simp [bisect] at h
  | succ n ih =>
    intro p l r h
    rw [bisect_succ] at h
    rw [bisectBrackets_succ]
    split_ifs at h ⊢ with h1 h2 h3 h4
    · simp only [Option.some.injEq] at h; subst h; simp
    · have := ih _ _ r h
      cases hv : bisectBrackets g origin ray eps n ((p + l) / 2) l with
      | nil => rw [hv] at this; simp at this
      | cons a t => rw [hv] at this; rw [List.getLast?_cons_cons]; exact this
    · simp only [Option.some.injEq] at h; subst h; simp
    · have := ih _ _ r h
      cases hv : bisectBrackets g origin ray eps n p ((p + l) / 2) with
      | nil => rw [hv] at this; simp at this
      | cons a t => rw [hv] at this; rw [List.getLast?_cons_cons]; exact this
    · simp only [Option.some.injEq] at h; subst h; simp

/-- Every bracket of the list is not empty, and each lies inside the one
before it. -/
theorem bisectBrackets_nested (g : VoxelGrid α) (origin ray : Vec3 α) (eps : α) (fuel : Nat) :
    ∀ (p l : α), p < l →
      (∀ (j : Nat) (b : α × α), (bisectBrackets g origin ray eps fuel p l)[j]? = some b →
        b.1 < b.2) ∧
      (∀ (j : Nat) (a b : α × α), (bisectBrackets g origin ray eps fuel p l)[j]? = some a →
        (bisectBrackets g origin ray eps fuel p l)[j + 1]? = some b →
        a.1 ≤ b.1 ∧ b.2 ≤ a.2) := by
  induction fuel with
  | zero =>
    intro p l hpl
    constructor
    · intro j b hb
      cases j with
      | zero => simp [bisectBrackets] at hb; rw [← hb]; exact hpl
      | succ j => simp [bisectBrackets] at hb
    · intro j a b _ hb
      simp [bisectBrackets] at hb
  | succ n ih =>
    intro p l hpl
    have hm1 : p < (p + l) / 2 := by linarith
    have hm2 : (p + l) / 2 < l := by linarith
    rw [bisectBrackets_succ]
    split_ifs with h1 h2 h3 h4
    · constructor
      · intro j b hb
        rcases j with _ | _ | j
        · simp at hb; rw [← hb]; exact hpl
        · simp at hb; rw [← hb]; exact hm2
        · simp at hb
      · intro j a b ha hb
        rcases j with _ | j
        · simp at ha hb; rw [← ha, ← hb]; exact ⟨le_of_lt hm1, le_refl _⟩
        · simp at hb
    · obtain ⟨i1, i2⟩ := ih _ _ hm2
      constructor
      · intro j b hb
        rcases j with _ | j
        · simp at hb; rw [← hb]; exact hpl
        · rw [List.getElem?_cons_succ] at hb; exact i1 j b hb
      · intro j a b ha hb
        rw [List.getElem?_cons_succ] at hb
        rcases j with _ | j
        · rw [bisectBrackets_head] at hb
          simp at ha hb; rw [← ha, ← hb]; exact ⟨le_of_lt hm1, le_refl _⟩
        · rw [List.getElem?_cons_succ] at ha; exact i2 j a b ha hb
    · constructor
      · intro j b hb
        rcases j with _ | _ | j
        · simp at hb; rw [← hb]; exact hpl
        · simp at hb; rw [← hb]; exact hm1
        · simp at hb
      · intro j a b ha hb
        rcases j with _ | j
        · simp at ha hb; rw [← ha, ← hb]; exact ⟨le_refl _, le_of_lt hm2⟩
        · simp at hb
    · obtain ⟨i1, i2⟩ := ih _ _ hm1
      constructor
      · intro j b hb
        rcases j with _ | j
        · simp at hb; rw [← hb]; exact hpl
        · rw [List.getElem?_cons_succ] at hb; exact i1 j b hb
      · intro j a b ha hb
        rw [List.getElem?_cons_succ] at hb
        rcases j with _ | j
        · rw [bisectBrackets_head] at hb
          simp at ha hb; rw [← ha, ← hb]; exact ⟨le_refl _, le_of_lt hm2⟩
        · rw [List.getElem?_cons_succ] at ha; exact i2 j a b ha hb
    · constructor
      · intro j b hb
        rcases j with _ | _ | j
        · simp at hb; rw [← hb]; exact hpl
        · simp at hb; rw [← hb]; exact hpl
        · simp at hb
      · intro j a b ha hb
        rcases j with _ | j
        · simp at ha hb; rw [← ha, ← hb]; exact ⟨le_refl _, le_refl _⟩
        · simp at hb

/-- With a tolerance that is not negative, the field is positive at the lower
end and negative at the upper end of every bracket of the list. -/
theorem bisectBrackets_signs (g : VoxelGrid α) (origin ray : Vec3 α) (eps : α)
    (heps : 0 ≤ eps) (fuel : Nat) :
    ∀ (p l : α), sample g origin ray p > 0 → sample g origin ray l < 0 →
      ∀ (j : Nat) (b : α × α), (bisectBrackets g origin ray eps fuel p l)[j]? = some b →
        sample g origin ray b.1 > 0 ∧ sample g origin ray b.2 < 0 := by
  induction fuel with
  | zero =>
    intro p l hp hl j b hb
    cases j with
    | zero => simp [bisectBrackets] at hb; rw [← hb]; exact ⟨hp, hl⟩
    | succ j => simp [bisectBrackets] at hb
  | succ n ih =>
    intro p l hp hl j b hb
    rw [bisectBrackets_succ] at hb
    split_ifs at hb with h1 h2 h3 h4
    · rcases j with _ | _ | j
      · simp at hb; rw [← hb]; exact ⟨hp, hl⟩
      · simp at hb; rw [← hb]; exact ⟨lt_of_le_of_lt heps h1, hl⟩
      · simp at hb
    · rcases j with _ | j
      · simp at hb; rw [← hb]; exact ⟨hp, hl⟩
      · rw [List.getElem?_cons_succ] at hb
        exact ih _ _ (lt_of_le_of_lt heps h1) hl j b hb
    · rcases j with _ | _ | j
      · simp at hb; rw [← hb]; exact ⟨hp, hl⟩
      · simp at hb; rw [← hb]; exact ⟨hp, by linarith⟩
      · simp at hb
    · rcases j with _ | j
      · simp at hb; rw [← hb]; exact ⟨hp, hl⟩
      · rw [List.getElem?_cons_succ] at hb
        exact ih _ _ hp (by linarith) j b hb
    · rcases j with _ | _ | j
      · simp at hb; rw [← hb]; exact ⟨hp, hl⟩
      · simp at hb; rw [← hb]; exact ⟨hp, hl⟩
      · simp at hb

/-- The bracket at the start of iteration `j + 1` has the width of the first
one divided by `2 ^ j`. -/
theorem bisectBrackets_width (g : VoxelGrid α) (origin ray : Vec3 α) (eps : α) (fuel : Nat) :
    ∀ (p l : α) (j : Nat) (b : α × α),
      j + 1 < (bisectBrackets g origin ray eps fuel p l).length →
      (bisectBrackets g origin ray eps fuel p l)[j]? = some b →
      b.2 - b.1 = (l - p) / 2 ^ j := by
  induction fuel with
  | zero => intro p l j b hj; simp [bisectBrackets] at hj
  | succ n ih =>
    intro p l j b hj hb
    rw [bisectBrackets_succ] at hj hb
    split_ifs at hj hb with h1 h2 h3 h4
    · have : j = 0 := by simp at hj; omega
      subst this; simp at hb; rw [← hb]; simp
    · rcases j with _ | j
      · simp at hb; rw [← hb]; simp
      · simp only [List.length_cons, Nat.add_lt_add_iff_right] at hj
        rw [List.getElem?_cons_succ] at hb
        rw [ih _ _ j b hj hb, pow_succ]
        field_simp
        ring
    · have : j = 0 := by simp at hj; omega
      subst this; simp at hb; rw [← hb]; simp
    · rcases j with _ | j
      · simp at hb; rw [← hb]; simp
      · simp only [List.length_cons, Nat.add_lt_add_iff_right] at hj
        rw [List.getElem?_cons_succ] at hb
        rw [ih _ _ j b hj hb, pow_succ]
        field_simp
        ring
    · have : j = 0 := by simp at hj; omega
      subst this; simp at hb; rw [← hb]; simp

/-- The second loop is left within `j + 1` iterations when the width of the
bracket divided by `2 ^ (j + 1)` is below 1/100. -/
theorem bisect_terminates (g : VoxelGrid α) (origin ray : Vec3 α) (eps : α) (j : Nat) :
    ∀ (p l : α), p < l → (l - p) / 2 ^ (j + 1) < 1 / 100 →
      ∃ r, bisect g origin ray eps (j + 1) p l = some r := by
  induction j with
  | zero =>
    intro p l hpl hw
    have e1 : |l - (p + l) / 2| = (l - p) / 2 ^ (0 + 1) := by
      rw [abs_of_pos (by linarith)]; ring
    have e2 : |(p + l) / 2 - p| = (l - p) / 2 ^ (0 + 1) := by
      rw [abs_of_pos (by linarith)]; ring
    rw [bisect_succ]
    split_ifs with h1 h2 h3 h4
    · exact ⟨_, rfl⟩
    · exact absurd (e1 ▸ hw) h2
    · exact ⟨_, rfl⟩
    · exact absurd (e2 ▸ hw) h4
    · exact ⟨_, rfl⟩
  | succ j ih =>
    intro p l hpl hw
    rw [bisect_succ]
    split_ifs with h1 h2 h3 h4
    · exact ⟨_, rfl⟩
    · apply ih _ _ (by linarith)
      have : (l - (p + l) / 2) / 2 ^ (j + 1) = (l - p) / 2 ^ (j + 1 + 1) := by
        rw [pow_succ _ (j + 1)]; field_simp; ring
      rw [this]; exact hw
    · exact ⟨_, rfl⟩
    · apply ih _ _ (by linarith)
      have : ((p + l) / 2 - p) / 2 ^ (j + 1) = (l - p) / 2 ^ (j + 1 + 1) := by
        rw [pow_succ _ (j + 1)]; field_simp; ring
      rw [this]; exact hw
    · exact ⟨_, rfl⟩

/-- In an Archimedean field some power of two brings any width below 1/100. -/
theorem exists_halving [Archimedean α] (w : α) : ∃ j : Nat, w / 2 ^ (j + 1) < 1 / 100 := by
  obtain ⟨n, hn⟩ := exists_nat_gt (w * 100)
  refine ⟨n, ?_⟩
  have h2 : (n : α) < 2 ^ (n + 1) := by
    have : n < 2 ^ (n + 1) :=
      lt_trans (Nat.lt_two_pow n) (Nat.pow_lt_pow_right (by norm_num) (Nat.lt_succ_self n))
    exact_mod_cast this
  have hpos : (0 : α) < 2 ^ (n + 1) := by positivity
  rw [div_lt_iff₀ hpos]
  linarith

end TraceLemmas

/-! ## Properties of searchRay -/

section SearchLemmas

variable {α : Type} [LinearOrderedField α]

/-- The call returns `true` exactly when the march breaks and the bisection,
started on the bracket of the march, is left with `length` as upper end. -/
theorem searchRay_true_iff (fuel : Nat) (g : VoxelGrid α) (origin ray : Vec3 α)
    (L ssv eps l : α) :
    searchRay fuel g origin ray L ssv eps = some (true, l) ↔
      ∃ p0 l0 p1 : α,
        march g origin ray (g.voxelSize * ssv) fuel L (sample g origin ray L) =
          some (MarchExit.crossing p0 l0) ∧
        bisect g origin ray eps fuel p0 l0 = some (p1, l) := by
  simp only [searchRay, sample]
  cases hm : march g origin ray (g.voxelSize * ssv) fuel L
      (g.getValueAtPoint (origin + ray * L)) with
  | none => simp
  | some e =>
    cases e with
    | outside l1 => simp
    | crossing p0 l0 =>
      cases hb : bisect g origin ray eps fuel p0 l0 with
      | none => simp [hb]
      | some r =>
        obtain ⟨p1, l1⟩ := r
        constructor
        · intro h
          simp only [hb, Option.some.injEq, Prod.mk.injEq, true_and] at h
          subst h
          exact ⟨p0, l0, p1, rfl, hb⟩
        · rintro ⟨a, b, c, hab, hc⟩
          simp only [Option.some.injEq, MarchExit.crossing.injEq] at hab
          obtain ⟨rfl, rfl⟩ := hab
          rw [hb] at hc
          simp only [Option.some.injEq, Prod.mk.injEq] at hc
          simp [hb, hc.2]

/-- The call returns `false` exactly when the march leaves the grid. -/
theorem searchRay_false_iff (fuel : Nat) (g : VoxelGrid α) (origin ray : Vec3 α)
    (L ssv eps l : α) :
    searchRay fuel g origin ray L ssv eps = some (false, l) ↔
      march g origin ray (g.voxelSize * ssv) fuel L (sample g origin ray L) =
        some (MarchExit.outside l) := by
  simp only [searchRay, sample]
  cases hm : march g origin ray (g.voxelSize * ssv) fuel L
      (g.getValueAtPoint (origin + ray * L)) with
  | none => simp
  | some e =>
    cases e with
    | outside l1 => simp
    | crossing p0 l0 =>
      cases hb : bisect g origin ray eps fuel p0 l0 with
      | none => simp [hb]
      | some r => simp [hb]

/-- More fuel does not change a result of `searchRay`. -/
theorem searchRay_mono (fuel : Nat) (g : VoxelGrid α) (origin ray : Vec3 α)
    (L ssv eps : α) (r : Bool × α)
    (h : searchRay fuel g origin ray L ssv eps = some r) (more : Nat) :
    searchRay (fuel + more) g origin ray L ssv eps = some r := by
  obtain ⟨b, l⟩ := r
  cases b with
  | false =>
    rw [searchRay_false_iff] at h ⊢
    exact march_mono g origin ray _ fuel _ _ _ h more
  | true =>
    rw [searchRay_true_iff] at h ⊢
    obtain ⟨p0, l0, p1, hm, hb⟩ := h
    exact ⟨p0, l0, p1, march_mono g origin ray _ fuel _ _ _ hm more,
      bisect_mono g origin ray eps fuel _ _ _ hb more⟩

/-- A length returned with `true` lies strictly above the lower end of the
bracket of the march, which is a march length `L + k*s`, and at most at its
upper end `L + (k+1)*s`; the field is positive at `L + k*s`. -/
theorem searchRay_true_bounds (fuel : Nat) (g : VoxelGrid α) (origin ray : Vec3 α)
    (L ssv eps l : α) (hs : 0 < g.voxelSize * ssv)
    (h : searchRay fuel g origin ray L ssv eps = some (true, l)) :
    ∃ k : Nat, L + (k : α) * (g.voxelSize * ssv) < l ∧
      l ≤ L + ((k + 1 : Nat) : α) * (g.voxelSize * ssv) ∧
      sample g origin ray (L + (k : α) * (g.voxelSize * ssv)) > 0 := by
  rw [searchRay_true_iff] at h
  obtain ⟨p0, l0, p1, hm, hb⟩ := h
  obtain ⟨k, hp, hl, hsp, -, -, -⟩ := march_crossing_sound g origin ray _ fuel L _ p0 l0 rfl hm
  have hlt : p0 < l0 := by
    rw [hp, hl]; push_cast; linarith
  obtain ⟨a, b, c⟩ := bisect_bracket g origin ray eps fuel p0 l0 p1 l hlt hb
  exact ⟨k, by rw [← hp]; linarith, by rw [← hl]; exact c, by rw [← hp]; exact hsp⟩

/-- With a tolerance that is not negative, the field is negative at a length
returned with `true`. -/
theorem searchRay_true_neg (fuel : Nat) (g : VoxelGrid α) (origin ray : Vec3 α)
    (L ssv eps l : α) (heps : 0 ≤ eps)
    (h : searchRay fuel g origin ray L ssv eps = some (true, l)) :
    sample g origin ray l < 0 := by
  rw [searchRay_true_iff] at h
  obtain ⟨p0, l0, p1, hm, hb⟩ := h
  obtain ⟨k, -, -, hsp, hsl, -, -⟩ := march_crossing_sound g origin ray _ fuel L _ p0 l0 rfl hm
  exact (bisect_signs g origin ray eps heps fuel p0 l0 p1 l hsp hsl hb).2

end SearchLemmas

/-! ## When searchRay returns true -/

section SearchCompleteness

variable {α : Type} [LinearOrderedField α]

/-- The march breaks at the first positive-to-negative pair reached inside the
grid. -/
theorem march_reaches (g : VoxelGrid α) (origin ray : Vec3 α) (s : α) (k : Nat) :
    ∀ (L pv : α), pv = sample g origin ray L →
      (∀ j : Nat, j ≤ k → inside g origin ray (L + ((j + 1 : Nat) : α) * s) = true) →
      (∀ j : Nat, j < k →
        ¬ (sample g origin ray (L + (j : α) * s) > 0 ∧
            sample g origin ray (L + ((j + 1 : Nat) : α) * s) < 0)) →
      sample g origin ray (L + (k : α) * s) > 0 →
      sample g origin ray (L + ((k + 1 : Nat) : α) * s) < 0 →
      ∀ more : Nat, march g origin ray s (k + 1 + more) L pv =
        some (MarchExit.crossing (L + (k : α) * s) (L + ((k + 1 : Nat) : α) * s)) := by
  induction k with
  | zero =>
    intro L pv hpv hin _ hp hl more
    have e1 : L + ((0 + 1 : Nat) : α) * s = L + s := by push_cast; ring
    have e0 : L + ((0 : Nat) : α) * s = L := by push_cast; ring
    rw [e0] at hp
    rw [e1] at hl
    have hi := hin 0 (le_refl 0)
    rw [e1] at hi
    rw [show 0 + 1 + more = more + 1 by omega, march_succ, e0, e1]
    simp [hi, hpv, hp, hl]
  | succ k ih =>
    intro L pv hpv hin hno hp hl more
    have e1 : L + ((0 + 1 : Nat) : α) * s = L + s := by push_cast; ring
    have e0 : L + ((0 : Nat) : α) * s = L := by push_cast; ring
    have hi := hin 0 (by omega)
    rw [e1] at hi
    have hn0 := hno 0 (by omega)
    rw [e0, e1, ← hpv] at hn0
    rw [show k + 1 + 1 + more = (k + 1 + more) + 1 by omega, march_succ]
    simp only [hi, Bool.true_eq_false, if_false, hn0]
    rw [← len_shift L s k, ← len_shift L s (k + 1)]
    apply ih (L + s) _ rfl
    · intro j hj; rw [len_shift]; exact hin (j + 1) (by omega)
    · intro j hj; rw [len_shift, len_shift]; exact hno (j + 1) (by omega)
    · rw [len_shift]; exact hp
    · rw [len_shift]; exact hl

/-- When the march breaks, the bisection is left, and `searchRay` returns
`true` with a length inside the bracket of the march. -/
theorem searchRay_returns_true [Archimedean α] (g : VoxelGrid α) (origin ray : Vec3 α)
    (L ssv eps : α) (hs : 0 < g.voxelSize * ssv) (k : Nat)
    (hin : ∀ j : Nat, j ≤ k →
      inside g origin ray (L + ((j + 1 : Nat) : α) * (g.voxelSize * ssv)) = true)
    (hno : ∀ j : Nat, j < k →
      ¬ (sample g origin ray (L + (j : α) * (g.voxelSize * ssv)) > 0 ∧
          sample g origin ray (L + ((j + 1 : Nat) : α) * (g.voxelSize * ssv)) < 0))
    (hp : sample g origin ray (L + (k : α) * (g.voxelSize * ssv)) > 0)
    (hl : sample g origin ray (L + ((k + 1 : Nat) : α) * (g.voxelSize * ssv)) < 0) :
    ∃ (fuel : Nat) (l : α),
      (∀ more : Nat, searchRay (fuel + more) g origin ray L ssv eps = some (true, l)) ∧
      L + (k : α) * (g.voxelSize * ssv) < l ∧
      l ≤ L + ((k + 1 : Nat) : α) * (g.voxelSize * ssv) := by
  have hm := march_reaches g origin ray (g.voxelSize * ssv) k L _ rfl hin hno hp hl
  have hlt : L + (k : α) * (g.voxelSize * ssv) <
      L + ((k + 1 : Nat) : α) * (g.voxelSize * ssv) := by push_cast; linarith
  obtain ⟨j, hj⟩ := exists_halving
    (L + ((k + 1 : Nat) : α) * (g.voxelSize * ssv) - (L + (k : α) * (g.voxelSize * ssv)))
  obtain ⟨⟨p1, l1⟩, hb⟩ := bisect_terminates g origin ray eps j _ _ hlt hj
  obtain ⟨-, b2, b3⟩ := bisect_bracket g origin ray eps (j + 1) _ _ p1 l1 hlt hb
  refine ⟨k + 1 + (j + 1), l1, fun more => ?_, by linarith [(bisect_bracket g origin ray eps (j + 1) _ _ p1 l1 hlt hb).1], b3⟩
  rw [searchRay_true_iff]
  refine ⟨L + (k : α) * (g.voxelSize * ssv),
    L + ((k + 1 : Nat) : α) * (g.voxelSize * ssv), p1, ?_, ?_⟩
  · rw [show k + 1 + (j + 1) + more = k + 1 + (j + 1 + more) by omega]
    exact hm _
  · rw [show k + 1 + (j + 1) + more = (j + 1) + (k + 1 + more) by omega]
    exact bisect_mono g origin ray eps (j + 1) _ _ _ hb _

/-- How the second loop is left: on the width test, or on the value test at
the midpoint of the bracket it returns. -/
theorem bisect_exit_cases (g : VoxelGrid α) (origin ray : Vec3 α) (eps : α) (fuel : Nat) :
    ∀ (p l p1 l1 : α), bisect g origin ray eps fuel p l = some (p1, l1) →
      |l1 - p1| < 1 / 100 ∨
        (¬ sample g origin ray ((p1 + l1) / 2) > eps ∧
          ¬ sample g origin ray ((p1 + l1) / 2) < -eps) := by
  induction fuel with
  | zero => intro p l p1 l1 h; simp [bisect] at h
  | succ n ih =>
    intro p l p1 l1 h
    rw [bisect_succ] at h
    split_ifs at h with h1 h2 h3 h4
    · simp only [Option.some.injEq, Prod.mk.injEq] at h
      obtain ⟨rfl, rfl⟩ := h
      exact Or.inl h2
    · exact ih _ _ _ _ h
    · simp only [Option.some.injEq, Prod.mk.injEq] at h
      obtain ⟨rfl, rfl⟩ := h
      exact Or.inl h4
    · exact ih _ _ _ _ h
    · simp only [Option.some.injEq, Prod.mk.injEq] at h
      obtain ⟨rfl, rfl⟩ := h
      exact Or.inr ⟨h1, h3⟩

theorem lt_length_of_getElem {β : Type} (xs : List β) (k : Nat) (a : β) (h : xs[k]? = some a) :
    k < xs.length := by
  by_contra hlt
  rw [List.getElem?_eq_none (not_lt.mp hlt)] at h
  simp at h

theorem cast_pred (k : Nat) : (((k + 1 : Nat) : α) - 1) = (k : α) := by
  push_cast; ring

end SearchCompleteness

/-! ## Properties of the pixel loops -/

section LoopLemmas

variable {A B : Type}

theorem bind_done {β γ : Type} (o : Outcome β) (f : β → Outcome γ) (c : γ)
    (h : o.bind f = Outcome.done c) : ∃ b, o = Outcome.done b ∧ f b = Outcome.done c := by
  cases o with
  | timeout => simp [Outcome.bind] at h
  | abort => simp [Outcome.bind] at h
  | done b => exact ⟨b, rfl, h⟩

/-- The inner loop over the columns of row `v`: when it returns, every pixel
of that row below `W` holds what its body stored, and no other element of the
buffers has changed. -/
theorem row_done (pix : Nat → Outcome (A × B)) (v W : Nat) :
    ∀ (imgs imgs1 : Image A × Image B),
      forLoop (fun u images =>
        (pix u).bind (fun px =>
          Outcome.done (images.1.write v u px.1, images.2.write v u px.2))) W imgs
        = Outcome.done imgs1 →
      (∀ u, u < W → pix u = Outcome.done (imgs1.1 v u, imgs1.2 v u)) ∧
      (∀ v1 u1, ¬ (v1 = v ∧ u1 < W) →
        imgs1.1 v1 u1 = imgs.1 v1 u1 ∧ imgs1.2 v1 u1 = imgs.2 v1 u1) := by
  induction W with
  | zero =>
    intro imgs imgs1 h
    simp only [forLoop, Outcome.done.injEq] at h
    subst h
    exact ⟨fun u hu => by omega, fun _ _ _ => ⟨rfl, rfl⟩⟩
  | succ W ih =>
    intro imgs imgs1 h
    simp only [forLoop] at h
    obtain ⟨mid, hmid, hlast⟩ := bind_done _ _ _ h
    obtain ⟨px, hpx, hw⟩ := bind_done _ _ _ hlast
    simp only [Outcome.done.injEq] at hw
    subst hw
    obtain ⟨ih1, ih2⟩ := ih imgs mid hmid
    constructor
    · intro u hu
      by_cases huW : u = W
      · subst huW
        simp [Image.write, hpx]
      · have := ih1 u (by omega)
        simp [Image.write, huW, this]
    · intro v1 u1 hne
      have hne1 : ¬ (v1 = v ∧ u1 = W) := fun hh => hne ⟨hh.1, by omega⟩
      have hne2 : ¬ (v1 = v ∧ u1 < W) := fun hh => hne ⟨hh.1, by omega⟩
      obtain ⟨a, b⟩ := ih2 v1 u1 hne2
      simp [Image.write, hne1, a, b]

/-- The two nested loops: when they return, every pixel below `H` and `W`
holds what its body stored, and no other element of the buffers has changed. -/
theorem image_done (pix : Nat → Nat → Outcome (A × B)) (W H : Nat) :
    ∀ (imgs imgs1 : Image A × Image B),
      forLoop (fun v images =>
        forLoop (fun u images =>
          (pix v u).bind (fun px =>
            Outcome.done (images.1.write v u px.1, images.2.write v u px.2))) W images) H imgs
        = Outcome.done imgs1 →
      (∀ v u, v < H → u < W → pix v u = Outcome.done (imgs1.1 v u, imgs1.2 v u)) ∧
      (∀ v1 u1, ¬ (v1 < H ∧ u1 < W) →
        imgs1.1 v1 u1 = imgs.1 v1 u1 ∧ imgs1.2 v1 u1 = imgs.2 v1 u1) := by
  induction H with
  | zero =>
    intro imgs imgs1 h
    simp only [forLoop, Outcome.done.injEq] at h
    subst h
    exact ⟨fun v u hv => by omega, fun _ _ _ => ⟨rfl, rfl⟩⟩
  | succ H ih =>
    intro imgs imgs1 h
    rw [forLoop] at h
    obtain ⟨mid, hmid, hlast⟩ := bind_done _ _ _ h
    obtain ⟨ih1, ih2⟩ := ih imgs mid hmid
    obtain ⟨r1, r2⟩ := row_done (pix H) H W mid imgs1 hlast
    constructor
    · intro v u hv hu
      by_cases hvH : v = H
      · subst hvH; exact r1 u hu
      · obtain ⟨a, b⟩ := r2 v u (fun hh => hvH hh.1)
        rw [a, b]
        exact ih1 v u (by omega) hu
    · intro v1 u1 hne
      obtain ⟨a, b⟩ := r2 v1 u1 (fun hh => hne ⟨by omega, hh.2⟩)
      obtain ⟨c, d⟩ := ih2 v1 u1 (fun hh => hne ⟨by omega, hh.2⟩)
      exact ⟨a.trans c, b.trans d⟩

/-- The inner loop returns when the body returns at every column below `W`. -/
theorem row_run (pix : Nat → Outcome (A × B)) (P : Nat → A × B) (v W : Nat)
    (imgs : Image A × Image B) :
    (∀ u, u < W → pix u = Outcome.done (P u)) →
      forLoop (fun u images =>
        (pix u).bind (fun px =>
          Outcome.done (images.1.write v u px.1, images.2.write v u px.2))) W imgs
        = Outcome.done
            ((fun v1 u1 => if v1 = v ∧ u1 < W then (P u1).1 else imgs.1 v1 u1),
             (fun v1 u1 => if v1 = v ∧ u1 < W then (P u1).2 else imgs.2 v1 u1)) := by
  induction W with
  | zero =>
    intro _
    simp only [forLoop, Nat.not_lt_zero, and_false, if_false]
    rfl
  | succ W ih =>
    intro h
    rw [forLoop, ih (fun u hu => h u (by omega)), Outcome.bind, h W (by omega), Outcome.bind]
    congr 2
    · funext v1 u1
      simp only [Image.write]
      by_cases h1 : v1 = v ∧ u1 = W
      · obtain ⟨rfl, rfl⟩ := h1; simp
      · by_cases h2 : v1 = v ∧ u1 < W
        · have h3 : v1 = v ∧ u1 < W + 1 := ⟨h2.1, by omega⟩
          have h4 : u1 ≠ W := by omega
          simp [h2, h3, h4]
        · have h3 : ¬ (v1 = v ∧ u1 < W + 1) := fun hh =>
            h1 ⟨hh.1, by have := fun hlt => h2 ⟨hh.1, hlt⟩; omega⟩
          simp [h1, h2, h3]
    · funext v1 u1
      simp only [Image.write]
      by_cases h1 : v1 = v ∧ u1 = W
      · obtain ⟨rfl, rfl⟩ := h1; simp
      · by_cases h2 : v1 = v ∧ u1 < W
        · have h3 : v1 = v ∧ u1 < W + 1 := ⟨h2.1, by omega⟩
          have h4 : u1 ≠ W := by omega
          simp [h2, h3, h4]
        · have h3 : ¬ (v1 = v ∧ u1 < W + 1) := fun hh =>
            h1 ⟨hh.1, by have := fun hlt => h2 ⟨hh.1, hlt⟩; omega⟩
          simp [h1, h2, h3]

/-- The two nested loops return when the body returns at every pixel. -/
theorem image_run (pix : Nat → Nat → Outcome (A × B)) (P : Nat → Nat → A × B) (W H : Nat)
    (imgs : Image A × Image B) :
    (∀ v u, v < H → u < W → pix v u = Outcome.done (P v u)) →
      forLoop (fun v images =>
        forLoop (fun u images =>
          (pix v u).bind (fun px =>
            Outcome.done (images.1.write v u px.1, images.2.write v u px.2))) W images) H imgs
        = Outcome.done
            ((fun v1 u1 => if v1 < H ∧ u1 < W then (P v1 u1).1 else imgs.1 v1 u1),
             (fun v1 u1 => if v1 < H ∧ u1 < W then (P v1 u1).2 else imgs.2 v1 u1)) := by
  induction H with
  | zero =>
    intro _
    simp only [forLoop, Nat.not_lt_zero, false_and, if_false]
    rfl
  | succ H ih =>
    intro h
    rw [forLoop, ih (fun v u hv hu => h v u (by omega) hu), Outcome.bind,
      row_run (pix H) (P H) H W _ (fun u hu => h H u (by omega) hu)]
    congr 2
    · funext v1 u1
      by_cases h1 : v1 = H
      · subst h1; by_cases h2 : u1 < W <;> simp [h2]
      · by_cases h2 : v1 < H
        · have h3 : v1 < H + 1 := by omega
          simp [h1, h2, h3]
        · have h3 : ¬ v1 < H + 1 := by omega
          simp [h1, h2, h3]
    · funext v1 u1
      by_cases h1 : v1 = H
      · subst h1; by_cases h2 : u1 < W <;> simp [h2]
      · by_cases h2 : v1 < H
        · have h3 : v1 < H + 1 := by omega
          simp [h1, h2, h3]
        · have h3 : ¬ v1 < H + 1 := by omega
          simp [h1, h2, h3]

theorem bind_abort {β γ : Type} (o : Outcome β) (f : β → Outcome γ)
    (h : o.bind f = Outcome.abort) : o = Outcome.abort ∨ ∃ b, o = Outcome.done b ∧ f b = Outcome.abort := by
  cases o with
  | timeout => simp [Outcome.bind] at h
  | abort => exact Or.inl rfl
  | done b => exact Or.inr ⟨b, rfl, h⟩

/-- A loop aborts only when one of its iterations does. -/
theorem forLoop_abort {σ : Type} (body : Nat → σ → Outcome σ) (n : Nat) :
    ∀ s : σ, forLoop body n s = Outcome.abort →
      ∃ i s1, i < n ∧ body i s1 = Outcome.abort := by
  induction n with
  | zero => intro s h; simp [forLoop] at h
  | succ n ih =>
    intro s h
    rw [forLoop] at h
    rcases bind_abort _ _ h with h1 | ⟨b, -, h2⟩
    · obtain ⟨i, s1, hi, hb⟩ := ih s h1
      exact ⟨i, s1, by omega, hb⟩
    · exact ⟨n, b, by omega, h2⟩

end LoopLemmas

section RenderLemmas

variable {α : Type} [LinearOrderedField α]

/-- The two ways in which the body of the pixel loop stores a value. -/
theorem tracePixel_done (sqrt : α → α) (fuel : Nat) (g : VoxelGrid α) (pose : Pose α)
    (ssv eps : α) (origin cray : Vec3 α) (d : ExtNum α) (n : Vec3 (ExtNum α))
    (h : tracePixel sqrt fuel g pose ssv eps origin cray = Outcome.done (d, n)) :
    ((g.projectRayToVoxelPoint origin (pose.transformVector cray) = none ∨
        ∃ L0 l, g.projectRayToVoxelPoint origin (pose.transformVector cray) = some L0 ∧
          searchRay fuel g origin (pose.transformVector cray) L0 ssv eps = some (false, l)) ∧
      d = sentinelDepth ∧ n = sentinelNormal) ∨
    (∃ L0 l, g.projectRayToVoxelPoint origin (pose.transformVector cray) = some L0 ∧
      searchRay fuel g origin (pose.transformVector cray) L0 ssv eps = some (true, l) ∧
      l ≠ 0 ∧ d = ExtNum.fin l ∧
      n = finNormal (hitNormal sqrt g pose origin (pose.transformVector cray) l)) := by
  simp only [tracePixel] at h
  cases hp : g.projectRayToVoxelPoint origin (pose.transformVector cray) with
  | none =>
    simp only [hp, Outcome.done.injEq, Prod.mk.injEq] at h
    exact Or.inl ⟨Or.inl rfl, h.1.symm, h.2.symm⟩
  | some L0 =>
    simp only [hp] at h
    cases hs : searchRay fuel g origin (pose.transformVector cray) L0 ssv eps with
    | none => simp [hs] at h
    | some r =>
      obtain ⟨b, l⟩ := r
      cases b with
      | false =>
        simp only [hs, Outcome.done.injEq, Prod.mk.injEq] at h
        exact Or.inl ⟨Or.inr ⟨L0, l, rfl, hs⟩, h.1.symm, h.2.symm⟩
      | true =>
        simp only [hs] at h
        by_cases hl : l = 0
        · simp [hl] at h
        · simp only [hl, if_false, Outcome.done.injEq, Prod.mk.injEq] at h
          exact Or.inr ⟨L0, l, rfl, hs, hl, h.1.symm, h.2.symm⟩

/-- The body of the pixel loop aborts only on a search that returns `true`
with length zero. -/
theorem tracePixel_abort (sqrt : α → α) (fuel : Nat) (g : VoxelGrid α) (pose : Pose α)
    (ssv eps : α) (origin cray : Vec3 α)
    (h : tracePixel sqrt fuel g pose ssv eps origin cray = Outcome.abort) :
    ∃ L0, g.projectRayToVoxelPoint origin (pose.transformVector cray) = some L0 ∧
      searchRay fuel g origin (pose.transformVector cray) L0 ssv eps = some (true, 0) := by
  simp only [tracePixel] at h
  cases hp : g.projectRayToVoxelPoint origin (pose.transformVector cray) with
  | none => simp [hp] at h
  | some L0 =>
    simp only [hp] at h
    cases hs : searchRay fuel g origin (pose.transformVector cray) L0 ssv eps with
    | none => simp [hs] at h
    | some r =>
      obtain ⟨b, l⟩ := r
      cases b with
      | false => simp [hs] at h
      | true =>
        simp only [hs] at h
        by_cases hl : l = 0
        · subst hl; exact ⟨L0, rfl, hs⟩
        · simp [hl] at h

/-- When `raytraceImage` returns, the pixel in column `u` of row `v` holds
what the loop body stored for it. -/
theorem raytraceImage_pixel (sqrt : α → α) (fuel : Nat) (g : VoxelGrid α) (pose : Pose α)
    (K : Mat3 α) (W H : Nat) (ssv eps : α)
    (D0 D : Image (ExtNum α)) (N0 N : Image (Vec3 (ExtNum α)))
    (h : raytraceImage sqrt fuel g pose K W H ssv eps D0 N0 = Outcome.done (D, N))
    (u v : Nat) (hu : u < W) (hv : v < H) :
    pixelBody sqrt fuel g pose ssv eps (K.m00 * (W : α)) (K.m11 * (H : α))
      (K.m02 * (W : α) - 1 / 2) (K.m12 * (H : α) - 1 / 2) pose.translation u v
      = Outcome.done (D v u, N v u) := by
  unfold raytraceImage at h
  exact (image_done
    (fun v u => pixelBody sqrt fuel g pose ssv eps (K.m00 * (W : α)) (K.m11 * (H : α))
      (K.m02 * (W : α) - 1 / 2) (K.m12 * (H : α) - 1 / 2) pose.translation u v)
    W H _ (D, N) h).1 v u hv hu

/-- `raytraceImage` returns when the body of the loop returns at every pixel;
the buffers then hold the stored values inside the resolution and the
sentinel outside, whatever they held before. -/
theorem raytraceImage_returns (sqrt : α → α) (fuel : Nat) (g : VoxelGrid α) (pose : Pose α)
    (K : Mat3 α) (W H : Nat) (ssv eps : α)
    (D0 : Image (ExtNum α)) (N0 : Image (Vec3 (ExtNum α)))
    (P : Nat → Nat → ExtNum α × Vec3 (ExtNum α))
    (h : ∀ v u, v < H → u < W →
      pixelBody sqrt fuel g pose ssv eps (K.m00 * (W : α)) (K.m11 * (H : α))
        (K.m02 * (W : α) - 1 / 2) (K.m12 * (H : α) - 1 / 2) pose.translation u v
        = Outcome.done (P v u)) :
    raytraceImage sqrt fuel g pose K W H ssv eps D0 N0 =
      Outcome.done
        ((fun v u => if v < H ∧ u < W then (P v u).1 else sentinelDepth),
         (fun v u => if v < H ∧ u < W then (P v u).2 else sentinelNormal)) := by
  unfold raytraceImage
  exact image_run
    (fun v u => pixelBody sqrt fuel g pose ssv eps (K.m00 * (W : α)) (K.m11 * (H : α))
      (K.m02 * (W : α) - 1 / 2) (K.m12 * (H : α) - 1 / 2) pose.translation u v)
    P W H _ h

/-- The body of the pixel loop when the ray does not enter the grid. -/
theorem tracePixel_of_no_entry (sqrt : α → α) (fuel : Nat) (g : VoxelGrid α) (pose : Pose α)
    (ssv eps : α) (origin cray : Vec3 α)
    (hp : g.projectRayToVoxelPoint origin (pose.transformVector cray) = none) :
    tracePixel sqrt fuel g pose ssv eps origin cray =
      Outcome.done (sentinelDepth, sentinelNormal) := by
  simp only [tracePixel, hp]

/-- The body of the pixel loop when the search returns `false`. -/
theorem tracePixel_of_search_false (sqrt : α → α) (fuel : Nat) (g : VoxelGrid α) (pose : Pose α)
    (ssv eps : α) (origin cray : Vec3 α) (L0 l : α)
    (hp : g.projectRayToVoxelPoint origin (pose.transformVector cray) = some L0)
    (hs : searchRay fuel g origin (pose.transformVector cray) L0 ssv eps = some (false, l)) :
    tracePixel sqrt fuel g pose ssv eps origin cray =
      Outcome.done (sentinelDepth, sentinelNormal) := by
  simp only [tracePixel, hp, hs]

/-- The body of the pixel loop when the search returns `true`. -/
theorem tracePixel_of_search_true (sqrt : α → α) (fuel : Nat) (g : VoxelGrid α) (pose : Pose α)
    (ssv eps : α) (origin cray : Vec3 α) (L0 l : α)
    (hp : g.projectRayToVoxelPoint origin (pose.transformVector cray) = some L0)
    (hs : searchRay fuel g origin (pose.transformVector cray) L0 ssv eps = some (true, l))
    (hl : l ≠ 0) :
    tracePixel sqrt fuel g pose ssv eps origin cray =
      Outcome.done (ExtNum.fin l,
        finNormal (hitNormal sqrt g pose origin (pose.transformVector cray) l)) := by
  simp only [tracePixel, hp, hs, hl, if_false]

/-- `raytraceImage` returns as soon as the body of the loop returns at every
pixel inside the resolution. -/
theorem raytraceImage_returns_of_pixels (sqrt : α → α) (fuel : Nat) (g : VoxelGrid α)
    (pose : Pose α) (K : Mat3 α) (W H : Nat) (ssv eps : α)
    (D0 : Image (ExtNum α)) (N0 : Image (Vec3 (ExtNum α)))
    (h : ∀ v u, v < H → u < W → ∃ px,
      pixelBody sqrt fuel g pose ssv eps (K.m00 * (W : α)) (K.m11 * (H : α))
        (K.m02 * (W : α) - 1 / 2) (K.m12 * (H : α) - 1 / 2) pose.translation u v
        = Outcome.done px) :
    ∃ D N, raytraceImage sqrt fuel g pose K W H ssv eps D0 N0 = Outcome.done (D, N) := by
  refine ⟨_, _, raytraceImage_returns sqrt fuel g pose K W H ssv eps D0 N0
    (fun v u =>
      match pixelBody sqrt fuel g pose ssv eps (K.m00 * (W : α)) (K.m11 * (H : α))
        (K.m02 * (W : α) - 1 / 2) (K.m12 * (H : α) - 1 / 2) pose.translation u v with
      | Outcome.done px => px
      | _ => (sentinelDepth, sentinelNormal)) ?_⟩
  intro v u hv hu
  obtain ⟨px, hpx⟩ := h v u hv hu
  simp only [hpx]

/-- When `raytraceImage` aborts, the body of the loop aborted at a pixel. -/
theorem raytraceImage_abort (sqrt : α → α) (fuel : Nat) (g : VoxelGrid α) (pose : Pose α)
    (K : Mat3 α) (W H : Nat) (ssv eps : α)
    (D0 : Image (ExtNum α)) (N0 : Image (Vec3 (ExtNum α)))
    (h : raytraceImage sqrt fuel g pose K W H ssv eps D0 N0 = Outcome.abort) :
    ∃ u v, u < W ∧ v < H ∧
      pixelBody sqrt fuel g pose ssv eps (K.m00 * (W : α)) (K.m11 * (H : α))
        (K.m02 * (W : α) - 1 / 2) (K.m12 * (H : α) - 1 / 2) pose.translation u v
        = Outcome.abort := by
  unfold raytraceImage at h
  obtain ⟨v, s1, hv, hrow⟩ := forLoop_abort _ H _ h
  obtain ⟨u, s2, hu, hpx⟩ := forLoop_abort _ W _ hrow
  rcases bind_abort _ _ hpx with h1 | ⟨b, -, h2⟩
  · exact ⟨u, v, hu, hv, h1⟩
  · simp at h2

end RenderLemmas

/-! ## Orthonormal matrices and normalisation -/

section MatLemmas

variable {α : Type} [LinearOrderedField α]

theorem mulVec_scale (R : Mat3 α) (w : Vec3 α) (c : α) :
    R.mulVec (w * c) = R.mulVec w * c := by
  simp only [Mat3.mulVec, Vec3.scale_def, Vec3.mk.injEq]
  refine ⟨?_, ?_, ?_⟩ <;> ring

theorem transpose_mulVec_squaredNorm (R : Mat3 α) (hR : R.IsOrthonormal) (w : Vec3 α) :
    (R.transpose.mulVec w).squaredNorm = w.squaredNorm := by
  obtain ⟨-, h⟩ := hR
  simp only [Mat3.mul, Mat3.transpose, Mat3.one, Mat3.mk.injEq] at h
  obtain ⟨h00, h01, h02, h10, h11, h12, h20, h21, h22⟩ := h
  simp only [Mat3.mulVec, Mat3.transpose, Vec3.squaredNorm]
  linear_combination (w.x * w.x) * h00 + (w.x * w.y) * h01 + (w.x * w.z) * h02 +
    (w.y * w.x) * h10 + (w.y * w.y) * h11 + (w.y * w.z) * h12 +
    (w.z * w.x) * h20 + (w.z * w.y) * h21 + (w.z * w.z) * h22

theorem transpose_mulVec_mulVec (R : Mat3 α) (hR : R.IsOrthonormal) (c : Vec3 α) :
    R.transpose.mulVec (R.mulVec c) = c := by
  obtain ⟨h, -⟩ := hR
  simp only [Mat3.mul, Mat3.transpose, Mat3.one, Mat3.mk.injEq] at h
  obtain ⟨h00, h01, h02, h10, h11, h12, h20, h21, h22⟩ := h
  obtain ⟨x, y, z⟩ := c
  simp only [Mat3.mulVec, Mat3.transpose, Vec3.mk.injEq]
  refine ⟨?_, ?_, ?_⟩
  · linear_combination x * h00 + y * h01 + z * h02
  · linear_combination x * h10 + y * h11 + z * h12
  · linear_combination x * h20 + y * h21 + z * h22

theorem mulVec_squaredNorm (R : Mat3 α) (hR : R.IsOrthonormal) (c : Vec3 α) :
    (R.mulVec c).squaredNorm = c.squaredNorm := by
  obtain ⟨h, -⟩ := hR
  simp only [Mat3.mul, Mat3.transpose, Mat3.one, Mat3.mk.injEq] at h
  obtain ⟨h00, h01, h02, h10, h11, h12, h20, h21, h22⟩ := h
  simp only [Mat3.mulVec, Vec3.squaredNorm]
  linear_combination (c.x * c.x) * h00 + (c.x * c.y) * h01 + (c.x * c.z) * h02 +
    (c.y * c.x) * h10 + (c.y * c.y) * h11 + (c.y * c.z) * h12 +
    (c.z * c.x) * h20 + (c.z * c.y) * h21 + (c.z * c.z) * h22

theorem squaredNorm_pos_of_ne (w : Vec3 α) (h : w.x ≠ 0 ∨ w.y ≠ 0 ∨ w.z ≠ 0) :
    0 < w.squaredNorm := by
  simp only [Vec3.squaredNorm]
  rcases h with h | h | h
  · have := mul_self_pos.mpr h
    nlinarith [mul_self_nonneg w.y, mul_self_nonneg w.z]
  · have := mul_self_pos.mpr h
    nlinarith [mul_self_nonneg w.x, mul_self_nonneg w.z]
  · have := mul_self_pos.mpr h
    nlinarith [mul_self_nonneg w.x, mul_self_nonneg w.y]

theorem normalize_squaredNorm (sqrt : α → α) (w : Vec3 α) (hpos : 0 < w.squaredNorm)
    (hsqrt : sqrt w.squaredNorm * sqrt w.squaredNorm = w.squaredNorm) :
    (w.normalize sqrt).squaredNorm = 1 := by
  have hs : sqrt w.squaredNorm ≠ 0 := by
    intro h0
    rw [h0, mul_zero] at hsqrt
    exact absurd hsqrt.symm (ne_of_gt hpos)
  simp only [Vec3.normalize, hpos, if_true, gt_iff_lt]
  generalize sqrt w.squaredNorm = s at hsqrt hs
  have hss : s * s ≠ 0 := mul_ne_zero hs hs
  have e : (w.divScalar s).squaredNorm = w.squaredNorm / (s * s) := by
    simp only [Vec3.divScalar, Vec3.squaredNorm]
    field_simp
  rw [e, hsqrt, div_self (ne_of_gt hpos)]

end MatLemmas

/-! ## The sphere scenario in general -/

section SphereLemmas

variable {α : Type} [LinearOrderedField α]

theorem principalAxis_squaredNorm (a : Vec3 α) (ha : IsPrincipalAxis a) : a.squaredNorm = 1 := by
  rcases ha with rfl | rfl | rfl | rfl | rfl | rfl <;> simp [Vec3.squaredNorm]

theorem sphere_sample (sqrt : α → α) (R dist : α) (g : VoxelGrid α) (a : Vec3 α)
    (hfield : IsSphereField sqrt R g) (hsqrt : ∀ x : α, sqrt (x * x) = |x|)
    (ha : a.squaredNorm = 1) (l : α) :
    sample g (a * (-dist)) a l = R - |l - dist| := by
  have e : (a * (-dist) + a * l).squaredNorm = (l - dist) * (l - dist) := by
    simp only [Vec3.squaredNorm, Vec3.add_def, Vec3.scale_def] at ha ⊢
    linear_combination ((l - dist) * (l - dist)) * ha
  rw [sample, hfield, e, hsqrt]

theorem sphere_centralDifference_x (sqrt : α → α) (R : α) (g : VoxelGrid α)
    (hfield : IsSphereField sqrt R g) (hsqrt : ∀ x : α, sqrt (x * x) = |x|) (t : α) :
    centralDifference g ⟨t, 0, 0⟩ =
      ⟨(|t - g.voxelSize| - |t + g.voxelSize|) / 2, 0, 0⟩ := by
  have e1 : ∀ x : α, sqrt (x * x + 0 * 0 + 0 * 0) = |x| := fun x => by
    rw [mul_zero, add_zero, add_zero, hsqrt]
  have hv : ∀ p : Vec3 α, g.getValueAtPoint p = R - sqrt p.squaredNorm := hfield
  simp only [centralDifference, Vec3.add_def, hv, Vec3.squaredNorm, add_zero, zero_add,
    neg_mul_neg, sub_self, zero_div, e1, ← sub_eq_add_neg, Vec3.mk.injEq]
  refine ⟨?_, ?_, ?_⟩ <;> ring_nf

theorem sphere_centralDifference_y (sqrt : α → α) (R : α) (g : VoxelGrid α)
    (hfield : IsSphereField sqrt R g) (hsqrt : ∀ x : α, sqrt (x * x) = |x|) (t : α) :
    centralDifference g ⟨0, t, 0⟩ =
      ⟨0, (|t - g.voxelSize| - |t + g.voxelSize|) / 2, 0⟩ := by
  have e2 : ∀ x : α, sqrt (0 * 0 + x * x + 0 * 0) = |x| := fun x => by
    rw [mul_zero, add_zero, zero_add, hsqrt]
  have hv : ∀ p : Vec3 α, g.getValueAtPoint p = R - sqrt p.squaredNorm := hfield
  simp only [centralDifference, Vec3.add_def, hv, Vec3.squaredNorm, add_zero, zero_add,
    neg_mul_neg, sub_self, zero_div, e2, ← sub_eq_add_neg, Vec3.mk.injEq]
  refine ⟨?_, ?_, ?_⟩ <;> ring_nf

theorem sphere_centralDifference_z (sqrt : α → α) (R : α) (g : VoxelGrid α)
    (hfield : IsSphereField sqrt R g) (hsqrt : ∀ x : α, sqrt (x * x) = |x|) (t : α) :
    centralDifference g ⟨0, 0, t⟩ =
      ⟨0, 0, (|t - g.voxelSize| - |t + g.voxelSize|) / 2⟩ := by
  have e3 : ∀ x : α, sqrt (0 * 0 + 0 * 0 + x * x) = |x| := fun x => by
    rw [mul_zero, zero_add, zero_add, hsqrt]
  have hv : ∀ p : Vec3 α, g.getValueAtPoint p = R - sqrt p.squaredNorm := hfield
  simp only [centralDifference, Vec3.add_def, hv, Vec3.squaredNorm, add_zero, zero_add,
    neg_mul_neg, sub_self, zero_div, e3, ← sub_eq_add_neg, Vec3.mk.injEq]
  refine ⟨?_, ?_, ?_⟩ <;> ring_nf

theorem sphere_gradient (sqrt : α → α) (R dist l : α) (g : VoxelGrid α) (a : Vec3 α)
    (hfield : IsSphereField sqrt R g) (hsqrt : ∀ x : α, sqrt (x * x) = |x|)
    (ha : IsPrincipalAxis a) (hh : 0 < g.voxelSize) (hl : g.voxelSize < l - dist) :
    centralDifference g (a * (-dist) + a * l) = a * (-g.voxelSize) := by
  have p1 : |l - dist + g.voxelSize| = l - dist + g.voxelSize := abs_of_pos (by linarith)
  have p2 : |l - dist - g.voxelSize| = l - dist - g.voxelSize := abs_of_pos (by linarith)
  have n1 : |-(l - dist) + g.voxelSize| = l - dist - g.voxelSize := by
    rw [abs_of_neg (by linarith)]; ring
  have n2 : |-(l - dist) - g.voxelSize| = l - dist + g.voxelSize := by
    rw [abs_of_neg (by linarith)]; ring
  rcases ha with rfl | rfl | rfl | rfl | rfl | rfl
  · have e : (⟨1, 0, 0⟩ : Vec3 α) * (-dist) + (⟨1, 0, 0⟩ : Vec3 α) * l = ⟨l - dist, 0, 0⟩ := by
      simp only [Vec3.add_def, Vec3.scale_def, Vec3.mk.injEq]
      refine ⟨?_, ?_, ?_⟩ <;> ring
    rw [e, sphere_centralDifference_x sqrt R g hfield hsqrt, p1, p2]
    simp only [Vec3.scale_def, Vec3.mk.injEq]
    refine ⟨?_, ?_, ?_⟩ <;> ring
  · have e : (⟨-1, 0, 0⟩ : Vec3 α) * (-dist) + (⟨-1, 0, 0⟩ : Vec3 α) * l =
        ⟨-(l - dist), 0, 0⟩ := by
      simp only [Vec3.add_def, Vec3.scale_def, Vec3.mk.injEq]
      refine ⟨?_, ?_, ?_⟩ <;> ring
    rw [e, sphere_centralDifference_x sqrt R g hfield hsqrt, n1, n2]
    simp only [Vec3.scale_def, Vec3.mk.injEq]
    refine ⟨?_, ?_, ?_⟩ <;> ring
  · have e : (⟨0, 1, 0⟩ : Vec3 α) * (-dist) + (⟨0, 1, 0⟩ : Vec3 α) * l = ⟨0, l - dist, 0⟩ := by
      simp only [Vec3.add_def, Vec3.scale_def, Vec3.mk.injEq]
      refine ⟨?_, ?_, ?_⟩ <;> ring
    rw [e, sphere_centralDifference_y sqrt R g hfield hsqrt, p1, p2]
    simp only [Vec3.scale_def, Vec3.mk.injEq]
    refine ⟨?_, ?_, ?_⟩ <;> ring
  · have e : (⟨0, -1, 0⟩ : Vec3 α) * (-dist) + (⟨0, -1, 0⟩ : Vec3 α) * l =
        ⟨0, -(l - dist), 0⟩ := by
      simp only [Vec3.add_def, Vec3.scale_def, Vec3.mk.injEq]
      refine ⟨?_, ?_, ?_⟩ <;> ring
    rw [e, sphere_centralDifference_y sqrt R g hfield hsqrt, n1, n2]
    simp only [Vec3.scale_def, Vec3.mk.injEq]
    refine ⟨?_, ?_, ?_⟩ <;> ring
  · have e : (⟨0, 0, 1⟩ : Vec3 α) * (-dist) + (⟨0, 0, 1⟩ : Vec3 α) * l = ⟨0, 0, l - dist⟩ := by
      simp only [Vec3.add_def, Vec3.scale_def, Vec3.mk.injEq]
      refine ⟨?_, ?_, ?_⟩ <;> ring
    rw [e, sphere_centralDifference_z sqrt R g hfield hsqrt, p1, p2]
    simp only [Vec3.scale_def, Vec3.mk.injEq]
    refine ⟨?_, ?_, ?_⟩ <;> ring
  · have e : (⟨0, 0, -1⟩ : Vec3 α) * (-dist) + (⟨0, 0, -1⟩ : Vec3 α) * l =
        ⟨0, 0, -(l - dist)⟩ := by
      simp only [Vec3.add_def, Vec3.scale_def, Vec3.mk.injEq]
      refine ⟨?_, ?_, ?_⟩ <;> ring
    rw [e, sphere_centralDifference_z sqrt R g hfield hsqrt, n1, n2]
    simp only [Vec3.scale_def, Vec3.mk.injEq]
    refine ⟨?_, ?_, ?_⟩ <;> ring


theorem sphere_hitNormal (sqrt : α → α) (R dist l : α) (g : VoxelGrid α) (pose : Pose α)
    (a : Vec3 α)
    (hfield : IsSphereField sqrt R g) (hsqrt : ∀ x : α, sqrt (x * x) = |x|)
    (ha : IsPrincipalAxis a) (hortho : pose.orientation.IsOrthonormal)
    (haxis : pose.orientation.mulVec ⟨0, 0, 1⟩ = a)
    (hh : 0 < g.voxelSize) (hl : g.voxelSize < l - dist) :
    hitNormal sqrt g pose (a * (-dist)) a l = ⟨0, 0, -1⟩ := by
  simp only [hitNormal]
  rw [sphere_gradient sqrt R dist l g a hfield hsqrt ha hh hl, ← haxis, mulVec_scale,
    transpose_mulVec_mulVec _ hortho]
  have hpos : 0 < g.voxelSize * g.voxelSize := mul_pos hh hh
  simp only [Vec3.normalize, Vec3.squaredNorm, Vec3.scale_def, Vec3.divScalar, zero_mul, one_mul,
    mul_zero, zero_add, neg_mul_neg, gt_iff_lt, hpos, if_true, hsqrt, abs_of_pos hh, zero_div,
    neg_div, div_self (ne_of_gt hh)]

/-- Along the axis ray of the sphere scene the search returns a length beyond
the far crossing `dist + R`, less than one march step beyond it. -/
theorem sphere_search_bounds (sqrt : α → α) (R dist : α) (g : VoxelGrid α) (a : Vec3 α)
    (hfield : IsSphereField sqrt R g) (hsqrt : ∀ x : α, sqrt (x * x) = |x|)
    (ha : IsPrincipalAxis a) (fuel : Nat) (L0 ssv eps l : α)
    (hs : 0 < g.voxelSize * ssv) (heps : 0 ≤ eps)
    (h : searchRay fuel g (a * (-dist)) a L0 ssv eps = some (true, l)) :
    0 < R ∧ dist + R < l ∧ l < dist + R + g.voxelSize * ssv := by
  have hsamp := sphere_sample sqrt R dist g a hfield hsqrt (principalAxis_squaredNorm a ha)
  obtain ⟨k, hk1, hk2, hk3⟩ := searchRay_true_bounds fuel g _ a L0 ssv eps l hs h
  have hneg := searchRay_true_neg fuel g _ a L0 ssv eps l heps h
  rw [hsamp] at hk3 hneg
  have e : L0 + ((k + 1 : Nat) : α) * (g.voxelSize * ssv) =
      L0 + (k : α) * (g.voxelSize * ssv) + g.voxelSize * ssv := by push_cast; ring
  rw [e] at hk2
  generalize L0 + (k : α) * (g.voxelSize * ssv) = p0 at hk1 hk2 hk3
  have h1 : |p0 - dist| < R := by linarith
  have h2 : R < |l - dist| := by linarith
  rw [abs_lt] at h1
  have hR : 0 < R := lt_of_le_of_lt (abs_nonneg _) (by linarith [abs_lt.mpr h1])
  rcases lt_abs.mp h2 with h3 | h3
  · exact ⟨hR, by linarith, by linarith⟩
  · exfalso; linarith

end SphereLemmas

/-! ## Evaluation of the concrete scenes -/

section SceneLemmas

theorem rat_sqrt_one : Rat.sqrt 1 = 1 := by
  have h := Rat.sqrt_eq 1
  rw [mul_one, abs_one] at h
  exact h

theorem rampGrid_sample (o r : Vec3 ℚ) (l : ℚ) :
    sample rampGrid o r l = 1 / 2 - (o.z + r.z * l) := rfl

theorem rampGrid_inside (o r : Vec3 ℚ) (l : ℚ) :
    inside rampGrid o r l = decide (-1 / 2 ≤ o.x + r.x * l ∧ o.x + r.x * l ≤ 1 / 2 ∧
      -3 ≤ o.z + r.z * l ∧ o.z + r.z * l ≤ 3) := rfl

theorem rampGrid_project (o r : Vec3 ℚ) : rampGrid.projectRayToVoxelPoint o r = some 0 := rfl

theorem rampGrid_voxelSize : rampGrid.voxelSize = 1 := rfl

theorem identityPose_transform (t v : Vec3 ℚ) : (identityPose t).transformVector v = v := by
  simp [identityPose, Mat3.mulVec, Mat3.one]

theorem identityPose_translation (t : Vec3 ℚ) : (identityPose t).translation = t := rfl

/-- On the ramp, the ray from the origin along the z axis: the march brackets
the crossing in `[0, 1]`, the first midpoint `1/2` has value `0`, and the
search returns the upper end `1`. -/
theorem rampGrid_search_axis :
    searchRay 1 rampGrid ⟨0, 0, 0⟩ ⟨0, 0, 1⟩ 0 1 (1 / 10) = some (true, 1) := by
  rw [searchRay_true_iff]
  refine ⟨0, 1, 0, ?_, ?_⟩
  · rw [rampGrid_voxelSize]
    norm_num [march_succ, rampGrid_sample, rampGrid_inside]
  · norm_num [bisect_succ, rampGrid_sample]

/-- On the ramp, the ray from the origin along `(1, 0, 1)` leaves the grid at
the first step. -/
theorem rampGrid_search_side :
    searchRay 1 rampGrid ⟨0, 0, 0⟩ ⟨1, 0, 1⟩ 0 1 (1 / 10) = some (false, 1) := by
  rw [searchRay_false_iff, rampGrid_voxelSize]
  norm_num [march_succ, rampGrid_sample, rampGrid_inside]

/-- On the ramp, the normal at the hit of the axis ray. -/
theorem rampGrid_hitNormal :
    hitNormal Rat.sqrt rampGrid (identityPose ⟨0, 0, 0⟩) ⟨0, 0, 0⟩ ⟨0, 0, 1⟩ 1 = ⟨0, 0, -1⟩ := by
  norm_num [hitNormal, centralDifference, rampGrid, Vec3.add_def, Vec3.scale_def, identityPose,
    Mat3.transpose, Mat3.mulVec, Mat3.one, Vec3.normalize, Vec3.squaredNorm, Vec3.divScalar,
    rat_sqrt_one]

/-- The 2x1 image of the ramp seen from the origin: pixel 0 is a hit at depth
1, pixel 1 is a miss. -/
theorem rampGrid_image :
    raytraceImage Rat.sqrt 1 rampGrid (identityPose ⟨0, 0, 0⟩) twoPixelIntrinsic 2 1 1 (1 / 10)
        staleDepth staleNormal =
      Outcome.done
        ((fun v u => if v < 1 ∧ u < 2 then
            (if u = 0 then ((ExtNum.fin 1, finNormal ⟨0, 0, -1⟩) : ExtNum ℚ × Vec3 (ExtNum ℚ))
              else (sentinelDepth, sentinelNormal)).1
          else sentinelDepth),
         (fun v u => if v < 1 ∧ u < 2 then
            (if u = 0 then ((ExtNum.fin 1, finNormal ⟨0, 0, -1⟩) : ExtNum ℚ × Vec3 (ExtNum ℚ))
              else (sentinelDepth, sentinelNormal)).2
          else sentinelNormal)) := by
  apply raytraceImage_returns Rat.sqrt 1 rampGrid (identityPose ⟨0, 0, 0⟩) twoPixelIntrinsic 2 1 1
    (1 / 10) staleDepth staleNormal
    (fun _ u => if u = 0 then (ExtNum.fin 1, finNormal ⟨0, 0, -1⟩)
      else (sentinelDepth, sentinelNormal))
  intro v u hv hu
  have hv0 : v = 0 := by omega
  subst hv0
  rcases Nat.eq_zero_or_pos u with h0 | h0
  · subst h0
    have hray : (⟨(((0 : Nat) : ℚ) - (twoPixelIntrinsic.m02 * ((2 : Nat) : ℚ) - 1 / 2)) /
          (twoPixelIntrinsic.m00 * ((2 : Nat) : ℚ)),
        (((0 : Nat) : ℚ) - (twoPixelIntrinsic.m12 * ((1 : Nat) : ℚ) - 1 / 2)) /
          (twoPixelIntrinsic.m11 * ((1 : Nat) : ℚ)), 1⟩ : Vec3 ℚ) = ⟨0, 0, 1⟩ := by
      norm_num [twoPixelIntrinsic]
    simp only [pixelBody, hray, identityPose_translation]
    rw [tracePixel_of_search_true Rat.sqrt 1 rampGrid _ 1 (1 / 10) ⟨0, 0, 0⟩ ⟨0, 0, 1⟩ 0 1
      (rampGrid_project _ _) (by rw [identityPose_transform]; exact rampGrid_search_axis)
      (by norm_num)]
    rw [identityPose_transform, rampGrid_hitNormal]
    simp
  · have h1 : u = 1 := by omega
    subst h1
    have hray : (⟨(((1 : Nat) : ℚ) - (twoPixelIntrinsic.m02 * ((2 : Nat) : ℚ) - 1 / 2)) /
          (twoPixelIntrinsic.m00 * ((2 : Nat) : ℚ)),
        (((0 : Nat) : ℚ) - (twoPixelIntrinsic.m12 * ((1 : Nat) : ℚ) - 1 / 2)) /
          (twoPixelIntrinsic.m11 * ((1 : Nat) : ℚ)), 1⟩ : Vec3 ℚ) = ⟨1, 0, 1⟩ := by
      norm_num [twoPixelIntrinsic]
    simp only [pixelBody, hray, identityPose_translation]
    rw [tracePixel_of_search_false Rat.sqrt 1 rampGrid _ 1 (1 / 10) ⟨0, 0, 0⟩ ⟨1, 0, 1⟩ 0 1
      (rampGrid_project _ _) (by rw [identityPose_transform]; exact rampGrid_search_side)]
    simp

/-- On the ramp, the axis ray of a camera at `(0, 0, 1)`, behind the surface,
leaves the grid at the third step. -/
theorem rampGrid_search_behind (eps : ℚ) :
    searchRay 3 rampGrid ⟨0, 0, 1⟩ ⟨0, 0, 1⟩ 0 1 eps = some (false, 3) := by
  rw [searchRay_false_iff, rampGrid_voxelSize]
  norm_num [march_succ, rampGrid_sample, rampGrid_inside]

/-- The 1x1 image of the ramp seen from `(0, 0, 1)`: a miss. -/
theorem rampGrid_image_behind :
    raytraceImage Rat.sqrt 3 rampGrid (identityPose ⟨0, 0, 1⟩) centredIntrinsic 1 1 1 (1 / 10)
        staleDepth staleNormal =
      Outcome.done
        ((fun v u => if v < 1 ∧ u < 1 then
            ((sentinelDepth, sentinelNormal) : ExtNum ℚ × Vec3 (ExtNum ℚ)).1
          else sentinelDepth),
         (fun v u => if v < 1 ∧ u < 1 then
            ((sentinelDepth, sentinelNormal) : ExtNum ℚ × Vec3 (ExtNum ℚ)).2
          else sentinelNormal)) := by
  apply raytraceImage_returns Rat.sqrt 3 rampGrid (identityPose ⟨0, 0, 1⟩) centredIntrinsic 1 1 1
    (1 / 10) staleDepth staleNormal (fun _ _ => (sentinelDepth, sentinelNormal))
  intro v u hv hu
  have hv0 : v = 0 := by omega
  have hu0 : u = 0 := by omega
  subst hv0 hu0
  have hray : (⟨(((0 : Nat) : ℚ) - (centredIntrinsic.m02 * ((1 : Nat) : ℚ) - 1 / 2)) /
        (centredIntrinsic.m00 * ((1 : Nat) : ℚ)),
      (((0 : Nat) : ℚ) - (centredIntrinsic.m12 * ((1 : Nat) : ℚ) - 1 / 2)) /
        (centredIntrinsic.m11 * ((1 : Nat) : ℚ)), 1⟩ : Vec3 ℚ) = ⟨0, 0, 1⟩ := by
    norm_num [centredIntrinsic]
  simp only [pixelBody, hray, identityPose_translation]
  exact tracePixel_of_search_false Rat.sqrt 3 rampGrid _ 1 (1 / 10) ⟨0, 0, 1⟩ ⟨0, 0, 1⟩ 0 3
    (rampGrid_project _ _) (by rw [identityPose_transform]; exact rampGrid_search_behind _)

theorem sphereGrid_field : IsSphereField Rat.sqrt 1 sphereGrid := fun _ => rfl

theorem sphereGrid_voxelSize : sphereGrid.voxelSize = 3 / 10 := rfl

theorem sphereGrid_origin : (⟨0, 0, -3⟩ : Vec3 ℚ) = (⟨0, 0, 1⟩ : Vec3 ℚ) * (-3 : ℚ) := by
  norm_num [Vec3.scale_def]

theorem sphereGrid_sample (l : ℚ) :
    sample sphereGrid ⟨0, 0, -3⟩ ⟨0, 0, 1⟩ l = if l ≤ 3 then l - 2 else 4 - l := by
  rw [sphereGrid_origin, sphere_sample Rat.sqrt 1 3 sphereGrid ⟨0, 0, 1⟩ sphereGrid_field
    Rat.sqrt_eq (by norm_num [Vec3.squaredNorm])]
  split_ifs with h
  · rw [abs_of_nonpos (by linarith)]; ring
  · rw [abs_of_pos (by linarith)]; ring

theorem sphereGrid_inside (l : ℚ) :
    inside sphereGrid ⟨0, 0, -3⟩ ⟨0, 0, 1⟩ l = decide (-3 / 2 ≤ -3 + 1 * l ∧ -3 + 1 * l ≤ 3 / 2) :=
  rfl

theorem sphereGrid_project :
    sphereGrid.projectRayToVoxelPoint ⟨0, 0, -3⟩ ⟨0, 0, 1⟩ = some (3 / 2) := by
  norm_num [sphereGrid]

/-- The sphere scene, camera at `(0, 0, -3)` looking along `+z`, march step
9/10: the march brackets the far crossing in `[33/10, 21/5]` and the bisection
is left with the bracket `[159/40, 129/32]`. -/
theorem sphereGrid_search :
    searchRay 5 sphereGrid ⟨0, 0, -3⟩ ⟨0, 0, 1⟩ (3 / 2) 3 (1 / 100) = some (true, 129 / 32) := by
  rw [searchRay_true_iff]
  refine ⟨33 / 10, 21 / 5, 159 / 40, ?_, ?_⟩
  · rw [sphereGrid_voxelSize]
    norm_num [march_succ, sphereGrid_sample, sphereGrid_inside]
  · norm_num [bisect_succ, sphereGrid_sample]
    norm_num [abs_lt]

theorem one_isOrthonormal : (Mat3.one : Mat3 ℚ).IsOrthonormal := by
  norm_num [Mat3.IsOrthonormal, Mat3.mul, Mat3.transpose, Mat3.one]

theorem sphereGrid_hitNormal :
    hitNormal Rat.sqrt sphereGrid (identityPose ⟨0, 0, -3⟩) ⟨0, 0, -3⟩ ⟨0, 0, 1⟩ (129 / 32) =
      ⟨0, 0, -1⟩ := by
  rw [sphereGrid_origin]
  exact sphere_hitNormal Rat.sqrt 1 3 (129 / 32) sphereGrid (identityPose _) ⟨0, 0, 1⟩
    sphereGrid_field Rat.sqrt_eq (by simp [IsPrincipalAxis]) one_isOrthonormal
    (by norm_num [identityPose, Mat3.mulVec, Mat3.one])
    (by norm_num [sphereGrid_voxelSize]) (by norm_num [sphereGrid_voxelSize])

theorem centred_ray :
    (⟨(((0 : Nat) : ℚ) - (centredIntrinsic.m02 * ((1 : Nat) : ℚ) - 1 / 2)) /
        (centredIntrinsic.m00 * ((1 : Nat) : ℚ)),
      (((0 : Nat) : ℚ) - (centredIntrinsic.m12 * ((1 : Nat) : ℚ) - 1 / 2)) /
        (centredIntrinsic.m11 * ((1 : Nat) : ℚ)), 1⟩ : Vec3 ℚ) = ⟨0, 0, 1⟩ := by
  norm_num [centredIntrinsic]

/-- The 1x1 image of the sphere scene. -/
theorem sphereGrid_image :
    raytraceImage Rat.sqrt 5 sphereGrid (identityPose ⟨0, 0, -3⟩) centredIntrinsic 1 1 3 (1 / 100)
        staleDepth staleNormal =
      Outcome.done
        ((fun v u => if v < 1 ∧ u < 1 then
            ((ExtNum.fin (129 / 32), finNormal ⟨0, 0, -1⟩) : ExtNum ℚ × Vec3 (ExtNum ℚ)).1
          else sentinelDepth),
         (fun v u => if v < 1 ∧ u < 1 then
            ((ExtNum.fin (129 / 32), finNormal ⟨0, 0, -1⟩) : ExtNum ℚ × Vec3 (ExtNum ℚ)).2
          else sentinelNormal)) := by
  apply raytraceImage_returns Rat.sqrt 5 sphereGrid (identityPose ⟨0, 0, -3⟩) centredIntrinsic 1 1 3
    (1 / 100) staleDepth staleNormal (fun _ _ => (ExtNum.fin (129 / 32), finNormal ⟨0, 0, -1⟩))
  intro v u hv hu
  have hv0 : v = 0 := by omega
  have hu0 : u = 0 := by omega
  subst hv0 hu0
  simp only [pixelBody, centred_ray, identityPose_translation]
  rw [tracePixel_of_search_true Rat.sqrt 5 sphereGrid _ 3 (1 / 100) ⟨0, 0, -3⟩ ⟨0, 0, 1⟩
    (3 / 2) (129 / 32)
    (by rw [identityPose_transform]; exact sphereGrid_project)
    (by rw [identityPose_transform]; exact sphereGrid_search)
    (by norm_num)]
  rw [identityPose_transform, sphereGrid_hitNormal]

theorem saddleGrid_sample (l : ℚ) :
    sample saddleGrid ⟨0, 0, 0⟩ ⟨0, 0, 1⟩ l =
      1 - 2 * l + 4 / 3 * l * (l - 1 / 2) * (l - 1) := by
  simp only [sample, saddleGrid, Vec3.add_def, Vec3.scale_def]
  ring

theorem saddleGrid_inside (l : ℚ) :
    inside saddleGrid ⟨0, 0, 0⟩ ⟨0, 0, 1⟩ l = decide (-3 ≤ 0 + 1 * l ∧ 0 + 1 * l ≤ 3) := rfl

theorem saddleGrid_search :
    searchRay 1 saddleGrid ⟨0, 0, 0⟩ ⟨0, 0, 1⟩ 0 1 (1 / 10) = some (true, 1) := by
  rw [searchRay_true_iff]
  refine ⟨0, 1, 0, ?_, ?_⟩
  · rw [show saddleGrid.voxelSize = 1 from rfl]
    norm_num [march_succ, saddleGrid_sample, saddleGrid_inside]
  · norm_num [bisect_succ, saddleGrid_sample]

/-- On the saddle grid the central-difference gradient at the hit `(0, 0, 1)`
is zero, and `normalize` leaves the zero vector as it is. -/
theorem saddleGrid_hitNormal :
    hitNormal Rat.sqrt saddleGrid (identityPose ⟨0, 0, 0⟩) ⟨0, 0, 0⟩ ⟨0, 0, 1⟩ 1 = ⟨0, 0, 0⟩ := by
  norm_num [hitNormal, centralDifference, saddleGrid, Vec3.add_def, Vec3.scale_def, identityPose,
    Mat3.transpose, Mat3.mulVec, Mat3.one, Vec3.normalize, Vec3.squaredNorm]

/-- The 1x1 image of the saddle grid seen from the origin. -/
theorem saddleGrid_image :
    raytraceImage Rat.sqrt 1 saddleGrid (identityPose ⟨0, 0, 0⟩) centredIntrinsic 1 1 1 (1 / 10)
        staleDepth staleNormal =
      Outcome.done
        ((fun v u => if v < 1 ∧ u < 1 then
            ((ExtNum.fin 1, finNormal ⟨0, 0, 0⟩) : ExtNum ℚ × Vec3 (ExtNum ℚ)).1
          else sentinelDepth),
         (fun v u => if v < 1 ∧ u < 1 then
            ((ExtNum.fin 1, finNormal ⟨0, 0, 0⟩) : ExtNum ℚ × Vec3 (ExtNum ℚ)).2
          else sentinelNormal)) := by
  apply raytraceImage_returns Rat.sqrt 1 saddleGrid (identityPose ⟨0, 0, 0⟩) centredIntrinsic 1 1 1
    (1 / 10) staleDepth staleNormal (fun _ _ => (ExtNum.fin 1, finNormal ⟨0, 0, 0⟩))
  intro v u hv hu
  have hv0 : v = 0 := by omega
  have hu0 : u = 0 := by omega
  subst hv0 hu0
  simp only [pixelBody, centred_ray, identityPose_translation]
  rw [tracePixel_of_search_true Rat.sqrt 1 saddleGrid _ 1 (1 / 10) ⟨0, 0, 0⟩ ⟨0, 0, 1⟩ 0 1
    rfl (by rw [identityPose_transform]; exact saddleGrid_search) (by norm_num)]
  rw [identityPose_transform, saddleGrid_hitNormal]

theorem steepGrid_sample {α : Type} [LinearOrderedField α] (l : α) :
    sample (steepGrid α) ⟨0, 0, 0⟩ ⟨0, 0, 1⟩ l = 1 - 100 * (0 + 1 * l) := rfl

theorem steepGrid_inside {α : Type} [LinearOrderedField α] (l : α) :
    inside (steepGrid α) ⟨0, 0, 0⟩ ⟨0, 0, 1⟩ l = decide (-3 ≤ 0 + 1 * l ∧ 0 + 1 * l ≤ 3) := rfl

theorem steepGrid_voxelSize {α : Type} [LinearOrderedField α] :
    (steepGrid α).voxelSize = 1 / 50 := rfl

theorem steepGrid_continuous :
    Continuous (fun l : ℝ => sample (steepGrid ℝ) ⟨0, 0, 0⟩ ⟨0, 0, 1⟩ l) := by
  simp only [steepGrid_sample]
  fun_prop

theorem sphereGrid_march :
    march sphereGrid ⟨0, 0, -3⟩ ⟨0, 0, 1⟩ (sphereGrid.voxelSize * 3) 3 (3 / 2)
      (sample sphereGrid ⟨0, 0, -3⟩ ⟨0, 0, 1⟩ (3 / 2)) =
        some (MarchExit.crossing (33 / 10) (21 / 5)) := by
  rw [sphereGrid_voxelSize]
  norm_num [march_succ, sphereGrid_sample, sphereGrid_inside]

theorem sphereGrid_bisect :
    bisect sphereGrid ⟨0, 0, -3⟩ ⟨0, 0, 1⟩ (1 / 100) 5 (33 / 10) (21 / 5) =
      some (159 / 40, 129 / 32) := by
  norm_num [bisect_succ, sphereGrid_sample]
  norm_num [abs_lt]

theorem rampGrid_visited :
    marchVisited rampGrid ⟨0, 0, 1⟩ ⟨0, 0, 1⟩ (rampGrid.voxelSize * 1) 3 0
      (sample rampGrid ⟨0, 0, 1⟩ ⟨0, 0, 1⟩ 0) = [1, 2, 3] := by
  rw [rampGrid_voxelSize]
  norm_num [marchVisited_succ, rampGrid_sample, rampGrid_inside]

theorem rampGrid_march_axis :
    march rampGrid ⟨0, 0, 0⟩ ⟨0, 0, 1⟩ (rampGrid.voxelSize * 1) 1 0
      (sample rampGrid ⟨0, 0, 0⟩ ⟨0, 0, 1⟩ 0) = some (MarchExit.crossing 0 1) := by
  rw [rampGrid_voxelSize]
  norm_num [march_succ, rampGrid_sample, rampGrid_inside]

theorem sphereGrid_march_long :
    march sphereGrid ⟨0, 0, -3⟩ ⟨0, 0, 1⟩ (sphereGrid.voxelSize * 3) 7 (3 / 2)
      (sample sphereGrid ⟨0, 0, -3⟩ ⟨0, 0, 1⟩ (3 / 2)) =
        some (MarchExit.crossing (33 / 10) (21 / 5)) :=
  march_mono sphereGrid _ _ _ 3 _ _ _ sphereGrid_march 4

theorem sphereGrid_bisect_fine :
    bisect sphereGrid ⟨0, 0, -3⟩ ⟨0, 0, 1⟩ (1 / 1000) 7 (33 / 10) (21 / 5) =
      some (1023 / 256, 1281 / 320) := by
  norm_num [bisect_succ, sphereGrid_sample]
  norm_num [abs_lt]

theorem sphereGrid_search_fine :
    searchRay 7 sphereGrid ⟨0, 0, -3⟩ ⟨0, 0, 1⟩ (3 / 2) 3 (1 / 1000) =
      some (true, 1281 / 320) :=
  (searchRay_true_iff 7 sphereGrid _ _ _ _ _ _).mpr
    ⟨33 / 10, 21 / 5, 1023 / 256, sphereGrid_march_long, sphereGrid_bisect_fine⟩

theorem sphereGrid_hitNormal_fine :
    hitNormal Rat.sqrt sphereGrid (identityPose ⟨0, 0, -3⟩) ⟨0, 0, -3⟩ ⟨0, 0, 1⟩ (1281 / 320) =
      ⟨0, 0, -1⟩ := by
  rw [sphereGrid_origin]
  exact sphere_hitNormal Rat.sqrt 1 3 (1281 / 320) sphereGrid (identityPose _) ⟨0, 0, 1⟩
    sphereGrid_field Rat.sqrt_eq (by simp [IsPrincipalAxis]) one_isOrthonormal
    (by norm_num [identityPose, Mat3.mulVec, Mat3.one])
    (by norm_num [sphereGrid_voxelSize]) (by norm_num [sphereGrid_voxelSize])

/-- The 1x1 image of the sphere scene with tolerance 1/1000, where the
bisection is left on the width test. -/
theorem sphereGrid_image_fine :
    raytraceImage Rat.sqrt 7 sphereGrid (identityPose ⟨0, 0, -3⟩) centredIntrinsic 1 1 3
        (1 / 1000) staleDepth staleNormal =
      Outcome.done
        ((fun v u => if v < 1 ∧ u < 1 then
            ((ExtNum.fin (1281 / 320), finNormal ⟨0, 0, -1⟩) : ExtNum ℚ × Vec3 (ExtNum ℚ)).1
          else sentinelDepth),
         (fun v u => if v < 1 ∧ u < 1 then
            ((ExtNum.fin (1281 / 320), finNormal ⟨0, 0, -1⟩) : ExtNum ℚ × Vec3 (ExtNum ℚ)).2
          else sentinelNormal)) := by
  apply raytraceImage_returns Rat.sqrt 7 sphereGrid (identityPose ⟨0, 0, -3⟩) centredIntrinsic 1 1 3
    (1 / 1000) staleDepth staleNormal (fun _ _ => (ExtNum.fin (1281 / 320), finNormal ⟨0, 0, -1⟩))
  intro v u hv hu
  have hv0 : v = 0 := by omega
  have hu0 : u = 0 := by omega
  subst hv0 hu0
  simp only [pixelBody, centred_ray, identityPose_translation]
  rw [tracePixel_of_search_true Rat.sqrt 7 sphereGrid _ 3 (1 / 1000) ⟨0, 0, -3⟩ ⟨0, 0, 1⟩
    (3 / 2) (1281 / 320)
    (by rw [identityPose_transform]; exact sphereGrid_project)
    (by rw [identityPose_transform]; exact sphereGrid_search_fine)
    (by norm_num)]
  rw [identityPose_transform, sphereGrid_hitNormal_fine]

end SceneLemmas

/-! ## The claims -/

section Claims

variable {α : Type} [LinearOrderedField α]

/-- The march leaves the grid, with the pairs of samples indexed as in the
claims: pair `k` is made of the samples at `L0 + (k-1)*s` and `L0 + k*s`. -/
theorem march_leaves_indexed (g : VoxelGrid α) (origin ray : Vec3 α) (L0 s : α) (n : Nat)
    (hn : 1 ≤ n)
    (hout : inside g origin ray (L0 + (n : α) * s) = false)
    (hno : ∀ k : Nat, 2 ≤ k → k < n →
      ¬ (sample g origin ray (L0 + ((k : α) - 1) * s) > 0 ∧
          sample g origin ray (L0 + (k : α) * s) < 0))
    (h1 : 2 ≤ n → ¬ (sample g origin ray L0 > 0 ∧ sample g origin ray (L0 + s) < 0)) :
    ∃ m : Nat, 1 ≤ m ∧ m ≤ n ∧ ∀ (fuel : Nat), n ≤ fuel →
      march g origin ray s fuel L0 (sample g origin ray L0) =
        some (MarchExit.outside (L0 + (m : α) * s)) := by
  obtain ⟨m, hm1, hm2, hm⟩ := march_leaves g origin ray s n L0 (sample g origin ray L0) hn hout h1
    (by
      intro k hk1 hk2
      have := hno (k + 1) (by omega) (by omega)
      have e : ((k + 1 : Nat) : α) - 1 = (k : α) := by push_cast; ring
      rw [e] at this
      exact this)
  refine ⟨m, hm1, hm2, fun fuel hf => ?_⟩
  obtain ⟨more, rfl⟩ : ∃ more, fuel = n + more := ⟨fuel - n, by omega⟩
  exact march_mono g origin ray s n _ _ _ hm more

/-- C1 (the code departs from the claim): on the ramp `value(p) = 1/2 - p.z`
with step 1 and epsilon 1/10, the samples along the march fall strictly
through zero (1/2 at length 0, -1/2 at length 1, inside the grid), the first
midpoint 1/2 has value 0 and passes the value test, and `searchRay` returns
`true` with length 1 for every fuel, leaving the bracket `[0, 1]`: the value
at the returned length is -1/2, not within epsilon, and the bracket width 1
is not below 1/100. -/
theorem searchRay_value_exit_keeps_coarse_length :
    (∀ more : Nat,
      searchRay (1 + more) rampGrid ⟨0, 0, 0⟩ ⟨0, 0, 1⟩ 0 1 (1 / 10) = some (true, 1)) ∧
    march rampGrid ⟨0, 0, 0⟩ ⟨0, 0, 1⟩ (rampGrid.voxelSize * 1) 1 0
      (sample rampGrid ⟨0, 0, 0⟩ ⟨0, 0, 1⟩ 0) = some (MarchExit.crossing 0 1) ∧
    bisect rampGrid ⟨0, 0, 0⟩ ⟨0, 0, 1⟩ (1 / 10) 1 0 1 = some (0, 1) ∧
    inside rampGrid ⟨0, 0, 0⟩ ⟨0, 0, 1⟩ 1 = true ∧
    sample rampGrid ⟨0, 0, 0⟩ ⟨0, 0, 1⟩ 0 = 1 / 2 ∧
    sample rampGrid ⟨0, 0, 0⟩ ⟨0, 0, 1⟩ (1 / 2) = 0 ∧
    sample rampGrid ⟨0, 0, 0⟩ ⟨0, 0, 1⟩ 1 = -1 / 2 ∧
    ¬ (|sample rampGrid ⟨0, 0, 0⟩ ⟨0, 0, 1⟩ 1| ≤ 1 / 10) ∧
    ¬ (|(1 : ℚ) - 0| < 1 / 100) := by
  refine ⟨fun more => searchRay_mono 1 _ _ _ _ _ _ _ rampGrid_search_axis more,
    ?_, ?_, ?_, ?_, ?_, ?_, ?_, ?_⟩
  · rw [rampGrid_voxelSize]
    norm_num [march_succ, rampGrid_sample, rampGrid_inside]
  · norm_num [bisect_succ, rampGrid_sample]
  · norm_num [rampGrid_inside]
  · norm_num [rampGrid_sample]
  · norm_num [rampGrid_sample]
  · norm_num [rampGrid_sample]
  · norm_num [rampGrid_sample, abs_of_neg]
  · norm_num

/-- C2: when the point at length `L0 + n*s` (with `n ≥ 1` and
`s = voxelSize * stepSizeVoxel`) is outside the grid and no pair `k` in
`1..n-1` has `field(L0 + (k-1)*s) > 0` and `field(L0 + k*s) < 0`, `searchRay`
returns `false` (with any fuel of at least `n`); the body of the pixel loop,
for a pixel whose ray this is and which enters at `L0`, stores `-inf` as depth
and in the three channels of the normal, and that pixel holds these values
when `raytraceImage` returns. -/
theorem searchRay_false_when_ray_leaves_first (g : VoxelGrid α) (origin ray : Vec3 α)
    (L0 ssv : α) (n : Nat) (hn : 1 ≤ n)
    (hout : inside g origin ray (L0 + (n : α) * (g.voxelSize * ssv)) = false)
    (hno : ∀ k : Nat, 1 ≤ k → k < n →
      ¬ (sample g origin ray (L0 + ((k : α) - 1) * (g.voxelSize * ssv)) > 0 ∧
          sample g origin ray (L0 + (k : α) * (g.voxelSize * ssv)) < 0)) :
    (∃ l : α, ∀ (fuel : Nat) (eps : α), n ≤ fuel →
        searchRay fuel g origin ray L0 ssv eps = some (false, l)) ∧
    (∀ (sqrt : α → α) (fuel : Nat) (pose : Pose α) (eps fx fy cx cy : α) (u v : Nat),
        n ≤ fuel →
        pose.transformVector ⟨((u : α) - cx) / fx, ((v : α) - cy) / fy, 1⟩ = ray →
        g.projectRayToVoxelPoint origin ray = some L0 →
        pixelBody sqrt fuel g pose ssv eps fx fy cx cy origin u v =
          Outcome.done (ExtNum.negInf, ⟨ExtNum.negInf, ExtNum.negInf, ExtNum.negInf⟩)) ∧
    (∀ (sqrt : α → α) (fuel : Nat) (pose : Pose α) (K : Mat3 α) (W H : Nat) (eps : α)
        (D0 D : Image (ExtNum α)) (N0 N : Image (Vec3 (ExtNum α))) (u v : Nat),
        u < W → v < H → pose.translation = origin →
        pose.transformVector ⟨((u : α) - (K.m02 * (W : α) - 1 / 2)) / (K.m00 * (W : α)),
          ((v : α) - (K.m12 * (H : α) - 1 / 2)) / (K.m11 * (H : α)), 1⟩ = ray →
        g.projectRayToVoxelPoint origin ray = some L0 →
        raytraceImage sqrt fuel g pose K W H ssv eps D0 N0 = Outcome.done (D, N) →
        D v u = ExtNum.negInf ∧
          N v u = ⟨ExtNum.negInf, ExtNum.negInf, ExtNum.negInf⟩) := by
  obtain ⟨m, -, -, hm⟩ := march_leaves_indexed g origin ray L0 (g.voxelSize * ssv) n hn hout
    (fun k hk1 hk2 => hno k (by omega) hk2)
    (fun h2 => by
      have := hno 1 (le_refl 1) (by omega)
      simpa using this)
  have hfalse : ∀ (fuel : Nat) (eps : α), n ≤ fuel →
      searchRay fuel g origin ray L0 ssv eps =
        some (false, L0 + (m : α) * (g.voxelSize * ssv)) := by
    intro fuel eps hf
    rw [searchRay_false_iff]
    exact hm fuel hf
  refine ⟨⟨_, hfalse⟩, ?_, ?_⟩
  · intro sqrt fuel pose eps fx fy cx cy u v hf hr hp
    simp only [pixelBody]
    exact tracePixel_of_search_false sqrt fuel g pose ssv eps origin _ L0 _
      (by rw [hr]; exact hp) (by rw [hr]; exact hfalse fuel eps hf)
  intro sqrt fuel pose K W H eps D0 D N0 N u v hu hv ho hr hp hrun
  have hpx := raytraceImage_pixel sqrt fuel g pose K W H ssv eps D0 D N0 N hrun u v hu hv
  simp only [pixelBody] at hpx
  rcases tracePixel_done _ _ _ _ _ _ _ _ _ _ hpx with ⟨-, hd, hnn⟩ | ⟨L1, l, hp1, hs1, -, -, -⟩
  · exact ⟨hd, hnn⟩
  · rw [hr, ho] at hp1 hs1
    rw [hp] at hp1
    simp only [Option.some.injEq] at hp1
    subst hp1
    have h1 := searchRay_mono fuel g origin ray L0 ssv eps _ hs1 n
    rw [hfalse (fuel + n) eps (by omega)] at h1
    simp at h1

/-- C2 at a concrete input: the only pixel of the 1x1 image of the ramp seen
from `(0, 0, 1)`; the samples along its ray are all negative and the point at
the third step is outside the grid (`n = 3`). -/
theorem searchRay_false_when_ray_leaves_first_witness :
    (∃ l : ℚ, searchRay 3 rampGrid ⟨0, 0, 1⟩ ⟨0, 0, 1⟩ 0 1 (1 / 10) = some (false, l)) ∧
    (∃ D N, raytraceImage Rat.sqrt 3 rampGrid (identityPose ⟨0, 0, 1⟩) centredIntrinsic 1 1 1
        (1 / 10) staleDepth staleNormal = Outcome.done (D, N) ∧
      D 0 0 = ExtNum.negInf ∧ N 0 0 = ⟨ExtNum.negInf, ExtNum.negInf, ExtNum.negInf⟩) := by
  obtain ⟨⟨l, hl⟩, -, himg⟩ := searchRay_false_when_ray_leaves_first rampGrid ⟨0, 0, 1⟩ ⟨0, 0, 1⟩
    0 1 3 (by norm_num)
    (by rw [rampGrid_voxelSize]; norm_num [rampGrid_inside])
    (by
      intro k hk1 hk2
      rw [rampGrid_voxelSize]
      interval_cases k <;> norm_num [rampGrid_sample])
  refine ⟨⟨l, hl 3 (1 / 10) (le_refl 3)⟩, _, _, rampGrid_image_behind, ?_⟩
  exact himg Rat.sqrt 3 (identityPose ⟨0, 0, 1⟩) centredIntrinsic 1 1 (1 / 10)
    staleDepth _ staleNormal _ 0 0 (by norm_num) (by norm_num) rfl
    (by rw [identityPose_transform]; norm_num [centredIntrinsic])
    rfl rampGrid_image_behind

/-- C3: `raytraceImage` returns as soon as, at every pixel inside the
resolution, the ray does not enter the grid or `searchRay` returns `false`, or
`true` with a length other than zero. When it returns, a pixel `(u, v)` inside
the resolution has one of two shapes. Either the ray did not enter the grid or
`searchRay` returned `false`, and depth and the three channels of the normal
are `-inf`; or `searchRay` returned `true` with length `l`, the depth is `l`
and the normal is the normalised product of the transposed orientation with
the central-difference gradient at `origin + ray*l`. A depth of `-inf` occurs
exactly with the `-inf` normal, and beside another depth no channel of the
normal is `-inf`. -/
theorem raytraceImage_pixel_two_shapes (sqrt : α → α) (fuel : Nat) (g : VoxelGrid α)
    (pose : Pose α) (K : Mat3 α) (W H : Nat) (ssv eps : α)
    (D0 : Image (ExtNum α)) (N0 : Image (Vec3 (ExtNum α))) :
    ((∀ u v : Nat, u < W → v < H →
        g.projectRayToVoxelPoint pose.translation (pose.transformVector
              ⟨((u : α) - (K.m02 * (W : α) - 1 / 2)) / (K.m00 * (W : α)),
                ((v : α) - (K.m12 * (H : α) - 1 / 2)) / (K.m11 * (H : α)), 1⟩) = none ∨
        ∃ L0 l, g.projectRayToVoxelPoint pose.translation (pose.transformVector
              ⟨((u : α) - (K.m02 * (W : α) - 1 / 2)) / (K.m00 * (W : α)),
                ((v : α) - (K.m12 * (H : α) - 1 / 2)) / (K.m11 * (H : α)), 1⟩) = some L0 ∧
          (searchRay fuel g pose.translation (pose.transformVector
              ⟨((u : α) - (K.m02 * (W : α) - 1 / 2)) / (K.m00 * (W : α)),
                ((v : α) - (K.m12 * (H : α) - 1 / 2)) / (K.m11 * (H : α)), 1⟩) L0 ssv eps = some (false, l) ∨
            (searchRay fuel g pose.translation (pose.transformVector
              ⟨((u : α) - (K.m02 * (W : α) - 1 / 2)) / (K.m00 * (W : α)),
                ((v : α) - (K.m12 * (H : α) - 1 / 2)) / (K.m11 * (H : α)), 1⟩) L0 ssv eps = some (true, l) ∧ l ≠ 0))) →
      ∃ D N, raytraceImage sqrt fuel g pose K W H ssv eps D0 N0 = Outcome.done (D, N)) ∧
    (∀ (D : Image (ExtNum α)) (N : Image (Vec3 (ExtNum α))) (u v : Nat) (ray : Vec3 α),
      u < W → v < H →
      pose.transformVector ⟨((u : α) - (K.m02 * (W : α) - 1 / 2)) / (K.m00 * (W : α)),
        ((v : α) - (K.m12 * (H : α) - 1 / 2)) / (K.m11 * (H : α)), 1⟩ = ray →
      raytraceImage sqrt fuel g pose K W H ssv eps D0 N0 = Outcome.done (D, N) →
      (((g.projectRayToVoxelPoint pose.translation ray = none ∨
            ∃ L0 l, g.projectRayToVoxelPoint pose.translation ray = some L0 ∧
              searchRay fuel g pose.translation ray L0 ssv eps = some (false, l)) ∧
          D v u = ExtNum.negInf ∧
          N v u = ⟨ExtNum.negInf, ExtNum.negInf, ExtNum.negInf⟩) ∨
        (∃ L0 l, g.projectRayToVoxelPoint pose.translation ray = some L0 ∧
            searchRay fuel g pose.translation ray L0 ssv eps = some (true, l) ∧
            D v u = ExtNum.fin l ∧
            N v u = finNormal (Vec3.normalize sqrt (pose.orientation.transpose.mulVec
              (centralDifference g (pose.translation + ray * l)))))) ∧
      (D v u = ExtNum.negInf ↔ N v u = ⟨ExtNum.negInf, ExtNum.negInf, ExtNum.negInf⟩) ∧
      (D v u ≠ ExtNum.negInf →
        (N v u).x ≠ ExtNum.negInf ∧ (N v u).y ≠ ExtNum.negInf ∧
          (N v u).z ≠ ExtNum.negInf)) := by
  constructor
  · intro hall
    apply raytraceImage_returns_of_pixels
    intro v u hv hu
    simp only [pixelBody]
    rcases hall u v hu hv with hp | ⟨L0, l, hp, hs | ⟨hs, hl⟩⟩
    · exact ⟨_, tracePixel_of_no_entry sqrt fuel g pose ssv eps _ _ hp⟩
    · exact ⟨_, tracePixel_of_search_false sqrt fuel g pose ssv eps _ _ L0 l hp hs⟩
    · exact ⟨_, tracePixel_of_search_true sqrt fuel g pose ssv eps _ _ L0 l hp hs hl⟩
  · intro D N u v ray hu hv hray hrun
    have hpx := raytraceImage_pixel sqrt fuel g pose K W H ssv eps D0 D N0 N hrun u v hu hv
    simp only [pixelBody, hray] at hpx
    rcases tracePixel_done _ _ _ _ _ _ _ _ _ _ hpx with
      ⟨hc, hd, hnn⟩ | ⟨L1, l, hp1, hs1, -, hd, hnn⟩
    · rw [hray] at hc
      refine ⟨Or.inl ⟨hc, hd, hnn⟩, ?_, ?_⟩
      · rw [hd, hnn]; simp [sentinelDepth, sentinelNormal]
      · intro h; exact absurd hd h
    · rw [hray] at hp1 hs1 hnn
      refine ⟨Or.inr ⟨L1, l, hp1, hs1, hd, hnn⟩, ?_, ?_⟩
      · rw [hd, hnn]; simp [finNormal]
      · intro _; rw [hnn]; simp [finNormal]

/-- C3 at a concrete input: the 2x1 image of the ramp, where pixel 0 is a hit
at depth 1 with normal `(0, 0, -1)` and pixel 1 a miss. -/
theorem raytraceImage_pixel_two_shapes_witness :
    ∃ D N, raytraceImage Rat.sqrt 1 rampGrid (identityPose ⟨0, 0, 0⟩) twoPixelIntrinsic 2 1 1
        (1 / 10) staleDepth staleNormal = Outcome.done (D, N) ∧
      D 0 0 = ExtNum.fin 1 ∧ N 0 0 = finNormal ⟨0, 0, -1⟩ ∧
      D 0 1 = ExtNum.negInf ∧
      (D 0 0 = ExtNum.negInf ↔ N 0 0 = ⟨ExtNum.negInf, ExtNum.negInf, ExtNum.negInf⟩) ∧
      (D 0 1 = ExtNum.negInf ↔ N 0 1 = ⟨ExtNum.negInf, ExtNum.negInf, ExtNum.negInf⟩) := by
  have h := (raytraceImage_pixel_two_shapes Rat.sqrt 1 rampGrid (identityPose ⟨0, 0, 0⟩)
    twoPixelIntrinsic 2 1 1 (1 / 10) staleDepth staleNormal).2
  refine ⟨_, _, rampGrid_image, rfl, rfl, rfl, ?_, ?_⟩
  · exact (h _ _ 0 0 ⟨0, 0, 1⟩ (by norm_num) (by norm_num)
      (by rw [identityPose_transform]; norm_num [twoPixelIntrinsic]) rampGrid_image).2.1
  · exact (h _ _ 1 0 ⟨1, 0, 1⟩ (by norm_num) (by norm_num)
      (by rw [identityPose_transform]; norm_num [twoPixelIntrinsic]) rampGrid_image).2.1

/-- C4 (fails as stated): the sphere of radius 1, `value(p) = 1 - |p|`, seen
from `(0, 0, -3)` along `+z` (distance 3 from the centre), centre pixel on the
optical axis, march step 9/10, epsilon 1/100. `raytraceImage` returns and the
centre pixel holds the depth 129/32, just beyond the far crossing `3 + 1`; it
differs from `3 - 1` by more than 2. -/
theorem sphere_depth_counterexample :
    IsSphereField Rat.sqrt 1 sphereGrid ∧
    (identityPose ⟨0, 0, -3⟩).translation = (⟨0, 0, 1⟩ : Vec3 ℚ) * (-3 : ℚ) ∧
    (identityPose ⟨0, 0, -3⟩).transformVector ⟨0, 0, 1⟩ = ⟨0, 0, 1⟩ ∧
    (∃ D N, raytraceImage Rat.sqrt 5 sphereGrid (identityPose ⟨0, 0, -3⟩) centredIntrinsic 1 1 3
        (1 / 100) staleDepth staleNormal = Outcome.done (D, N) ∧
      D 0 0 = ExtNum.fin (129 / 32)) ∧
    ¬ (|(129 / 32 : ℚ) - (3 - 1)| ≤ 1 / 100) ∧
    2 < |(129 / 32 : ℚ) - (3 - 1)| := by
  refine ⟨sphereGrid_field, ?_, identityPose_transform _ _, ⟨_, _, sphereGrid_image, rfl⟩, ?_, ?_⟩
  · rw [identityPose_translation]; exact sphereGrid_origin
  · norm_num [abs_le]
  · norm_num [lt_abs]

/-- C4 (amended): in the sphere scenario (field `R - |p|`, camera at distance
`dist` from the centre on a principal axis `a`, looking at the centre, centre
pixel on the optical axis, positive march step, tolerance not negative), when
the search of the centre pixel ends with the bracket `[previousLength, l]`,
the depth written is `l`, and the crossing located is the far one, `dist + R`,
where the field goes from positive to negative: if the bracket is narrower
than 1/100 the depth is within 1/100 of `dist + R`, and a midpoint that passes
the value test is within `epsilon` of `dist + R`. -/
theorem sphere_centre_depth_far_crossing (sqrt : α → α) (fuel : Nat) (g : VoxelGrid α)
    (pose : Pose α) (K : Mat3 α) (W H : Nat) (ssv eps R dist : α)
    (D0 Dimg : Image (ExtNum α)) (N0 Nimg : Image (Vec3 (ExtNum α))) (u v : Nat)
    (a : Vec3 α) (L0 p0 l0 p1 l : α) (hu : u < W) (hv : v < H)
    (hfield : IsSphereField sqrt R g) (hsqrt : ∀ x : α, sqrt (x * x) = |x|)
    (ha : IsPrincipalAxis a)
    (hpos : pose.translation = a * (-dist))
    (hlook : pose.transformVector ⟨0, 0, 1⟩ = a)
    (hcentre : (⟨((u : α) - (K.m02 * (W : α) - 1 / 2)) / (K.m00 * (W : α)),
      ((v : α) - (K.m12 * (H : α) - 1 / 2)) / (K.m11 * (H : α)), 1⟩ : Vec3 α) = ⟨0, 0, 1⟩)
    (hs : 0 < g.voxelSize * ssv) (heps : 0 ≤ eps)
    (hproj : g.projectRayToVoxelPoint (a * (-dist)) a = some L0)
    (hm : march g (a * (-dist)) a (g.voxelSize * ssv) fuel L0
      (sample g (a * (-dist)) a L0) = some (MarchExit.crossing p0 l0))
    (hb : bisect g (a * (-dist)) a eps fuel p0 l0 = some (p1, l))
    (hrun : raytraceImage sqrt fuel g pose K W H ssv eps D0 N0 = Outcome.done (Dimg, Nimg)) :
    Dimg v u = ExtNum.fin l ∧
    (|l - p1| < 1 / 100 → |l - (dist + R)| < 1 / 100) ∧
    (¬ sample g (a * (-dist)) a ((p1 + l) / 2) > eps →
      ¬ sample g (a * (-dist)) a ((p1 + l) / 2) < -eps →
      |(p1 + l) / 2 - (dist + R)| ≤ eps) := by
  have hsr : searchRay fuel g (a * (-dist)) a L0 ssv eps = some (true, l) :=
    (searchRay_true_iff fuel g _ a L0 ssv eps l).mpr ⟨p0, l0, p1, hm, hb⟩
  have hsamp := sphere_sample sqrt R dist g a hfield hsqrt (principalAxis_squaredNorm a ha)
  obtain ⟨k, hp, hl, hsp, hsl, -, -⟩ :=
    march_crossing_sound g _ a _ fuel L0 _ p0 l0 rfl hm
  have hlt : p0 < l0 := by rw [hp, hl]; push_cast; linarith
  obtain ⟨-, hpl, -⟩ := bisect_bracket g _ a eps fuel p0 l0 p1 l hlt hb
  obtain ⟨h1, h2⟩ := bisect_signs g _ a eps heps fuel p0 l0 p1 l hsp hsl hb
  rw [hsamp] at h1 h2
  have hp1 : |p1 - dist| < R := by linarith
  have hl1 : R < |l - dist| := by linarith
  rw [abs_lt] at hp1
  have hfar : R < l - dist := by
    rcases lt_abs.mp hl1 with h3 | h3
    · exact h3
    · exfalso; linarith
  refine ⟨?_, ?_, ?_⟩
  · have hpx := raytraceImage_pixel sqrt fuel g pose K W H ssv eps D0 Dimg N0 Nimg hrun u v hu hv
    simp only [pixelBody, hcentre] at hpx
    rcases tracePixel_done _ _ _ _ _ _ _ _ _ _ hpx with
      ⟨hc, -, -⟩ | ⟨L1, l1, hq, hsr1, -, hd1, -⟩
    · rw [hlook, hpos] at hc
      rcases hc with hc | ⟨L1, l1, hq, hf⟩
      · rw [hproj] at hc; simp at hc
      · rw [hproj] at hq
        simp only [Option.some.injEq] at hq
        subst hq
        rw [hsr] at hf
        simp at hf
    · rw [hlook, hpos] at hq hsr1
      rw [hproj] at hq
      simp only [Option.some.injEq] at hq
      subst hq
      rw [hsr] at hsr1
      simp only [Option.some.injEq, Prod.mk.injEq, true_and] at hsr1
      rw [hd1, hsr1]
  · intro hw
    rw [abs_lt] at hw ⊢
    constructor <;> linarith
  · intro hv1 hv2
    rw [hsamp] at hv1 hv2
    have hmid : 0 < (p1 + l) / 2 - dist := by linarith
    rw [abs_of_pos hmid] at hv1 hv2
    rw [abs_le]
    constructor <;> linarith

/-- C4 (amended) at a concrete input: the sphere scene with tolerance 1/1000,
where the bisection is left on the width test with the bracket
`[1023/256, 1281/320]` and the depth 1281/320 is within 1/100 of `3 + 1`. -/
theorem sphere_centre_depth_far_crossing_witness :
    (∃ D N, raytraceImage Rat.sqrt 7 sphereGrid (identityPose ⟨0, 0, -3⟩) centredIntrinsic 1 1 3
        (1 / 1000) staleDepth staleNormal = Outcome.done (D, N) ∧
      D 0 0 = ExtNum.fin (1281 / 320)) ∧
    |(1281 / 320 : ℚ) - 1023 / 256| < 1 / 100 ∧
    |(1281 / 320 : ℚ) - (3 + 1)| < 1 / 100 := by
  have h := sphere_centre_depth_far_crossing Rat.sqrt 7 sphereGrid (identityPose ⟨0, 0, -3⟩)
    centredIntrinsic 1 1 3 (1 / 1000) 1 3 staleDepth _ staleNormal _ 0 0 ⟨0, 0, 1⟩
    (3 / 2) (33 / 10) (21 / 5) (1023 / 256) (1281 / 320)
    (by norm_num) (by norm_num) sphereGrid_field Rat.sqrt_eq (by simp [IsPrincipalAxis])
    (by rw [identityPose_translation]; exact sphereGrid_origin)
    (identityPose_transform _ _) centred_ray
    (by norm_num [sphereGrid_voxelSize]) (by norm_num)
    (by rw [← sphereGrid_origin]; exact sphereGrid_project)
    (by rw [← sphereGrid_origin]; exact sphereGrid_march_long)
    (by rw [← sphereGrid_origin]; exact sphereGrid_bisect_fine)
    sphereGrid_image_fine
  have hw : |(1281 / 320 : ℚ) - 1023 / 256| < 1 / 100 := by norm_num [abs_lt]
  exact ⟨⟨_, _, sphereGrid_image_fine, h.1⟩, hw, h.2.1 hw⟩

/-- C5: in the sphere scenario (field `R - |p|`, camera at distance `dist`
from the centre on a principal axis `a`, looking at the centre, orientation
orthonormal, centre pixel on the optical axis, positive voxel size and march
step, tolerance not negative), when the depth written for the centre pixel is
`l` and the voxel size is smaller than the distance `|l - dist|` of the hit
point from the centre, the normal written for the centre pixel is
`(0, 0, -1)`. -/
theorem sphere_centre_normal (sqrt : α → α) (fuel : Nat) (g : VoxelGrid α)
    (pose : Pose α) (K : Mat3 α) (W H : Nat) (ssv eps R dist : α)
    (D0 Dimg : Image (ExtNum α)) (N0 Nimg : Image (Vec3 (ExtNum α))) (u v : Nat)
    (a : Vec3 α) (l : α) (hu : u < W) (hv : v < H)
    (hfield : IsSphereField sqrt R g) (hsqrt : ∀ x : α, sqrt (x * x) = |x|)
    (ha : IsPrincipalAxis a)
    (hortho : pose.orientation.IsOrthonormal)
    (htv : ∀ x, pose.transformVector x = pose.orientation.mulVec x)
    (hpos : pose.translation = a * (-dist))
    (hlook : pose.transformVector ⟨0, 0, 1⟩ = a)
    (hcentre : (⟨((u : α) - (K.m02 * (W : α) - 1 / 2)) / (K.m00 * (W : α)),
      ((v : α) - (K.m12 * (H : α) - 1 / 2)) / (K.m11 * (H : α)), 1⟩ : Vec3 α) = ⟨0, 0, 1⟩)
    (hh : 0 < g.voxelSize) (hs : 0 < g.voxelSize * ssv) (heps : 0 ≤ eps)
    (hrun : raytraceImage sqrt fuel g pose K W H ssv eps D0 N0 = Outcome.done (Dimg, Nimg))
    (hd : Dimg v u = ExtNum.fin l)
    (hvox : g.voxelSize < |l - dist|) :
    Nimg v u = ⟨ExtNum.fin 0, ExtNum.fin 0, ExtNum.fin (-1)⟩ := by
  have hpx := raytraceImage_pixel sqrt fuel g pose K W H ssv eps D0 Dimg N0 Nimg hrun u v hu hv
  simp only [pixelBody, hcentre] at hpx
  rcases tracePixel_done _ _ _ _ _ _ _ _ _ _ hpx with ⟨-, hd1, -⟩ | ⟨L1, l1, -, hsr, -, hd1, hnn⟩
  · rw [hd1] at hd; simp [sentinelDepth] at hd
  · rw [hd1] at hd
    simp only [ExtNum.fin.injEq] at hd
    subst hd
    rw [hlook, hpos] at hsr hnn
    obtain ⟨hR, hfar, -⟩ :=
      sphere_search_bounds sqrt R dist g a hfield hsqrt ha fuel L1 ssv eps l1 hs heps hsr
    have hl : g.voxelSize < l1 - dist := by
      rwa [abs_of_pos (by linarith)] at hvox
    rw [hnn, sphere_hitNormal sqrt R dist l1 g pose a hfield hsqrt ha hortho
      (by rw [← htv]; exact hlook) hh hl]
    rfl

/-- C5 at a concrete input: the sphere scene, whose hit point `(0, 0, 33/32)`
is farther from the centre than the voxel size 3/10. -/
theorem sphere_centre_normal_witness :
    ∃ D N, raytraceImage Rat.sqrt 5 sphereGrid (identityPose ⟨0, 0, -3⟩) centredIntrinsic 1 1 3
        (1 / 100) staleDepth staleNormal = Outcome.done (D, N) ∧
      D 0 0 = ExtNum.fin (129 / 32) ∧
      N 0 0 = ⟨ExtNum.fin 0, ExtNum.fin 0, ExtNum.fin (-1)⟩ :=
  ⟨_, _, sphereGrid_image, rfl,
    sphere_centre_normal Rat.sqrt 5 sphereGrid (identityPose ⟨0, 0, -3⟩) centredIntrinsic
      1 1 3 (1 / 100) 1 3 staleDepth _ staleNormal _ 0 0 ⟨0, 0, 1⟩ (129 / 32)
      (by norm_num) (by norm_num) sphereGrid_field Rat.sqrt_eq (by simp [IsPrincipalAxis])
      one_isOrthonormal (fun _ => rfl)
      (by rw [identityPose_translation]; exact sphereGrid_origin)
      (identityPose_transform _ _) centred_ray
      (by norm_num [sphereGrid_voxelSize]) (by norm_num [sphereGrid_voxelSize]) (by norm_num)
      sphereGrid_image rfl (by norm_num [sphereGrid_voxelSize, lt_abs])⟩

/-- C6 (fails as stated): in the sphere scene the field at the entry length
3/2 is -1/2, the ray is outside the grid at the fourth march step, and yet
`searchRay` returns `true` (with length 129/32, for every fuel of at least 5):
the march samples go -1/2, 2/5, 7/10, -1/5. -/
theorem searchRay_true_after_nonpositive_entry :
    sample sphereGrid ⟨0, 0, -3⟩ ⟨0, 0, 1⟩ (3 / 2) ≤ 0 ∧
    inside sphereGrid ⟨0, 0, -3⟩ ⟨0, 0, 1⟩
      (3 / 2 + ((4 : Nat) : ℚ) * (sphereGrid.voxelSize * 3)) = false ∧
    (∀ more : Nat, searchRay (5 + more) sphereGrid ⟨0, 0, -3⟩ ⟨0, 0, 1⟩ (3 / 2) 3 (1 / 100) =
      some (true, 129 / 32)) := by
  refine ⟨?_, ?_, fun more => searchRay_mono 5 _ _ _ _ _ _ _ sphereGrid_search more⟩
  · norm_num [sphereGrid_sample]
  · norm_num [sphereGrid_inside, sphereGrid_voxelSize]

/-- C6 (amended): when the field at the entry length is `≤ 0`, the first pair
of march samples never stops the march; if moreover the point at
`L0 + n*s` is outside the grid and no later pair `k` in `2..n-1` has
`field(L0 + (k-1)*s) > 0` and `field(L0 + k*s) < 0`, `searchRay` returns
`false`. -/
theorem searchRay_false_when_entry_not_positive (g : VoxelGrid α) (origin ray : Vec3 α)
    (L0 ssv : α) (n : Nat) (hn : 1 ≤ n)
    (hentry : sample g origin ray L0 ≤ 0)
    (hout : inside g origin ray (L0 + (n : α) * (g.voxelSize * ssv)) = false)
    (hno : ∀ k : Nat, 2 ≤ k → k < n →
      ¬ (sample g origin ray (L0 + ((k : α) - 1) * (g.voxelSize * ssv)) > 0 ∧
          sample g origin ray (L0 + (k : α) * (g.voxelSize * ssv)) < 0)) :
    ∃ l : α, ∀ (fuel : Nat) (eps : α), n ≤ fuel →
      searchRay fuel g origin ray L0 ssv eps = some (false, l) := by
  obtain ⟨m, -, -, hm⟩ := march_leaves_indexed g origin ray L0 (g.voxelSize * ssv) n hn hout hno
    (fun _ h => absurd h.1 (not_lt.mpr hentry))
  refine ⟨L0 + (m : α) * (g.voxelSize * ssv), fun fuel eps hf => ?_⟩
  rw [searchRay_false_iff]
  exact hm fuel hf

/-- C6 (amended) at a concrete input: the ramp seen from `(0, 0, 1)`, entry
value -1/2, outside the grid at the third step. -/
theorem searchRay_false_when_entry_not_positive_witness :
    ∃ l : ℚ, searchRay 3 rampGrid ⟨0, 0, 1⟩ ⟨0, 0, 1⟩ 0 1 (1 / 10) = some (false, l) := by
  obtain ⟨l, hl⟩ := searchRay_false_when_entry_not_positive rampGrid ⟨0, 0, 1⟩ ⟨0, 0, 1⟩
    0 1 3 (by norm_num)
    (by norm_num [rampGrid_sample])
    (by rw [rampGrid_voxelSize]; norm_num [rampGrid_inside])
    (by
      intro k hk1 hk2
      rw [rampGrid_voxelSize]
      interval_cases k
      norm_num [rampGrid_sample])
  exact ⟨l, hl 3 (1 / 10) (le_refl 3)⟩

/-- C7 (fails as stated): on the saddle grid, seen from the origin with the
identity orientation, the only pixel is a hit at depth 1; at the hit point
the six samples are 0, 0, -1, -1, 1, 1 (not all equal), the gradient is zero
and the normal written is `(0, 0, 0)`, which is not a unit vector. -/
theorem normal_not_unit_with_unequal_samples :
    (identityPose ⟨0, 0, 0⟩).orientation.IsOrthonormal ∧
    (∃ D N, raytraceImage Rat.sqrt 1 saddleGrid (identityPose ⟨0, 0, 0⟩) centredIntrinsic 1 1 1
        (1 / 10) staleDepth staleNormal = Outcome.done (D, N) ∧
      D 0 0 = ExtNum.fin 1 ∧ N 0 0 = finNormal ⟨0, 0, 0⟩) ∧
    saddleGrid.getValueAtPoint
        ((⟨0, 0, 0⟩ : Vec3 ℚ) + (⟨0, 0, 1⟩ : Vec3 ℚ) * (1 : ℚ) + ⟨saddleGrid.voxelSize, 0, 0⟩) ≠
      saddleGrid.getValueAtPoint
        ((⟨0, 0, 0⟩ : Vec3 ℚ) + (⟨0, 0, 1⟩ : Vec3 ℚ) * (1 : ℚ) + ⟨0, saddleGrid.voxelSize, 0⟩) ∧
    (⟨0, 0, 0⟩ : Vec3 ℚ).squaredNorm ≠ 1 := by
  refine ⟨one_isOrthonormal, ⟨_, _, saddleGrid_image, rfl, rfl⟩, ?_, ?_⟩
  · norm_num [saddleGrid, Vec3.add_def, Vec3.scale_def]
  · norm_num [Vec3.squaredNorm]

/-- C7 (amended): for a pixel with a depth `l` other than `-inf`, an
orthonormal orientation, and a square root that is exact at the squared norm
of the gradient, the normal written has squared Euclidean norm 1 (hence norm
1) whenever the central-difference gradient is not zero, that is whenever the
two samples differ along at least one of the three axes. -/
theorem raytraceImage_normal_unit (sqrt : α → α) (fuel : Nat) (g : VoxelGrid α)
    (pose : Pose α) (K : Mat3 α) (W H : Nat) (ssv eps : α)
    (D0 D : Image (ExtNum α)) (N0 N : Image (Vec3 (ExtNum α))) (u v : Nat) (ray : Vec3 α)
    (l : α) (hu : u < W) (hv : v < H)
    (hortho : pose.orientation.IsOrthonormal)
    (hray : pose.transformVector ⟨((u : α) - (K.m02 * (W : α) - 1 / 2)) / (K.m00 * (W : α)),
      ((v : α) - (K.m12 * (H : α) - 1 / 2)) / (K.m11 * (H : α)), 1⟩ = ray)
    (hrun : raytraceImage sqrt fuel g pose K W H ssv eps D0 N0 = Outcome.done (D, N))
    (hd : D v u = ExtNum.fin l)
    (hgrad :
      g.getValueAtPoint (pose.translation + ray * l + Vec3.mk g.voxelSize 0 0) ≠
          g.getValueAtPoint (pose.translation + ray * l + Vec3.mk (-g.voxelSize) 0 0) ∨
        g.getValueAtPoint (pose.translation + ray * l + Vec3.mk 0 g.voxelSize 0) ≠
          g.getValueAtPoint (pose.translation + ray * l + Vec3.mk 0 (-g.voxelSize) 0) ∨
        g.getValueAtPoint (pose.translation + ray * l + Vec3.mk 0 0 g.voxelSize) ≠
          g.getValueAtPoint (pose.translation + ray * l + Vec3.mk 0 0 (-g.voxelSize)))
    (hsqrt :
      sqrt (centralDifference g (pose.translation + ray * l)).squaredNorm *
          sqrt (centralDifference g (pose.translation + ray * l)).squaredNorm =
        (centralDifference g (pose.translation + ray * l)).squaredNorm) :
    ∃ n : Vec3 α, N v u = finNormal n ∧ n.squaredNorm = 1 := by
  have hpx := raytraceImage_pixel sqrt fuel g pose K W H ssv eps D0 D N0 N hrun u v hu hv
  simp only [pixelBody, hray] at hpx
  rcases tracePixel_done _ _ _ _ _ _ _ _ _ _ hpx with ⟨-, hd1, -⟩ | ⟨L1, l1, -, -, -, hd1, hnn⟩
  · rw [hd1] at hd; simp [sentinelDepth] at hd
  · rw [hd1] at hd
    simp only [ExtNum.fin.injEq] at hd
    subst hd
    rw [hray] at hnn
    refine ⟨_, hnn, ?_⟩
    simp only [hitNormal]
    have hne : (centralDifference g (pose.translation + ray * l1)).x ≠ 0 ∨
        (centralDifference g (pose.translation + ray * l1)).y ≠ 0 ∨
        (centralDifference g (pose.translation + ray * l1)).z ≠ 0 := by
      simp only [centralDifference]
      rcases hgrad with h | h | h
      · exact Or.inl (div_ne_zero (sub_ne_zero.mpr h) two_ne_zero)
      · exact Or.inr (Or.inl (div_ne_zero (sub_ne_zero.mpr h) two_ne_zero))
      · exact Or.inr (Or.inr (div_ne_zero (sub_ne_zero.mpr h) two_ne_zero))
    have hpos := squaredNorm_pos_of_ne _ hne
    have he := transpose_mulVec_squaredNorm pose.orientation hortho
      (centralDifference g (pose.translation + ray * l1))
    apply normalize_squaredNorm
    · rw [he]; exact hpos
    · rw [he]; exact hsqrt

/-- C7 (amended) at a concrete input: pixel 0 of the 2x1 image of the ramp,
where the two samples along z are -3/2 and 1/2. -/
theorem raytraceImage_normal_unit_witness :
    ∃ D N, raytraceImage Rat.sqrt 1 rampGrid (identityPose ⟨0, 0, 0⟩) twoPixelIntrinsic 2 1 1
        (1 / 10) staleDepth staleNormal = Outcome.done (D, N) ∧
      ∃ n : Vec3 ℚ, N 0 0 = finNormal n ∧ n.squaredNorm = 1 := by
  have hg : centralDifference rampGrid
      ((identityPose ⟨0, 0, 0⟩).translation + (⟨0, 0, 1⟩ : Vec3 ℚ) * (1 : ℚ)) = ⟨0, 0, -1⟩ := by
    norm_num [centralDifference, rampGrid, identityPose, Vec3.add_def, Vec3.scale_def]
  refine ⟨_, _, rampGrid_image, ?_⟩
  exact raytraceImage_normal_unit Rat.sqrt 1 rampGrid (identityPose ⟨0, 0, 0⟩)
    twoPixelIntrinsic 2 1 1 (1 / 10) staleDepth _ staleNormal _ 0 0 ⟨0, 0, 1⟩ 1
    (by norm_num) (by norm_num) one_isOrthonormal
    (by rw [identityPose_transform]; norm_num [twoPixelIntrinsic])
    rampGrid_image rfl
    (by
      right; right
      norm_num [rampGrid, identityPose, Vec3.add_def, Vec3.scale_def])
    (by rw [hg]; norm_num [Vec3.squaredNorm, rat_sqrt_one])

/-- C8: for an orthonormal orientation `R` with `transformVector v = R*v`,
and a pixel whose depth is `l` (the search returned `true` with length `l`),
the camera-space z coordinate `(Rᵀ * ((origin + ray*l) - origin)).z` of the
hit point is `l`, whereas its squared Euclidean distance from the camera is
`l² * (x² + y² + 1)` for the camera-space ray `(x, y, 1)`. -/
theorem depth_is_camera_space_z (sqrt : α → α) (fuel : Nat) (g : VoxelGrid α)
    (pose : Pose α) (K : Mat3 α) (W H : Nat) (ssv eps : α)
    (D0 D : Image (ExtNum α)) (N0 N : Image (Vec3 (ExtNum α))) (u v : Nat) (cray : Vec3 α)
    (l : α) (hu : u < W) (hv : v < H)
    (hortho : pose.orientation.IsOrthonormal)
    (htv : ∀ x, pose.transformVector x = pose.orientation.mulVec x)
    (hcray : cray = ⟨((u : α) - (K.m02 * (W : α) - 1 / 2)) / (K.m00 * (W : α)),
      ((v : α) - (K.m12 * (H : α) - 1 / 2)) / (K.m11 * (H : α)), 1⟩)
    (hrun : raytraceImage sqrt fuel g pose K W H ssv eps D0 N0 = Outcome.done (D, N))
    (hd : D v u = ExtNum.fin l) :
    (∃ L0, g.projectRayToVoxelPoint pose.translation (pose.transformVector cray) = some L0 ∧
      searchRay fuel g pose.translation (pose.transformVector cray) L0 ssv eps = some (true, l)) ∧
    (pose.orientation.transpose.mulVec
      ((pose.translation + pose.transformVector cray * l) - pose.translation)).z = l ∧
    ((pose.translation + pose.transformVector cray * l) - pose.translation).squaredNorm =
      l * l * (cray.x * cray.x + cray.y * cray.y + 1) := by
  have hpx := raytraceImage_pixel sqrt fuel g pose K W H ssv eps D0 D N0 N hrun u v hu hv
  simp only [pixelBody, ← hcray] at hpx
  have hdiff : (pose.translation + pose.transformVector cray * l) - pose.translation =
      pose.transformVector cray * l := by
    simp only [Vec3.add_def, Vec3.sub_def, Vec3.scale_def, add_sub_cancel_left]
  have hscale : ∀ (R : Mat3 α) (w : Vec3 α), R.mulVec (w * l) = R.mulVec w * l := by
    intro R w
    simp only [Mat3.mulVec, Vec3.scale_def, Vec3.mk.injEq]
    refine ⟨?_, ?_, ?_⟩ <;> ring
  have hz : cray.z = 1 := by rw [hcray]
  refine ⟨?_, ?_, ?_⟩
  · rcases tracePixel_done _ _ _ _ _ _ _ _ _ _ hpx with ⟨-, hd1, -⟩ | ⟨L1, l1, hp, hs, -, hd1, -⟩
    · rw [hd1] at hd; simp [sentinelDepth] at hd
    · rw [hd1] at hd
      simp only [ExtNum.fin.injEq] at hd
      subst hd
      exact ⟨L1, hp, hs⟩
  · rw [hdiff, htv, hscale, transpose_mulVec_mulVec _ hortho, Vec3.scale_def, hz, one_mul]
  · rw [hdiff, htv]
    have := mulVec_squaredNorm pose.orientation hortho cray
    simp only [Vec3.squaredNorm, Vec3.scale_def, hz] at this ⊢
    linear_combination (l * l) * this

/-- C8 at a concrete input: pixel 0 of the 2x1 image of the ramp, depth 1. -/
theorem depth_is_camera_space_z_witness :
    ((identityPose ⟨0, 0, 0⟩).orientation.transpose.mulVec
      (((identityPose ⟨0, 0, 0⟩).translation +
        (identityPose ⟨0, 0, 0⟩).transformVector ⟨0, 0, 1⟩ * (1 : ℚ)) -
          (identityPose ⟨0, 0, 0⟩).translation)).z = 1 :=
  (depth_is_camera_space_z Rat.sqrt 1 rampGrid (identityPose ⟨0, 0, 0⟩)
    twoPixelIntrinsic 2 1 1 (1 / 10) staleDepth _ staleNormal _ 0 0 ⟨0, 0, 1⟩ 1
    (by norm_num) (by norm_num) one_isOrthonormal (fun _ => rfl)
    (by norm_num [twoPixelIntrinsic]) rampGrid_image rfl).2.1

/-- C9: with `fx = K(0,0)*width`, `fy = K(1,1)*height`,
`cx = K(0,2)*width - 1/2`, `cy = K(1,2)*height - 1/2`, the value stored for
pixel `(u, v)` is the one obtained by tracing from the pose translation the
camera-space direction `((u - cx)/fx, (v - cy)/fy, 1)`; when `fx` and `fy`
are not zero this direction meets the image plane `z = 1` at the pixel:
`fx*x + cx = u` and `fy*y + cy = v`. -/
theorem raytraceImage_camera_ray (K : Mat3 α) (W H : Nat) (u v : Nat) (fx fy cx cy : α)
    (hfx : fx = K.m00 * (W : α)) (hfy : fy = K.m11 * (H : α))
    (hcx : cx = K.m02 * (W : α) - 1 / 2) (hcy : cy = K.m12 * (H : α) - 1 / 2)
    (hfx0 : K.m00 * (W : α) ≠ 0) (hfy0 : K.m11 * (H : α) ≠ 0) :
    (∀ (sqrt : α → α) (fuel : Nat) (g : VoxelGrid α) (pose : Pose α) (ssv eps : α)
        (D0 D : Image (ExtNum α)) (N0 N : Image (Vec3 (ExtNum α))),
        u < W → v < H →
        raytraceImage sqrt fuel g pose K W H ssv eps D0 N0 = Outcome.done (D, N) →
        tracePixel sqrt fuel g pose ssv eps pose.translation
          ⟨((u : α) - cx) / fx, ((v : α) - cy) / fy, 1⟩ = Outcome.done (D v u, N v u)) ∧
    fx * (((u : α) - cx) / fx) + cx = (u : α) ∧
    fy * (((v : α) - cy) / fy) + cy = (v : α) := by
  subst hfx hfy hcx hcy
  refine ⟨?_, ?_, ?_⟩
  · intro sqrt fuel g pose ssv eps D0 D N0 N hu hv hrun
    have hpx := raytraceImage_pixel sqrt fuel g pose K W H ssv eps D0 D N0 N hrun u v hu hv
    simpa only [pixelBody] using hpx
  · field_simp
    ring
  · field_simp
    ring

/-- C9 at a concrete input: pixel 1 of the 2x1 image of the ramp, whose
camera-space direction is `(1, 0, 1)`. -/
theorem raytraceImage_camera_ray_witness :
    (1 : ℚ) * ((((1 : Nat) : ℚ) - 0) / 1) + 0 = ((1 : Nat) : ℚ) ∧
    tracePixel Rat.sqrt 1 rampGrid (identityPose ⟨0, 0, 0⟩) 1 (1 / 10)
      (identityPose ⟨0, 0, 0⟩).translation
      ⟨(((1 : Nat) : ℚ) - 0) / 1, (((0 : Nat) : ℚ) - 0) / 1, 1⟩ =
        Outcome.done (sentinelDepth, sentinelNormal) := by
  obtain ⟨h1, h2, -⟩ := raytraceImage_camera_ray twoPixelIntrinsic 2 1 1 0 (1 : ℚ) 1 0 0
    (by norm_num [twoPixelIntrinsic]) (by norm_num [twoPixelIntrinsic])
    (by norm_num [twoPixelIntrinsic]) (by norm_num [twoPixelIntrinsic])
    (by norm_num [twoPixelIntrinsic]) (by norm_num [twoPixelIntrinsic])
  exact ⟨h2, h1 Rat.sqrt 1 rampGrid (identityPose ⟨0, 0, 0⟩) 1 (1 / 10) staleDepth _
    staleNormal _ (by norm_num) (by norm_num) rampGrid_image⟩

/-- C10: with a positive march step, every length returned by `searchRay`
with `true` is strictly greater than the entry length; when moreover the
entry lengths given by `projectRayToVoxelPoint` are `≥ 0`, `raytraceImage`
never fails the assertion `depth != 0`, and every depth it writes is `-inf`
or strictly positive. -/
theorem searchRay_length_positive (g : VoxelGrid α) (ssv : α)
    (hs : 0 < g.voxelSize * ssv)
    (hentry : ∀ (origin ray : Vec3 α) (L0 : α),
      g.projectRayToVoxelPoint origin ray = some L0 → 0 ≤ L0) :
    (∀ (fuel : Nat) (origin ray : Vec3 α) (L0 eps l : α),
        searchRay fuel g origin ray L0 ssv eps = some (true, l) → L0 < l) ∧
    (∀ (sqrt : α → α) (fuel : Nat) (pose : Pose α) (K : Mat3 α) (W H : Nat) (eps : α)
        (D0 : Image (ExtNum α)) (N0 : Image (Vec3 (ExtNum α))),
        raytraceImage sqrt fuel g pose K W H ssv eps D0 N0 ≠ Outcome.abort ∧
        ∀ (D : Image (ExtNum α)) (N : Image (Vec3 (ExtNum α))) (u v : Nat),
          raytraceImage sqrt fuel g pose K W H ssv eps D0 N0 = Outcome.done (D, N) →
          u < W → v < H → D v u = ExtNum.negInf ∨ ∃ l, D v u = ExtNum.fin l ∧ 0 < l) := by
  have hgt : ∀ (fuel : Nat) (origin ray : Vec3 α) (L0 eps l : α),
      searchRay fuel g origin ray L0 ssv eps = some (true, l) → L0 < l := by
    intro fuel origin ray L0 eps l h
    obtain ⟨k, hk, -, -⟩ := searchRay_true_bounds fuel g origin ray L0 ssv eps l hs h
    have : 0 ≤ (k : α) * (g.voxelSize * ssv) :=
      mul_nonneg (Nat.cast_nonneg k) (le_of_lt hs)
    linarith
  refine ⟨hgt, ?_⟩
  intro sqrt fuel pose K W H eps D0 N0
  constructor
  · intro habort
    obtain ⟨u, v, -, -, hpx⟩ := raytraceImage_abort sqrt fuel g pose K W H ssv eps D0 N0 habort
    simp only [pixelBody] at hpx
    obtain ⟨L0, hp, hsr⟩ := tracePixel_abort _ _ _ _ _ _ _ _ hpx
    have h1 := hgt _ _ _ _ _ _ hsr
    have h2 := hentry _ _ _ hp
    linarith
  · intro D N u v hrun hu hv
    have hpx := raytraceImage_pixel sqrt fuel g pose K W H ssv eps D0 D N0 N hrun u v hu hv
    simp only [pixelBody] at hpx
    rcases tracePixel_done _ _ _ _ _ _ _ _ _ _ hpx with ⟨-, hd1, -⟩ | ⟨L1, l1, hp, hsr, -, hd1, -⟩
    · exact Or.inl hd1
    · have h1 := hgt _ _ _ _ _ _ hsr
      have h2 := hentry _ _ _ hp
      exact Or.inr ⟨l1, hd1, by linarith⟩

/-- C10 at a concrete input: the ramp, whose entry lengths are 0 and whose
march step is 1; the depth written for pixel 0 of its 2x1 image is 1. -/
theorem searchRay_length_positive_witness :
    (0 : ℚ) < 1 ∧
    raytraceImage Rat.sqrt 1 rampGrid (identityPose ⟨0, 0, 0⟩) twoPixelIntrinsic 2 1 1
      (1 / 10) staleDepth staleNormal ≠ Outcome.abort := by
  obtain ⟨h1, h2⟩ := searchRay_length_positive rampGrid 1
    (by norm_num [rampGrid_voxelSize])
    (by
      intro origin ray L0 h
      rw [rampGrid_project] at h
      simp only [Option.some.injEq] at h
      rw [← h])
  exact ⟨h1 1 ⟨0, 0, 0⟩ ⟨0, 0, 1⟩ 0 (1 / 10) 1 rampGrid_search_axis,
    (h2 Rat.sqrt 1 (identityPose ⟨0, 0, 0⟩) twoPixelIntrinsic 2 1 (1 / 10)
      staleDepth staleNormal).1⟩

/-- C11: in the first loop of `searchRay`, entered at `L0` with a positive
step `s = voxelSize * stepSizeVoxel`, the `k`-th visited length is
`L0 + k*s` for every `k ≥ 1` reached; consecutive visited lengths differ by
exactly `s` and increase strictly; the length the loop leaves is the last one
visited. -/
theorem march_visits_arithmetic_progression (g : VoxelGrid α) (origin ray : Vec3 α)
    (L0 ssv : α) (fuel : Nat) (visited : List α)
    (hs : 0 < g.voxelSize * ssv)
    (hv : visited = marchVisited g origin ray (g.voxelSize * ssv) fuel L0
      (sample g origin ray L0)) :
    (∀ k : Nat, 1 ≤ k → k ≤ visited.length →
      visited[k - 1]? = some (L0 + (k : α) * (g.voxelSize * ssv))) ∧
    (∀ (k : Nat) (a b : α), visited[k]? = some a → visited[k + 1]? = some b →
      a < b ∧ b - a = g.voxelSize * ssv) ∧
    (∀ l : α, march g origin ray (g.voxelSize * ssv) fuel L0 (sample g origin ray L0) =
        some (MarchExit.outside l) → visited.getLast? = some l) ∧
    (∀ p l : α, march g origin ray (g.voxelSize * ssv) fuel L0 (sample g origin ray L0) =
        some (MarchExit.crossing p l) → visited.getLast? = some l) := by
  subst hv
  refine ⟨?_, ?_, ?_, ?_⟩
  · intro k hk1 hk2
    obtain ⟨i, rfl⟩ : ∃ i, k = i + 1 := ⟨k - 1, by omega⟩
    rw [Nat.add_sub_cancel]
    exact marchVisited_getElem g origin ray _ fuel L0 _ i (by omega)
  · intro k a b ha hb
    have h1 := marchVisited_getElem g origin ray _ fuel L0 _ k (lt_length_of_getElem _ _ _ ha)
    have h2 := marchVisited_getElem g origin ray _ fuel L0 _ (k + 1) (lt_length_of_getElem _ _ _ hb)
    rw [ha] at h1
    rw [hb] at h2
    simp only [Option.some.injEq] at h1 h2
    subst h1 h2
    push_cast
    constructor
    · linarith
    · ring
  · intro l h
    exact march_last_visited g origin ray _ fuel L0 _ _ h
  · intro p l h
    exact march_last_visited g origin ray _ fuel L0 _ _ h

/-- C11 at a concrete input: the ramp seen from `(0, 0, 1)` with step 1, where
the march visits the lengths 1, 2, 3. -/
theorem march_visits_arithmetic_progression_witness :
    (marchVisited rampGrid ⟨0, 0, 1⟩ ⟨0, 0, 1⟩ (rampGrid.voxelSize * 1) 3 0
        (sample rampGrid ⟨0, 0, 1⟩ ⟨0, 0, 1⟩ 0))[2 - 1]? =
      some (0 + ((2 : Nat) : ℚ) * (rampGrid.voxelSize * 1)) :=
  (march_visits_arithmetic_progression rampGrid ⟨0, 0, 1⟩ ⟨0, 0, 1⟩ 0 1 3 _
    (by norm_num [rampGrid_voxelSize]) rfl).1 2 (by norm_num)
    (by rw [rampGrid_visited]; simp)

/-- C12: when `raytraceImage` returns the buffers `(D, N)` from some initial
buffers, it returns the same `(D, N)` from every initial content of the
buffers, in particular from `(D, N)` themselves: a second call leaves them
unchanged. Outside the resolution the buffers hold the sentinel. -/
theorem raytraceImage_idempotent (sqrt : α → α) (fuel : Nat) (g : VoxelGrid α) (pose : Pose α)
    (K : Mat3 α) (W H : Nat) (ssv eps : α)
    (D0 D : Image (ExtNum α)) (N0 N : Image (Vec3 (ExtNum α)))
    (hrun : raytraceImage sqrt fuel g pose K W H ssv eps D0 N0 = Outcome.done (D, N)) :
    (∀ (D1 : Image (ExtNum α)) (N1 : Image (Vec3 (ExtNum α))),
      raytraceImage sqrt fuel g pose K W H ssv eps D1 N1 = Outcome.done (D, N)) ∧
    raytraceImage sqrt fuel g pose K W H ssv eps D N = Outcome.done (D, N) ∧
    (∀ v u : Nat, ¬ (v < H ∧ u < W) →
      D v u = ExtNum.negInf ∧ N v u = ⟨ExtNum.negInf, ExtNum.negInf, ExtNum.negInf⟩) := by
  refine ⟨fun D1 N1 => hrun, hrun, ?_⟩
  intro v u hvu
  unfold raytraceImage at hrun
  exact (image_done
    (fun v u => pixelBody sqrt fuel g pose ssv eps (K.m00 * (W : α)) (K.m11 * (H : α))
      (K.m02 * (W : α) - 1 / 2) (K.m12 * (H : α) - 1 / 2) pose.translation u v)
    W H _ (D, N) hrun).2 v u hvu

/-- C12 at a concrete input: the 2x1 image of the ramp, rendered again on its
own output. -/
theorem raytraceImage_idempotent_witness :
    ∃ D N, raytraceImage Rat.sqrt 1 rampGrid (identityPose ⟨0, 0, 0⟩) twoPixelIntrinsic 2 1 1
        (1 / 10) staleDepth staleNormal = Outcome.done (D, N) ∧
      raytraceImage Rat.sqrt 1 rampGrid (identityPose ⟨0, 0, 0⟩) twoPixelIntrinsic 2 1 1
        (1 / 10) D N = Outcome.done (D, N) :=
  ⟨_, _, rampGrid_image,
    (raytraceImage_idempotent Rat.sqrt 1 rampGrid (identityPose ⟨0, 0, 0⟩) twoPixelIntrinsic
      2 1 1 (1 / 10) staleDepth _ staleNormal _ rampGrid_image).2.1⟩

/-- C13: for a tolerance `epsilon ≥ 0` and a positive step, the brackets of
the bisection started on the bracket of the march (the bracket at the start
of every iteration and the one at exit) all satisfy
`previousLength < length`, `field(previousLength) > 0` and
`field(length) < 0`, and each lies inside the bracket before it; the bracket
the loop returns is the last of them. -/
theorem bisection_bracket_invariant (g : VoxelGrid α) (origin ray : Vec3 α)
    (L0 ssv eps : α) (fuelMarch fuel : Nat) (p0 l0 : α)
    (hs : 0 < g.voxelSize * ssv) (heps : 0 ≤ eps)
    (hm : march g origin ray (g.voxelSize * ssv) fuelMarch L0 (sample g origin ray L0) =
      some (MarchExit.crossing p0 l0)) :
    (∀ (j : Nat) (b : α × α), (bisectBrackets g origin ray eps fuel p0 l0)[j]? = some b →
      b.1 < b.2 ∧ sample g origin ray b.1 > 0 ∧ sample g origin ray b.2 < 0) ∧
    (∀ (j : Nat) (a b : α × α), (bisectBrackets g origin ray eps fuel p0 l0)[j]? = some a →
      (bisectBrackets g origin ray eps fuel p0 l0)[j + 1]? = some b →
      a.1 ≤ b.1 ∧ b.2 ≤ a.2) ∧
    (∀ r : α × α, bisect g origin ray eps fuel p0 l0 = some r →
      (bisectBrackets g origin ray eps fuel p0 l0).getLast? = some r ∧
      r.1 < r.2 ∧ sample g origin ray r.1 > 0 ∧ sample g origin ray r.2 < 0 ∧
      p0 ≤ r.1 ∧ r.2 ≤ l0) := by
  obtain ⟨k, hp, hl, hsp, hsl, -, -⟩ :=
    march_crossing_sound g origin ray _ fuelMarch L0 _ p0 l0 rfl hm
  have hlt : p0 < l0 := by rw [hp, hl]; push_cast; linarith
  obtain ⟨n1, n2⟩ := bisectBrackets_nested g origin ray eps fuel p0 l0 hlt
  refine ⟨fun j b hb => ⟨n1 j b hb, bisectBrackets_signs g origin ray eps heps fuel p0 l0 hsp hsl j b hb⟩,
    n2, ?_⟩
  intro r hr
  obtain ⟨p1, l1⟩ := r
  obtain ⟨a, b, c⟩ := bisect_bracket g origin ray eps fuel p0 l0 p1 l1 hlt hr
  obtain ⟨d, e⟩ := bisect_signs g origin ray eps heps fuel p0 l0 p1 l1 hsp hsl hr
  exact ⟨bisect_last_bracket g origin ray eps fuel p0 l0 _ hr, b, d, e, a, c⟩

/-- C13 at a concrete input: the sphere scene, whose bisection goes from the
bracket `[33/10, 21/5]` to `[159/40, 129/32]`. -/
theorem bisection_bracket_invariant_witness :
    (159 / 40 : ℚ) < 129 / 32 ∧
    sample sphereGrid ⟨0, 0, -3⟩ ⟨0, 0, 1⟩ (159 / 40) > 0 ∧
    sample sphereGrid ⟨0, 0, -3⟩ ⟨0, 0, 1⟩ (129 / 32) < 0 ∧
    (33 / 10 : ℚ) ≤ 159 / 40 ∧ (129 / 32 : ℚ) ≤ 21 / 5 :=
  ((bisection_bracket_invariant sphereGrid ⟨0, 0, -3⟩ ⟨0, 0, 1⟩ (3 / 2) 3 (1 / 100) 3 5
    (33 / 10) (21 / 5) (by norm_num [sphereGrid_voxelSize]) (by norm_num)
    sphereGrid_march).2.2 (159 / 40, 129 / 32) sphereGrid_bisect).2

/-- C14: the bisection, started on a bracket of width `s > 0` (the width of
every bracket handed over by the march), for every field and every tolerance:
the bracket at the start of iteration `j + 1`, after `j` iterations that did
not stop, has width `s / 2^j`; for every `j ≥ 1` with `s / 2^j < 1/100` the
loop is left within `j` iterations; and such a `j` exists (the field of
numbers being Archimedean, as the reals are). -/
theorem bisection_terminates_by_halving [Archimedean α] (g : VoxelGrid α) (origin ray : Vec3 α)
    (eps s p l : α) (hs : 0 < s) (hw : l - p = s) :
    (∀ (fuel j : Nat) (b : α × α),
      j + 1 < (bisectBrackets g origin ray eps fuel p l).length →
      (bisectBrackets g origin ray eps fuel p l)[j]? = some b → b.2 - b.1 = s / 2 ^ j) ∧
    (∀ j : Nat, 1 ≤ j → s / 2 ^ j < 1 / 100 →
      ∃ r, ∀ more : Nat, bisect g origin ray eps (j + more) p l = some r) ∧
    (∃ j : Nat, 1 ≤ j ∧ s / 2 ^ j < 1 / 100) ∧
    (∀ (fuel : Nat) (L pv p0 l0 : α),
      march g origin ray s fuel L pv = some (MarchExit.crossing p0 l0) → l0 - p0 = s) := by
  subst hw
  have hpl : p < l := by linarith
  refine ⟨?_, ?_, ?_, ?_⟩
  · intro fuel j b hj hb
    exact bisectBrackets_width g origin ray eps fuel p l j b hj hb
  · intro j hj hlt
    obtain ⟨i, rfl⟩ : ∃ i, j = i + 1 := ⟨j - 1, by omega⟩
    obtain ⟨r, hr⟩ := bisect_terminates g origin ray eps i p l hpl hlt
    exact ⟨r, fun more => bisect_mono g origin ray eps (i + 1) p l r hr more⟩
  · obtain ⟨j, hj⟩ := exists_halving (l - p)
    exact ⟨j + 1, by omega, hj⟩
  · intro fuel
    induction fuel with
    | zero => intro L pv p0 l0 h; simp [march] at h
    | succ n ih =>
      intro L pv p0 l0 h
      rw [march_succ] at h
      split_ifs at h with h1 h2
      · simp at h
      · simp only [Option.some.injEq, MarchExit.crossing.injEq] at h
        obtain ⟨rfl, rfl⟩ := h
        ring
      · exact ih _ _ _ _ h

/-- C14 at a concrete input: the bracket `[33/10, 21/5]` of the sphere scene,
of width 9/10, where `(9/10) / 2^7 < 1/100`. -/
theorem bisection_terminates_by_halving_witness :
    ∃ r, bisect sphereGrid ⟨0, 0, -3⟩ ⟨0, 0, 1⟩ (1 / 100) 7 (33 / 10) (21 / 5) = some r := by
  obtain ⟨r, hr⟩ := (bisection_terminates_by_halving sphereGrid ⟨0, 0, -3⟩ ⟨0, 0, 1⟩
    (1 / 100) (9 / 10) (33 / 10) (21 / 5) (by norm_num) (by norm_num)).2.1 7
    (by norm_num) (by norm_num)
  exact ⟨r, hr 0⟩

/-- C15: with a positive step `s`, `searchRay` returns `true` (for some fuel)
if and only if there is a `k ≥ 1` such that the points at `L0 + j*s` are
inside the grid for `1 ≤ j ≤ k`, `field(L0 + (k-1)*s) > 0` and
`field(L0 + k*s) < 0`. When it returns `true` with length `l`, the march has
stopped at such a `k` with no positive-to-negative pair before it, on the
bracket `[L0 + (k-1)*s, L0 + k*s]`, and `L0 + (k-1)*s < l ≤ L0 + k*s`. -/
theorem searchRay_true_iff_first_crossing [Archimedean α] (g : VoxelGrid α)
    (origin ray : Vec3 α) (L0 ssv eps : α) (hs : 0 < g.voxelSize * ssv) :
    ((∃ (fuel : Nat) (l : α), searchRay fuel g origin ray L0 ssv eps = some (true, l)) ↔
      ∃ k : Nat, 1 ≤ k ∧
        (∀ j : Nat, 1 ≤ j → j ≤ k →
          inside g origin ray (L0 + (j : α) * (g.voxelSize * ssv)) = true) ∧
        sample g origin ray (L0 + ((k : α) - 1) * (g.voxelSize * ssv)) > 0 ∧
        sample g origin ray (L0 + (k : α) * (g.voxelSize * ssv)) < 0) ∧
    (∀ (fuel : Nat) (l : α), searchRay fuel g origin ray L0 ssv eps = some (true, l) →
      ∃ k : Nat, 1 ≤ k ∧
        (∀ j : Nat, 1 ≤ j → j ≤ k →
          inside g origin ray (L0 + (j : α) * (g.voxelSize * ssv)) = true) ∧
        sample g origin ray (L0 + ((k : α) - 1) * (g.voxelSize * ssv)) > 0 ∧
        sample g origin ray (L0 + (k : α) * (g.voxelSize * ssv)) < 0 ∧
        (∀ i : Nat, 1 ≤ i → i < k →
          ¬ (sample g origin ray (L0 + ((i : α) - 1) * (g.voxelSize * ssv)) > 0 ∧
              sample g origin ray (L0 + (i : α) * (g.voxelSize * ssv)) < 0)) ∧
        march g origin ray (g.voxelSize * ssv) fuel L0 (sample g origin ray L0) =
          some (MarchExit.crossing (L0 + ((k : α) - 1) * (g.voxelSize * ssv))
            (L0 + (k : α) * (g.voxelSize * ssv))) ∧
        L0 + ((k : α) - 1) * (g.voxelSize * ssv) < l ∧
        l ≤ L0 + (k : α) * (g.voxelSize * ssv)) := by
  have hsound : ∀ (fuel : Nat) (l : α),
      searchRay fuel g origin ray L0 ssv eps = some (true, l) →
      ∃ k : Nat, 1 ≤ k ∧
        (∀ j : Nat, 1 ≤ j → j ≤ k →
          inside g origin ray (L0 + (j : α) * (g.voxelSize * ssv)) = true) ∧
        sample g origin ray (L0 + ((k : α) - 1) * (g.voxelSize * ssv)) > 0 ∧
        sample g origin ray (L0 + (k : α) * (g.voxelSize * ssv)) < 0 ∧
        (∀ i : Nat, 1 ≤ i → i < k →
          ¬ (sample g origin ray (L0 + ((i : α) - 1) * (g.voxelSize * ssv)) > 0 ∧
              sample g origin ray (L0 + (i : α) * (g.voxelSize * ssv)) < 0)) ∧
        march g origin ray (g.voxelSize * ssv) fuel L0 (sample g origin ray L0) =
          some (MarchExit.crossing (L0 + ((k : α) - 1) * (g.voxelSize * ssv))
            (L0 + (k : α) * (g.voxelSize * ssv))) ∧
        L0 + ((k : α) - 1) * (g.voxelSize * ssv) < l ∧
        l ≤ L0 + (k : α) * (g.voxelSize * ssv) := by
    intro fuel l h
    rw [searchRay_true_iff] at h
    obtain ⟨p0, l0, p1, hm, hb⟩ := h
    obtain ⟨k, hp, hl, hsp, hsl, hin, hno⟩ :=
      march_crossing_sound g origin ray _ fuel L0 _ p0 l0 rfl hm
    have hlt : p0 < l0 := by rw [hp, hl]; push_cast; linarith
    obtain ⟨a, b, c⟩ := bisect_bracket g origin ray eps fuel p0 l0 p1 l hlt hb
    refine ⟨k + 1, by omega, ?_, ?_, ?_, ?_, ?_, ?_, ?_⟩
    · intro j hj1 hj2
      obtain ⟨i, rfl⟩ : ∃ i, j = i + 1 := ⟨j - 1, by omega⟩
      exact hin i (by omega)
    · rw [cast_pred, ← hp]; exact hsp
    · rw [← hl]; exact hsl
    · intro i hi1 hi2
      obtain ⟨i0, rfl⟩ : ∃ i0, i = i0 + 1 := ⟨i - 1, by omega⟩
      rw [cast_pred]
      exact hno i0 (by omega)
    · rw [cast_pred, ← hp, ← hl]; exact hm
    · rw [cast_pred, ← hp]; linarith
    · rw [← hl]; exact c
  refine ⟨⟨?_, ?_⟩, hsound⟩
  · rintro ⟨fuel, l, h⟩
    obtain ⟨k, hk, hin, hp, hl, -⟩ := hsound fuel l h
    exact ⟨k, hk, hin, hp, hl⟩
  · intro hex
    classical
    have hex2 : ∃ k : Nat,
        (∀ j : Nat, j ≤ k →
          inside g origin ray (L0 + ((j + 1 : Nat) : α) * (g.voxelSize * ssv)) = true) ∧
        sample g origin ray (L0 + (k : α) * (g.voxelSize * ssv)) > 0 ∧
        sample g origin ray (L0 + ((k + 1 : Nat) : α) * (g.voxelSize * ssv)) < 0 := by
      obtain ⟨k, hk, hin, hp, hl⟩ := hex
      obtain ⟨i, rfl⟩ : ∃ i, k = i + 1 := ⟨k - 1, by omega⟩
      rw [cast_pred] at hp
      exact ⟨i, fun j hj => hin (j + 1) (by omega) (by omega), hp, hl⟩
    obtain ⟨hin, hp, hl⟩ := Nat.find_spec hex2
    have hmin : ∀ j : Nat, j < Nat.find hex2 →
        ¬ (sample g origin ray (L0 + (j : α) * (g.voxelSize * ssv)) > 0 ∧
            sample g origin ray (L0 + ((j + 1 : Nat) : α) * (g.voxelSize * ssv)) < 0) := by
      intro j hj hcon
      exact Nat.find_min hex2 hj
        ⟨fun i hi => hin i (by omega), hcon.1, hcon.2⟩
    obtain ⟨fuel, l, hret, -, -⟩ :=
      searchRay_returns_true g origin ray L0 ssv eps hs (Nat.find hex2) hin hmin hp hl
    exact ⟨fuel, l, by simpa using hret 0⟩

/-- C15 at a concrete input: the ramp seen from the origin, where the first
pair of samples is 1/2, -1/2 (`k = 1`). -/
theorem searchRay_true_iff_first_crossing_witness :
    ∃ (fuel : Nat) (l : ℚ),
      searchRay fuel rampGrid ⟨0, 0, 0⟩ ⟨0, 0, 1⟩ 0 1 (1 / 10) = some (true, l) :=
  (searchRay_true_iff_first_crossing rampGrid ⟨0, 0, 0⟩ ⟨0, 0, 1⟩ 0 1 (1 / 10)
    (by norm_num [rampGrid_voxelSize])).1.mpr
    ⟨1, le_refl 1,
      (by
        intro j hj1 hj2
        have : j = 1 := by omega
        subst this
        norm_num [rampGrid_inside, rampGrid_voxelSize]),
      (by norm_num [rampGrid_sample, rampGrid_voxelSize]),
      (by norm_num [rampGrid_sample, rampGrid_voxelSize])⟩

/-- C16: an iteration of the bisection whose midpoint value lies in
`[-epsilon, epsilon]` leaves the loop with the bracket unchanged, so the
length returned is the upper end of the current bracket, which lies strictly
above the midpoint. Every exit is on the width test or on the value test at
the midpoint of the returned bracket. When the first midpoint passes the
value test, `searchRay` returns `true` with the coarse length `L0 + k*s` of
the march, where the field is negative. -/
theorem bisection_value_exit_returns_upper_end (g : VoxelGrid α) (origin ray : Vec3 α)
    (L0 ssv eps : α) :
    (∀ (fuel : Nat) (p l : α),
      ¬ sample g origin ray ((p + l) / 2) > eps →
      ¬ sample g origin ray ((p + l) / 2) < -eps →
      bisect g origin ray eps (fuel + 1) p l = some (p, l)) ∧
    (∀ (fuel : Nat) (p l p1 l1 : α), p < l →
      bisect g origin ray eps fuel p l = some (p1, l1) →
      (p1 + l1) / 2 < l1 ∧
      (|l1 - p1| < 1 / 100 ∨
        (¬ sample g origin ray ((p1 + l1) / 2) > eps ∧
          ¬ sample g origin ray ((p1 + l1) / 2) < -eps))) ∧
    (∀ (fuel : Nat) (p0 l0 : α),
      march g origin ray (g.voxelSize * ssv) fuel L0 (sample g origin ray L0) =
        some (MarchExit.crossing p0 l0) →
      ¬ sample g origin ray ((p0 + l0) / 2) > eps →
      ¬ sample g origin ray ((p0 + l0) / 2) < -eps →
      searchRay fuel g origin ray L0 ssv eps = some (true, l0) ∧
      sample g origin ray l0 < 0 ∧
      (∃ k : Nat, 1 ≤ k ∧ l0 = L0 + (k : α) * (g.voxelSize * ssv)) ∧
      (g.voxelSize * ssv ≠ 0 → l0 ≠ (p0 + l0) / 2)) := by
  have hstep : ∀ (fuel : Nat) (p l : α),
      ¬ sample g origin ray ((p + l) / 2) > eps →
      ¬ sample g origin ray ((p + l) / 2) < -eps →
      bisect g origin ray eps (fuel + 1) p l = some (p, l) := by
    intro fuel p l h1 h2
    rw [bisect_succ, if_neg h1, if_neg h2]
  refine ⟨hstep, ?_, ?_⟩
  · intro fuel p l p1 l1 hpl h
    obtain ⟨-, b, -⟩ := bisect_bracket g origin ray eps fuel p l p1 l1 hpl h
    exact ⟨by linarith, bisect_exit_cases g origin ray eps fuel p l p1 l1 h⟩
  · intro fuel p0 l0 hm h1 h2
    obtain ⟨k, hp, hl, -, hsl, -, -⟩ :=
      march_crossing_sound g origin ray _ fuel L0 _ p0 l0 rfl hm
    refine ⟨?_, hsl, ⟨k + 1, by omega, hl⟩, ?_⟩
    · rw [searchRay_true_iff]
      refine ⟨p0, l0, p0, hm, ?_⟩
      cases fuel with
      | zero => simp [march] at hm
      | succ n => exact hstep n p0 l0 h1 h2
    · intro hne heq
      apply hne
      have : l0 - p0 = g.voxelSize * ssv := by rw [hp, hl]; push_cast; ring
      rw [← this]
      linarith

/-- C16 at a concrete input: the ramp seen from the origin, where the first
midpoint 1/2 has value 0 and the length returned is 1, with value -1/2. -/
theorem bisection_value_exit_returns_upper_end_witness :
    searchRay 1 rampGrid ⟨0, 0, 0⟩ ⟨0, 0, 1⟩ 0 1 (1 / 10) = some (true, 1) ∧
    sample rampGrid ⟨0, 0, 0⟩ ⟨0, 0, 1⟩ 1 < 0 := by
  obtain ⟨h1, h2, -⟩ := (bisection_value_exit_returns_upper_end rampGrid ⟨0, 0, 0⟩ ⟨0, 0, 1⟩
    0 1 (1 / 10)).2.2 1 0 1 rampGrid_march_axis
    (by norm_num [rampGrid_sample]) (by norm_num [rampGrid_sample])
  exact ⟨h1, h2⟩

/-- C17: over the reals, within the contract of `searchRay` (a tolerance
`epsilon ≥ 0` and a positive step), if the field is continuous along the ray
and `searchRay` returns `true` with final bracket `[previousLength, length]`,
the field has a zero `z` with `previousLength < z < length`; when the loop
ended on the width test the returned length exceeds this zero by less than
1/100. -/
theorem searchRay_bracket_contains_zero (g : VoxelGrid ℝ) (origin ray : Vec3 ℝ)
    (L0 ssv eps : ℝ) (fuel : Nat) (p0 l0 p1 l : ℝ)
    (hs : 0 < g.voxelSize * ssv) (heps : 0 ≤ eps)
    (hcont : Continuous (fun t : ℝ => sample g origin ray t))
    (hm : march g origin ray (g.voxelSize * ssv) fuel L0 (sample g origin ray L0) =
      some (MarchExit.crossing p0 l0))
    (hb : bisect g origin ray eps fuel p0 l0 = some (p1, l)) :
    searchRay fuel g origin ray L0 ssv eps = some (true, l) ∧
    ∃ z : ℝ, p1 < z ∧ z < l ∧ sample g origin ray z = 0 ∧
      (|l - p1| < 1 / 100 → 0 < l - z ∧ l - z < 1 / 100) := by
  refine ⟨(searchRay_true_iff fuel g origin ray L0 ssv eps l).mpr ⟨p0, l0, p1, hm, hb⟩, ?_⟩
  obtain ⟨k, hp, hl, hsp, hsl, -, -⟩ :=
    march_crossing_sound g origin ray _ fuel L0 _ p0 l0 rfl hm
  have hlt : p0 < l0 := by rw [hp, hl]; push_cast; linarith
  obtain ⟨-, hpl, -⟩ := bisect_bracket g origin ray eps fuel p0 l0 p1 l hlt hb
  obtain ⟨h1, h2⟩ := bisect_signs g origin ray eps heps fuel p0 l0 p1 l hsp hsl hb
  have hivt := intermediate_value_Icc' (le_of_lt hpl) hcont.continuousOn
  obtain ⟨z, ⟨hz1, hz2⟩, hz⟩ := hivt ⟨le_of_lt h2, le_of_lt h1⟩
  have hz0 : sample g origin ray z = 0 := hz
  have hne1 : z ≠ p1 := by
    intro h; rw [h] at hz0; linarith
  have hne2 : z ≠ l := by
    intro h; rw [h] at hz0; linarith
  have hlt1 : p1 < z := lt_of_le_of_ne hz1 (Ne.symm hne1)
  have hlt2 : z < l := lt_of_le_of_ne hz2 hne2
  refine ⟨z, hlt1, hlt2, hz0, fun hw => ⟨by linarith, ?_⟩⟩
  rw [abs_lt] at hw
  linarith

/-- C17 at a concrete input: the field `1 - 100 z` with step 1/50
and tolerance 1/10, final bracket `[0, 1/50]`. -/
theorem searchRay_bracket_contains_zero_witness :
    ∃ z : ℝ, (0 : ℝ) < z ∧ z < 1 / 50 ∧ sample (steepGrid ℝ) ⟨0, 0, 0⟩ ⟨0, 0, 1⟩ z = 0 := by
  have hm : march (steepGrid ℝ) ⟨0, 0, 0⟩ ⟨0, 0, 1⟩ ((steepGrid ℝ).voxelSize * 1) 1 0
      (sample (steepGrid ℝ) ⟨0, 0, 0⟩ ⟨0, 0, 1⟩ 0) = some (MarchExit.crossing 0 (1 / 50)) := by
    rw [steepGrid_voxelSize]
    norm_num [march_succ, steepGrid_sample, steepGrid_inside]
  have hb : bisect (steepGrid ℝ) ⟨0, 0, 0⟩ ⟨0, 0, 1⟩ (1 / 10) 1 0 (1 / 50) =
      some (0, 1 / 50) := by
    norm_num [bisect_succ, steepGrid_sample]
  obtain ⟨-, z, h1, h2, h3, -⟩ := searchRay_bracket_contains_zero (steepGrid ℝ) ⟨0, 0, 0⟩
    ⟨0, 0, 1⟩ 0 1 (1 / 10) 1 0 (1 / 50) 0 (1 / 50)
    (by rw [steepGrid_voxelSize]; norm_num) (by norm_num) steepGrid_continuous hm hb
  exact ⟨z, h1, h2, h3⟩

end Claims

end Raytracer
